import Mathlib

/-!
# Artillery fire control: range-table interpolation engines

A shallow embedding of the two range-table engines of the repository:

* the GUI engine, `src/src/RangeTable.cpp` and `src/src/MainWindow.cpp`
  (namespaces `RangeTable` and `MainWindow`);
* the CLI engine, `src/cli_calculator.c` (namespace `Cli`), with its loader,
  catalog and `main`;
* the version comparison of `src/auto_updater.c` (namespace `Updater`);
* the C library functions these call (namespace `CLib`).

Numbers: every `double` of the source is a rational (`ℚ`), so arithmetic is
exact.  `ℚ` has a total division with `x / 0 = 0`.  Apart from the constant
100, the source divides by a difference of two ranges only: the CLI and the
2-point branch of the GUI test that difference first, and for the 3-point
branch `RangeTable.neighborRows_distinct` shows that on a table sorted by
range, which is what `loadRows` returns, the neighbours have pairwise distinct
ranges, so that no divisor is zero.  The definitions whose names end in
`Checked` repeat the interpolation with each division as a partial operation.
Arrays and `QVector`s are lists; an index that the source guards is read with
`List.getD`.
-/

set_option autoImplicit false

/-- One sample of a range table (`RangeRow` in `RangeTable.h` and in
`cli_calculator.c`, the same four `double` fields in the same order). -/
structure RangeRow where
  range : ℚ
  mill : ℚ
  diff100m : ℚ
  eta : ℚ
deriving DecidableEq, Repr

/-- A firing solution (`RangeSolution` in `RangeTable.h`). -/
structure RangeSolution where
  charge : Int
  mill : ℚ
  eta : ℚ
  baseMill : ℚ
  diff100m : ℚ
deriving DecidableEq, Repr

/-- The GUI table object (`class RangeTable`): identity and the loaded rows.
The member `m_path` is a function of the other three identity members and is
not stored. -/
structure RangeTable where
  m_system : String
  m_trajectory : String
  m_charge : Int
  m_rows : List RangeRow
deriving DecidableEq, Repr

/-! ## Standard-library algorithms used by the GUI engine -/

/-- The loop of `std::min_element` with comparator `a.range < b.range`:
`smallest` is replaced by a later element only when that one is strictly
smaller. -/
def minElementFrom : RangeRow → List RangeRow → RangeRow
  | smallest, [] => smallest
  | smallest, x :: rest =>
    if x.range < smallest.range then minElementFrom x rest else minElementFrom smallest rest

/-- The loop of `std::max_element` with comparator `a.range < b.range`:
`largest` is replaced by a later element only when that one is strictly
larger. -/
def maxElementFrom : RangeRow → List RangeRow → RangeRow
  | largest, [] => largest
  | largest, x :: rest =>
    if largest.range < x.range then maxElementFrom x rest else maxElementFrom largest rest

/-- The loop of `std::lower_bound(first, last, value)` on the vector `ranges`:
a binary search over the window of `count` elements starting at `first`.
The window at least halves in every round, so `fuel = count` rounds are
enough; see `lowerBoundLoop_fuel` and `lowerBoundLoop_spec`. -/
def lowerBoundLoop (ranges : List ℚ) (value : ℚ) : Nat → Nat → Nat → Nat
  | 0, first, _ => first
  | fuel + 1, first, count =>
    if count = 0 then first
    else
      let step := count / 2
      let it := first + step
      if ranges.getD it 0 < value then
        lowerBoundLoop ranges value fuel (it + 1) (count - (step + 1))
      else
        lowerBoundLoop ranges value fuel first step

/-- The index `it - ranges.begin()` returned by
`std::lower_bound(ranges.begin(), ranges.end(), value)`. -/
def lowerBound (ranges : List ℚ) (value : ℚ) : Nat :=
  lowerBoundLoop ranges value ranges.length 0 ranges.length

/-- One step of the insertion sort that `std::sort` runs on short vectors:
`x` moves towards the front past every element `y` of the sorted part with
`lt x y`, and stops behind the last element that is not greater. -/
def linearInsert {α : Type} (lt : α → α → Bool) (x : α) : List α → List α
  | [] => [x]
  | y :: ys => if (y :: ys).all (fun z => lt x z) then x :: y :: ys else y :: linearInsert lt x ys

/-- The effect of `std::sort(v.begin(), v.end(), lt)` on a vector of at most 16
elements (here at most 3): insertion sort, left to right. -/
def stdSort {α : Type} (lt : α → α → Bool) (v : List α) : List α :=
  v.foldl (fun sorted x => linearInsert lt x sorted) []

namespace RangeTable

/-- The default-constructed `RangeRow{}` (all fields `0.0`). -/
def zeroRow : RangeRow := ⟨0, 0, 0, 0⟩

/-- Source: `RangeTable::isValid`. -/
def isValid (t : RangeTable) : Bool :=
  !t.m_rows.isEmpty

/-- Source: `RangeTable::supportsRange`. -/
def supportsRange (t : RangeTable) (distance : ℚ) : Bool :=
  match t.m_rows with
  | [] => false
  | r :: rest =>
    let minIt := minElementFrom r rest
    let maxIt := maxElementFrom r rest
    decide (distance ≥ minIt.range) && decide (distance ≤ maxIt.range)

/-- The first statement of the loop body over `remaining` in `neighborRows`:
`row` is appended when `std::none_of` finds no neighbour with the same
range. -/
def pushIfNew (neighbors : List RangeRow) (row : RangeRow) : List RangeRow :=
  if neighbors.all (fun r => !decide (r.range = row.range)) then neighbors ++ [row]
  else neighbors

/-- The loop `for (const auto &row : remaining)` of `neighborRows`: a row is
appended unless a neighbour with the same range is already present, and the
loop stops as soon as there are three neighbours. -/
def extendNeighbors : List RangeRow → List RangeRow → List RangeRow
  | neighbors, [] => neighbors
  | neighbors, row :: rest =>
    if (pushIfNew neighbors row).length ≥ 3 then pushIfNew neighbors row
    else extendNeighbors (pushIfNew neighbors row) rest

/-- The primary pair of `neighborRows`: the rows just before and at the
insertion point `idx`. -/
def primaryRows (rows : List RangeRow) (idx : Nat) : List RangeRow :=
  (if idx > 0 then [rows.getD (idx - 1) zeroRow] else []) ++
  (if idx < rows.length then [rows.getD idx zeroRow] else [])

/-- The candidates `remaining` of `neighborRows`, before they are sorted: one
row further back and one row further forward. -/
def remainingRows (rows : List RangeRow) (idx : Nat) : List RangeRow :=
  (if idx ≥ 2 then [rows.getD (idx - 2) zeroRow] else []) ++
  (if idx + 1 < rows.length then [rows.getD (idx + 1) zeroRow] else [])

/-- Source: `RangeTable::neighborRows`. -/
def neighborRows (t : RangeTable) (distance : ℚ) : List RangeRow :=
  if t.m_rows.isEmpty then []
  else
    let ranges := t.m_rows.map (fun row => row.range)
    let idx := lowerBound ranges distance
    let neighbors := primaryRows t.m_rows idx
    let remaining := stdSort (fun a b => decide (|a.range - distance| < |b.range - distance|))
      (remainingRows t.m_rows idx)
    let neighbors := extendNeighbors neighbors remaining
    stdSort (fun a b => decide (a.range < b.range)) neighbors

/-- The lambda `basis` of `RangeTable::interpolate`. -/
def basis (x a b : ℚ) : ℚ :=
  (x - a) / (b - a)

/-- The 2-point branch of `RangeTable::interpolate` on `lower`, `upper`. -/
def linear2 (lower upper : RangeRow) (distance : ℚ) (field : RangeRow → ℚ) : ℚ :=
  if upper.range = lower.range then field lower
  else
    let ratio := (distance - lower.range) / (upper.range - lower.range)
    field lower + ratio * (field upper - field lower)

/-- The 3-point branch of `RangeTable::interpolate` on the first three
neighbours. -/
def quadratic3 (n0 n1 n2 : RangeRow) (distance : ℚ) (field : RangeRow → ℚ) : ℚ :=
  let x0 := n0.range
  let x1 := n1.range
  let x2 := n2.range
  let y0 := field n0
  let y1 := field n1
  let y2 := field n2
  let t0 := basis distance x1 x0 * basis distance x2 x0
  let t1 := basis distance x0 x1 * basis distance x2 x1
  let t2 := basis distance x0 x2 * basis distance x1 x2
  y0 * t0 + y1 * t1 + y2 * t2

/-- Source: `RangeTable::interpolate`; the member pointer `field` is a
projection.  The test `size == 2 || neighbors[0].range == neighbors[1].range`
is the case split between the pattern `[lower, upper]` and the test in the
last pattern. -/
def interpolate (neighbors : List RangeRow) (distance : ℚ) (field : RangeRow → ℚ) : ℚ :=
  match neighbors with
  | [] => 0
  | [only] => field only
  | [lower, upper] => linear2 lower upper distance field
  | n0 :: n1 :: n2 :: _ =>
    if n0.range = n1.range then linear2 n0 n1 distance field
    else quadratic3 n0 n1 n2 distance field

/-- Source: `RangeTable::calculate`; `none` is `std::nullopt`. -/
def calculate (t : RangeTable) (distance altitudeDelta : ℚ) : Option RangeSolution :=
  if !t.supportsRange distance then none
  else
    let neighbors := t.neighborRows distance
    if neighbors.isEmpty then none
    else
      let baseMill := interpolate neighbors distance RangeRow.mill
      let diff100m := interpolate neighbors distance RangeRow.diff100m
      let eta := interpolate neighbors distance RangeRow.eta
      some
        { charge := t.m_charge
          baseMill := baseMill
          diff100m := diff100m
          mill := baseMill + (altitudeDelta / 100) * diff100m
          eta := eta }

/-- The value `calculate` returns when it passes both guards. -/
def solutionAt (t : RangeTable) (distance altitudeDelta : ℚ) : RangeSolution :=
  { charge := t.m_charge
    baseMill := interpolate (t.neighborRows distance) distance RangeRow.mill
    diff100m := interpolate (t.neighborRows distance) distance RangeRow.diff100m
    mill := interpolate (t.neighborRows distance) distance RangeRow.mill +
      (altitudeDelta / 100) * interpolate (t.neighborRows distance) distance RangeRow.diff100m
    eta := interpolate (t.neighborRows distance) distance RangeRow.eta }

end RangeTable

/-- Source: `filePrefixForSystem` with the map of `prefixMap()`: only
`RM-70` is renamed. -/
def filePrefixForSystem (system : String) : String :=
  if system = "RM-70" then "RM70" else system

/-- The constructor `RangeTable::RangeTable`.  The parameter `loadRows` is the
result of the member `loadRows()` per file name below `rangeTables/`, the
empty list when the file cannot be opened. -/
def RangeTable.construct (loadRows : String → List RangeRow)
    (system trajectory : String) (charge : Int) : RangeTable :=
  let pre := filePrefixForSystem system
  let path := pre ++ "_rangeTable_" ++ trajectory ++ "_" ++ toString charge ++ ".csv"
  { m_system := system, m_trajectory := trajectory, m_charge := charge, m_rows := loadRows path }

/-- Source: `SystemTrajectoryOverride` in `RangeTable.h`. -/
structure SystemTrajectoryOverride where
  low : List Int
  high : List Int
deriving DecidableEq, Repr

/-- Source: `trajectoryOverrides().value(system)`: the single entry
`{"M1129", {{}, {0, 1, 2}}}`, and a default-constructed value for every other
key. -/
def trajectoryOverrides (system : String) : SystemTrajectoryOverride :=
  if system = "M1129" then { low := [], high := [0, 1, 2] } else { low := [], high := [] }

namespace MainWindow

/-- The file system as the GUI sees it: the rows `loadRows()` yields per file
name, and the charges `availableCharges(system, trajectory)` discovers. -/
structure Disk where
  loadRows : String → List RangeRow
  availableCharges : String → String → List Int

/-- The loop of `MainWindow::findSolutions`, with the solutions gathered so
far. -/
def findSolutionsLoop (disk : Disk) (system trajectory : String) (distance altitudeDelta : ℚ) :
    List Int → List RangeSolution → List RangeSolution
  | [], solutions => solutions
  | charge :: rest, solutions =>
    let table := RangeTable.construct disk.loadRows system trajectory charge
    if !table.isValid then
      findSolutionsLoop disk system trajectory distance altitudeDelta rest solutions
    else
      let solutions :=
        match table.calculate distance altitudeDelta with
        | some result => solutions ++ [result]
        | none => solutions
      if solutions.length ≥ 3 then solutions
      else findSolutionsLoop disk system trajectory distance altitudeDelta rest solutions

/-- Source: `MainWindow::findSolutions`; `system` is the current text of the
system combo box. -/
def findSolutions (disk : Disk) (system trajectory : String) (charges : List Int)
    (distance altitudeDelta : ℚ) : List RangeSolution :=
  findSolutionsLoop disk system trajectory distance altitudeDelta charges []

/-- What `MainWindow::calculate` hands to `updateTable` and `appendLog`. -/
structure Outcome where
  altitudeDelta : ℚ
  lowCharges : List Int
  highCharges : List Int
  lowSolutions : List RangeSolution
  highSolutions : List RangeSolution

/-- Source: `MainWindow::calculate`, after the three text fields have parsed
as numbers. -/
def calculate (disk : Disk) (system : String) (myAlt targetAlt distance : ℚ) : Outcome :=
  let altitudeDelta := myAlt - targetAlt
  let overrides := trajectoryOverrides system
  let lowCharges :=
    if overrides.low.isEmpty then disk.availableCharges system "low" else overrides.low
  let highCharges :=
    if overrides.high.isEmpty then disk.availableCharges system "high" else overrides.high
  { altitudeDelta := altitudeDelta
    lowCharges := lowCharges
    highCharges := highCharges
    lowSolutions := findSolutions disk system "low" lowCharges distance altitudeDelta
    highSolutions := findSolutions disk system "high" highCharges distance altitudeDelta }

end MainWindow

/-! ## The CLI engine (`src/cli_calculator.c`) -/

namespace Cli

/-- The C struct `RangeTable`: `count` is the length of `rows`. -/
structure RangeTable where
  rows : List RangeRow
  min_range : ℚ
  max_range : ℚ
deriving DecidableEq, Repr

/-- The number of rows, `table->count`. -/
def RangeTable.count (t : RangeTable) : Nat :=
  t.rows.length

/-- The C struct `TableInfo`. -/
structure TableInfo where
  system : String
  trajectory : String
  charge : Int
  table : RangeTable
deriving DecidableEq, Repr

/-- The envelope assignments at the end of `load_csv`
(`min_range = rows[0].range`, `max_range = rows[count - 1].range`), made when
`count > 0`; an empty table keeps the zeros of `memset`. -/
def tableOfRows (rows : List RangeRow) : RangeTable :=
  match rows with
  | [] => { rows := [], min_range := 0, max_range := 0 }
  | r :: rest =>
    { rows := r :: rest, min_range := r.range, max_range := ((r :: rest).getLastD r).range }

/-- Source: `supports_range`; the C `int` result is a `Bool`. -/
def supports_range (table : RangeTable) (distance : ℚ) : Bool :=
  if table.count = 0 then false
  else
    let min := table.min_range
    let max := table.max_range
    decide (distance ≥ min) && decide (distance ≤ max)

/-- The `for` loop of `interpolate` from index `i` on, `rest` being
`rows[i..count)`: `some result` when the loop returns, `none` when it runs
off the end. -/
def interpolateLoop (distance : ℚ) : RangeRow → List RangeRow → Option RangeRow
  | _, [] => none
  | prev, curr :: rest =>
    if curr.range ≥ distance then
      let span := curr.range - prev.range
      let ratio := if span = 0 then 0 else (distance - prev.range) / span
      some
        { range := distance
          mill := prev.mill + ratio * (curr.mill - prev.mill)
          diff100m := prev.diff100m + ratio * (curr.diff100m - prev.diff100m)
          eta := prev.eta + ratio * (curr.eta - prev.eta) }
    else interpolateLoop distance curr rest

/-- Source: `interpolate`. -/
def interpolate (table : RangeTable) (distance : ℚ) : RangeRow :=
  match table.rows with
  | [] => ⟨0, 0, 0, 0⟩
  | first :: rest =>
    match interpolateLoop distance first rest with
    | some result => result
    | none => (first :: rest).getD (table.count - 1) ⟨0, 0, 0, 0⟩

/-- One block of standard output of `print_results`. -/
structure ResultBlock where
  system : String
  trajectory : String
  charge : Int
  distance : ℚ
  altitude_delta : ℚ
  base_mill : ℚ
  diff100m : ℚ
  adjusted_mill : ℚ
  eta : ℚ
deriving DecidableEq, Repr

/-- The locals of `print_results` that live across loop rounds, and the
blocks printed so far. -/
structure PrintState where
  printed : Bool
  overall_min : ℚ
  overall_max : ℚ
  blocks : List ResultBlock
deriving DecidableEq, Repr

/-- The part of the loop body of `print_results` after the `continue`: the
interpolation, the altitude correction and the seven `printf` lines. -/
def resultBlock (info : TableInfo) (distance altitude_delta : ℚ) : ResultBlock :=
  let row := interpolate info.table distance
  let mill_adjust := (altitude_delta / 100) * row.diff100m
  let final_mill := row.mill + mill_adjust
  { system := info.system, trajectory := info.trajectory, charge := info.charge
    distance := distance, altitude_delta := altitude_delta, base_mill := row.mill
    diff100m := row.diff100m, adjusted_mill := final_mill, eta := row.eta }

/-- The body of the `for` loop of `print_results` for one table. -/
def printStep (distance altitude_delta : ℚ) (s : PrintState) (info : TableInfo) : PrintState :=
  let overall_min :=
    if info.table.count > 0 ∧ info.table.min_range < s.overall_min then info.table.min_range
    else s.overall_min
  let overall_max :=
    if info.table.count > 0 ∧ info.table.max_range > s.overall_max then info.table.max_range
    else s.overall_max
  if !supports_range info.table distance then
    { s with overall_min := overall_min, overall_max := overall_max }
  else
    { printed := true
      overall_min := overall_min
      overall_max := overall_max
      blocks := s.blocks ++ [resultBlock info distance altitude_delta] }

/-- What `print_results` does: the blocks on standard output, the return
value `printed`, and the envelope of the out-of-range message on standard
error when that message is written. -/
structure PrintOutcome where
  blocks : List ResultBlock
  printed : Bool
  envelope : Option (ℚ × ℚ)
deriving DecidableEq, Repr

/-- Source: `print_results`. -/
def print_results (tables : List TableInfo) (distance altitude_delta : ℚ) : PrintOutcome :=
  let start : PrintState :=
    { printed := false, overall_min := 1000000000, overall_max := -1000000000, blocks := [] }
  let s := tables.foldl (printStep distance altitude_delta) start
  { blocks := s.blocks
    printed := s.printed
    envelope :=
      if !s.printed ∧ s.overall_max ≥ 0 then some (s.overall_min, s.overall_max) else none }

end Cli

/-! ## C library functions used by the CLI and the updater

Strings are lists of characters.  An `int` has 32 bits and a `long` 64: `%d`
and `atoi` convert the digits with `strtol` and store the `long` in an `int`,
which keeps its low 32 bits (the conversions of glibc; the C standard leaves
the value open when the number does not fit).  `atof` yields the rational a
decimal or hexadecimal numeral denotes, without rounding (the infinities and
`nan` are outside the model). -/

namespace CLib

/-- The C function `isspace` in the "C" locale: space and the characters 9 to 13. -/
def isspace (c : Char) : Bool :=
  c.toNat = 32 || (9 ≤ c.toNat && c.toNat ≤ 13)

/-- The C function `isdigit`. -/
def isdigit (c : Char) : Bool :=
  48 ≤ c.toNat && c.toNat ≤ 57

/-- The number a string of decimal digits denotes. -/
def decimalValue (digits : List Char) : Nat :=
  digits.foldl (fun acc c => 10 * acc + (c.toNat - 48)) 0

/-- An optional sign in front of a number: whether it is `-`, and the rest. -/
def scanSign : List Char → Bool × List Char
  | '-' :: rest => (true, rest)
  | '+' :: rest => (false, rest)
  | s => (false, s)

/-- Source: `LONG_MAX` of a `long` of 64 bits. -/
def LONG_MAX : Int := 9223372036854775807

/-- Source: `INT_MAX` of an `int` of 32 bits. -/
def INT_MAX : Int := 2147483647

/-- The value `strtol` returns for a number: the number itself, and `LONG_MAX`
or `LONG_MIN` for a number beyond the range of `long`. -/
def clampLong (v : Int) : Int :=
  if v > LONG_MAX then LONG_MAX
  else if v < -LONG_MAX - 1 then -LONG_MAX - 1
  else v

/-- The value an `int` holds after a `long` is stored in it: the number of the
range of `int` that agrees with it in the low 32 bits. -/
def toInt32 (v : Int) : Int :=
  (v + 2147483648) % 4294967296 - 2147483648

/-- The conversion `%d` of `sscanf` (and the conversion inside `atoi`): white
space is skipped, then an optional sign and at least one decimal digit are
read, converted as by `strtol` and stored in an `int`.  Result: the value of
the `int` and the unread rest, or `none` when no digit is there. -/
def scanInt (s : List Char) : Option (Int × List Char) :=
  let (neg, s) := scanSign (s.dropWhile isspace)
  let (digits, rest) := s.span isdigit
  if digits.isEmpty then none
  else
    some (toInt32 (clampLong
      (if neg then -(decimalValue digits : Int) else (decimalValue digits : Int))), rest)

/-- The C function `atoi`, that is `(int) strtol(s, NULL, 10)`: the value `%d`
would read, 0 when there is none. -/
def atoi (s : List Char) : Int :=
  match scanInt s with
  | some (v, _) => v
  | none => 0

/-- The exponent part of a decimal floating-point numeral: `e` or `E`, an
optional sign and at least one digit; 0 when that is not what follows. -/
def scanExponent : List Char → Int
  | c :: rest =>
    if c = 'e' ∨ c = 'E' then
      let (neg, rest) := scanSign rest
      let (digits, _) := rest.span isdigit
      if digits.isEmpty then 0
      else if neg then -(decimalValue digits : Int) else (decimalValue digits : Int)
    else 0
  | [] => 0

/-- The C function `isxdigit`. -/
def isxdigit (c : Char) : Bool :=
  isdigit c || (97 ≤ c.toNat && c.toNat ≤ 102) || (65 ≤ c.toNat && c.toNat ≤ 70)

/-- The value of a hexadecimal digit. -/
def hexDigitValue (c : Char) : Nat :=
  if isdigit c then c.toNat - 48
  else if 97 ≤ c.toNat then c.toNat - 87
  else c.toNat - 55

/-- The number a string of hexadecimal digits denotes. -/
def hexValue (digits : List Char) : Nat :=
  digits.foldl (fun acc c => 16 * acc + hexDigitValue c) 0

/-- The exponent part of a hexadecimal floating-point numeral: `p` or `P`, an
optional sign and at least one decimal digit; 0 when that is not what
follows. -/
def scanBinaryExponent : List Char → Int
  | c :: rest =>
    if c = 'p' ∨ c = 'P' then
      let (neg, rest) := scanSign rest
      let (digits, _) := rest.span isdigit
      if digits.isEmpty then 0
      else if neg then -(decimalValue digits : Int) else (decimalValue digits : Int)
    else 0
  | [] => 0

/-- A floating-point numeral as `atof` reads it: sign, the digits of the whole
and the fractional part read as one number, and the power of the base to scale
it by (the exponent minus the places the fractional digits take).  The base is
10 for a decimal numeral and 2 for a hexadecimal one. -/
structure Numeral where
  negative : Bool
  mantissa : Nat
  scale : Int
  base : Nat := 10
deriving DecidableEq, Repr

/-- A hexadecimal numeral after the sign, as `strtod` finds it: `0x` or `0X`,
hexadecimal digits with an optional fraction (at least one digit in all) and
an optional binary exponent; `none` when the text does not start like this. -/
def scanHexNumeral (neg : Bool) : List Char → Option Numeral
  | '0' :: x :: s =>
    if x = 'x' ∨ x = 'X' then
      let (whole, s) := s.span isxdigit
      let (fraction, s) :=
        match s with
        | '.' :: rest => rest.span isxdigit
        | _ => ([], s)
      if whole.isEmpty && fraction.isEmpty then none
      else
        some { negative := neg
               mantissa := hexValue (whole ++ fraction)
               scale := scanBinaryExponent s - 4 * (fraction.length : Int)
               base := 2 }
    else none
  | _ => none

/-- The numeral at the start of a string, as `strtod` finds it: white space is
skipped, then an optional sign and either a hexadecimal numeral or decimal
digits with an optional fraction (at least one digit in all) and an optional
exponent are read; `none` when the text does not start like this. -/
def scanNumeral (s : List Char) : Option Numeral :=
  let (neg, s) := scanSign (s.dropWhile isspace)
  match scanHexNumeral neg s with
  | some n => some n
  | none =>
    let (whole, s) := s.span isdigit
    let (fraction, s) :=
      match s with
      | '.' :: rest => rest.span isdigit
      | _ => ([], s)
    if whole.isEmpty && fraction.isEmpty then none
    else
      some { negative := neg
             mantissa := decimalValue (whole ++ fraction)
             scale := scanExponent s - (fraction.length : Int) }

/-- The number a numeral denotes. -/
def Numeral.value (n : Numeral) : ℚ :=
  (if n.negative then -(n.mantissa : ℚ) else (n.mantissa : ℚ)) * (n.base : ℚ) ^ n.scale

/-- The C function `atof` on decimal and hexadecimal numerals: the value of
the numeral the string starts with, whatever follows it, and 0 when it starts
with none.  The texts `inf`, `infinity` and `nan`, which `atof` reads as
values that are no numbers, are read as no numeral. -/
def atof (s : List Char) : ℚ :=
  match scanNumeral s with
  | some n => n.value
  | none => 0

/-- The tokens successive calls of `strtok(line, delimiters)` return: the
maximal non-empty runs of characters that are not delimiters.  `current` is
the token being read. -/
def strtokFrom (isDelimiter : Char → Bool) : List Char → List Char → List (List Char)
  | current, [] => if current.isEmpty then [] else [current]
  | current, c :: rest =>
    if isDelimiter c then
      if current.isEmpty then strtokFrom isDelimiter [] rest
      else current :: strtokFrom isDelimiter [] rest
    else strtokFrom isDelimiter (current ++ [c]) rest

/-- All tokens of a line, as `strtok` delivers them. -/
def strtok (isDelimiter : Char → Bool) (line : List Char) : List (List Char) :=
  strtokFrom isDelimiter [] line

/-- A literal piece of a `sscanf` format (no white space, no `%`): the input
has to start with it; the result is the unread rest. -/
def scanLiteral : List Char → List Char → Option (List Char)
  | [], s => some s
  | _ :: _, [] => none
  | f :: format, c :: s => if f = c then scanLiteral format s else none

/-- The number of bytes a character takes in a C string (UTF-8). -/
def byteLength (c : Char) : Nat :=
  if c.toNat ≤ 127 then 1
  else if c.toNat ≤ 2047 then 2
  else if c.toNat ≤ 65535 then 3
  else 4

/-- The characters at the start of a string that fit in `room` bytes. -/
def takeBytes : Nat → List Char → List Char
  | _, [] => []
  | room, c :: rest =>
    if byteLength c ≤ room then c :: takeBytes (room - byteLength c) rest else []

/-- The conversion `%63[^_]` of `sscanf`: the longest run of at most 63 bytes
other than `_`, which must not be empty.  When the 63rd byte falls inside a
character, the buffer of the source also holds the first bytes of that
character; what is left unread does not start with `_` in either case. -/
def scanNoUnderscore (s : List Char) : Option (List Char × List Char) :=
  let run := takeBytes 63 (s.takeWhile (fun c => c ≠ '_'))
  if run.isEmpty then none else some (run, s.drop run.length)

/-- The effect of `qsort(base, count, size, cmp)`: the elements in ascending
order of `cmp`.  The C standard leaves the order of elements that compare
equal open; here they keep their order. -/
def qsort {α : Type} (cmp : α → α → Int) (base : List α) : List α :=
  stdSort (fun a b => decide (cmp a b < 0)) base

end CLib

namespace Cli

/-- Source: `MAX_ROWS`. -/
def MAX_ROWS : Nat := 4000

/-- Source: `MAX_TABLES`. -/
def MAX_TABLES : Nat := 64

/-- Source: `cmp_range`. -/
def cmp_range (a b : RangeRow) : Int :=
  if a.range < b.range then -1
  else if a.range > b.range then 1
  else 0

/-- The delimiters `",\n\r"` of the `strtok` calls in `load_csv`. -/
def isFieldDelimiter (c : Char) : Bool :=
  c = ',' || c = '\n' || c = '\r'

/-- The body of the read loop of `load_csv` for one line: the first four
tokens are converted with `atof`, and a row is stored when there are four
(`col >= 4`). -/
def parseDataLine (line : String) : Option RangeRow :=
  match CLib.strtok isFieldDelimiter line.toList with
  | t0 :: t1 :: t2 :: t3 :: _ =>
    some { range := CLib.atof t0, mill := CLib.atof t1, diff100m := CLib.atof t2,
           eta := CLib.atof t3 }
  | _ => none

/-- The read loop of `load_csv`: `lines` are the strings `fgets` still has to
deliver, `rows` the rows stored so far (`idx` is their number).  The loop ends
at the end of the file or when `idx` reaches `MAX_ROWS`. -/
def readLoop : List String → List RangeRow → List RangeRow
  | [], rows => rows
  | line :: rest, rows =>
    if rows.length < MAX_ROWS then
      match parseDataLine line with
      | some row => readLoop rest (rows ++ [row])
      | none => readLoop rest rows
    else rows

/-- Source: `load_csv`.  `file` is `none` when `fopen` fails, and otherwise
the strings successive calls of `fgets(line, 256, fp)` deliver (a line of the
file, or a piece of at most 255 characters of a longer line).  `table` is the
table the caller hands in.  Result: the return value and the table
afterwards. -/
def load_csv (file : Option (List String)) (table : RangeTable) : Int × RangeTable :=
  match file with
  | none => (-1, table)
  | some [] => (-1, table)
  | some (_ :: lines) =>
    let rows := readLoop lines []
    if rows.length > 0 then
      let sorted := CLib.qsort cmp_range rows
      (0, { rows := sorted
            min_range := (sorted.getD 0 ⟨0, 0, 0, 0⟩).range
            max_range := (sorted.getD (sorted.length - 1) ⟨0, 0, 0, 0⟩).range })
    else (0, { table with rows := [] })

/-- The table after `memset(&info, 0, sizeof(info))` in `load_tables`. -/
def zeroTable : RangeTable :=
  { rows := [], min_range := 0, max_range := 0 }

end Cli

namespace Cli

/-- Source: `parse_filename`, that is
`sscanf(name, "%63[^_]_rangeTable_%63[^_]_%d.csv", ...) == 3`: the three
conversions have succeeded once `%d` has read a number, whatever follows the
number.  Result: system, trajectory and charge, or `none` for the return
value 0. -/
def parse_filename (name : String) : Option (String × String × Int) := do
  let (sys_buf, s) ← CLib.scanNoUnderscore name.toList
  let s ← CLib.scanLiteral "_rangeTable_".toList s
  let (traj_buf, s) ← CLib.scanNoUnderscore s
  let s ← CLib.scanLiteral "_".toList s
  let (parsed_charge, _) ← CLib.scanInt s
  pure (String.mk sys_buf, String.mk traj_buf, parsed_charge)

/-- One entry `readdir` returns: its name, and whether `d_type` is `DT_DIR`. -/
structure DirEntry where
  d_name : String
  is_dir : Bool
deriving DecidableEq, Repr

/-- The files the CLI reads: the entries of the directory `rangeTables` in the
order `readdir` returns them (`none` when `opendir` fails), and for each path
the strings `fgets` delivers (`none` when `fopen` fails). -/
structure FileSystem where
  rangeTables : Option (List DirEntry)
  fopen : String → Option (List String)

/-- The `while` loop of `load_tables`: `tables` are the entries stored so far
(`idx` is their number). -/
def loadTablesLoop (fs : FileSystem) (system_filter trajectory_filter : Option String) :
    List DirEntry → List TableInfo → List TableInfo
  | [], tables => tables
  | entry :: rest, tables =>
    if tables.length ≥ MAX_TABLES then tables
    else if entry.is_dir then loadTablesLoop fs system_filter trajectory_filter rest tables
    else if entry.d_name.toList.head? = some '.' then
      loadTablesLoop fs system_filter trajectory_filter rest tables
    else
      match parse_filename entry.d_name with
      | none => loadTablesLoop fs system_filter trajectory_filter rest tables
      | some (system, trajectory, charge) =>
        if system_filter.isSome ∧ system_filter ≠ some system then
          loadTablesLoop fs system_filter trajectory_filter rest tables
        else if trajectory_filter.isSome ∧ trajectory_filter ≠ some trajectory then
          loadTablesLoop fs system_filter trajectory_filter rest tables
        else
          let path := "rangeTables/" ++ entry.d_name
          let loaded := load_csv (fs.fopen path) zeroTable
          if loaded.1 = 0 then
            loadTablesLoop fs system_filter trajectory_filter rest
              (tables ++ [{ system := system, trajectory := trajectory, charge := charge
                            table := loaded.2 }])
          else loadTablesLoop fs system_filter trajectory_filter rest tables

/-- Source: `load_tables`.  Result: the return value and the tables stored
(`*count` is their number). -/
def load_tables (fs : FileSystem) (system_filter trajectory_filter : Option String) :
    Int × List TableInfo :=
  match fs.rangeTables with
  | none => (-1, [])
  | some entries =>
    let tables := loadTablesLoop fs system_filter trajectory_filter entries []
    (if tables.length = 0 then -1 else 0, tables)

/-- The locals of `main` that the command line sets, with their initial
values. -/
structure Options where
  system : Option String := none
  trajectory : Option String := none
  charge : Int := -1
  distance : ℚ := -1
  altitude_delta : ℚ := 0
  list_only : Bool := false
  show_version : Bool := false
deriving DecidableEq, Repr

/-- The argument loop of `main` over `argv[i..]`. -/
def parseArgs : List String → Options → Options
  | [], o => o
  | [arg], o =>
    if arg = "--list" then { o with list_only := true }
    else if arg = "--version" then { o with show_version := true }
    else o
  | arg :: value :: rest, o =>
    if arg = "--system" then parseArgs rest { o with system := some value }
    else if arg = "--trajectory" then parseArgs rest { o with trajectory := some value }
    else if arg = "--charge" then parseArgs rest { o with charge := CLib.atoi value.toList }
    else if arg = "--distance" then parseArgs rest { o with distance := CLib.atof value.toList }
    else if arg = "--altitude-delta" then
      parseArgs rest { o with altitude_delta := CLib.atof value.toList }
    else if arg = "--list" then parseArgs (value :: rest) { o with list_only := true }
    else if arg = "--version" then parseArgs (value :: rest) { o with show_version := true }
    else parseArgs (value :: rest) o

/-- How a run of `main` ends. -/
inductive Exit where
  | version
  | usage
  | loadFailed
  | listed (tables : List TableInfo)
  | noTableForCharge (charge : Int)
  | evaluated (tables : List TableInfo) (outcome : PrintOutcome)
deriving DecidableEq, Repr

/-- The return value of `main`. -/
def Exit.code : Exit → Int
  | .version => 0
  | .usage => 1
  | .loadFailed => 1
  | .listed _ => 0
  | .noTableForCharge _ => 1
  | .evaluated _ outcome => if outcome.printed then 0 else 1

/-- The end of `main`, from the charge filter on: the filter is applied when
`charge >= 0`, and `print_results` evaluates what is left. -/
def queryPhase (tables : List TableInfo) (charge : Int) (distance altitude_delta : ℚ) : Exit :=
  if charge ≥ 0 then
    let filtered := tables.filter (fun info => decide (info.charge = charge))
    if filtered.length = 0 then Exit.noTableForCharge charge
    else Exit.evaluated filtered (print_results filtered distance altitude_delta)
  else Exit.evaluated tables (print_results tables distance altitude_delta)

/-- Source: `main`; `args` is `argv[1..]`.  The two `calloc` calls are taken to
succeed. -/
def main (fs : FileSystem) (args : List String) : Exit :=
  let o := parseArgs args {}
  if o.show_version then Exit.version
  else
    match o.system with
    | none => Exit.usage
    | some system =>
      let loaded := load_tables fs (some system) o.trajectory
      if loaded.1 ≠ 0 then Exit.loadFailed
      else if o.list_only then Exit.listed loaded.2
      else if o.distance ≤ 0 then Exit.usage
      else queryPhase loaded.2 o.charge o.distance o.altitude_delta

end Cli

/-! ## The updater (`src/auto_updater.c`) -/

namespace Updater

/-- The call `sscanf(a, "%d.%d.%d", &m, &p, &c)` on three variables that are 0
before: the conversions succeed from left to right, and the first one that
fails, or a missing dot, ends the call. -/
def scanVersion (s : List Char) : Int × Int × Int :=
  match CLib.scanInt s with
  | none => (0, 0, 0)
  | some (m, s) =>
    match CLib.scanLiteral ['.'] s with
    | none => (m, 0, 0)
    | some s =>
      match CLib.scanInt s with
      | none => (m, 0, 0)
      | some (p, s) =>
        match CLib.scanLiteral ['.'] s with
        | none => (m, p, 0)
        | some s =>
          match CLib.scanInt s with
          | none => (m, p, 0)
          | some (c, _) => (m, p, c)

/-- Source: `compare_versions`. -/
def compare_versions (a b : String) : Int :=
  let (ma, pa, ca) := scanVersion a.toList
  let (mb, pb, cb) := scanVersion b.toList
  if ma ≠ mb then (if ma > mb then 1 else -1)
  else if pa ≠ pb then (if pa > pb then 1 else -1)
  else if ca ≠ cb then (if ca > cb then 1 else -1)
  else 0

end Updater

namespace Updater

/-- A version string given by its components: the components joined by
dots. -/
def versionText (components : List (List Char)) : List Char :=
  List.intercalate ['.'] components

/-- One to three components, each a non-empty string of decimal digits. -/
def WellFormedVersion (components : List (List Char)) : Prop :=
  (1 ≤ components.length ∧ components.length ≤ 3) ∧
  ∀ c ∈ components, c ≠ [] ∧ c.all CLib.isdigit = true

instance (components : List (List Char)) : Decidable (WellFormedVersion components) := by
  unfold WellFormedVersion; infer_instance

/-- Every component denotes a number that an `int` can hold: at most
`INT_MAX`. -/
def ComponentsFitInt (components : List (List Char)) : Prop :=
  ∀ c ∈ components, (CLib.decimalValue c : Int) ≤ CLib.INT_MAX

instance (components : List (List Char)) : Decidable (ComponentsFitInt components) := by
  unfold ComponentsFitInt; infer_instance

/-- The number a component of a version denotes, 0 when the version has no
such component. -/
def componentValue (components : List (List Char)) (i : Nat) : Int :=
  match components.get? i with
  | some c => (CLib.decimalValue c : Int)
  | none => 0

/-- The triple (major, minor, patch) of a version, in the lexicographic
order. -/
def versionTriple (components : List (List Char)) : ℤ ×ₗ (ℤ ×ₗ ℤ) :=
  toLex (componentValue components 0,
    toLex (componentValue components 1, componentValue components 2))

end Updater

/-- The end of `RangeTable::loadRows`: the rows pushed by the read loop, sorted
by `std::sort` with the comparator `a.range < b.range`.  `rowOfLine` is the
body of the read loop: the row a line yields under the header of the file when
all four columns hold a number.  A vector of more than 16 rows is sorted by
introsort, which may order rows of equal range differently. -/
def RangeTable.loadRowsOf (rowOfLine : String → Option RangeRow) (file : Option (List String)) :
    List RangeRow :=
  match file with
  | none => []
  | some lines =>
    stdSort (fun a b => decide (a.range < b.range)) ((lines.drop 1).filterMap rowOfLine)

/-! ## The interpolation with every division checked

The same code once more, with each division of the source as a partial
operation, to state that a run divides by zero nowhere. -/

/-- A division of the source as a partial operation: `none` when the divisor
is zero. -/
def CLib.divide (a b : ℚ) : Option ℚ :=
  if b = 0 then none else some (a / b)

namespace RangeTable

/-- The lambda `basis` of `RangeTable::interpolate`, its division checked. -/
def basisChecked (x a b : ℚ) : Option ℚ :=
  CLib.divide (x - a) (b - a)

/-- The 2-point branch of `RangeTable::interpolate`, its division checked. -/
def linear2Checked (lower upper : RangeRow) (distance : ℚ) (field : RangeRow → ℚ) : Option ℚ :=
  if upper.range = lower.range then some (field lower)
  else do
    let ratio ← CLib.divide (distance - lower.range) (upper.range - lower.range)
    pure (field lower + ratio * (field upper - field lower))

/-- The 3-point branch of `RangeTable::interpolate`, its six divisions
checked. -/
def quadratic3Checked (n0 n1 n2 : RangeRow) (distance : ℚ) (field : RangeRow → ℚ) : Option ℚ := do
  let x0 := n0.range
  let x1 := n1.range
  let x2 := n2.range
  let y0 := field n0
  let y1 := field n1
  let y2 := field n2
  let t0 := (← basisChecked distance x1 x0) * (← basisChecked distance x2 x0)
  let t1 := (← basisChecked distance x0 x1) * (← basisChecked distance x2 x1)
  let t2 := (← basisChecked distance x0 x2) * (← basisChecked distance x1 x2)
  pure (y0 * t0 + y1 * t1 + y2 * t2)

/-- Source: `RangeTable::interpolate`, its divisions checked: `none` when a
divisor is zero. -/
def interpolateChecked (neighbors : List RangeRow) (distance : ℚ) (field : RangeRow → ℚ) :
    Option ℚ :=
  match neighbors with
  | [] => some 0
  | [only] => some (field only)
  | [lower, upper] => linear2Checked lower upper distance field
  | n0 :: n1 :: n2 :: _ =>
    if n0.range = n1.range then linear2Checked n0 n1 distance field
    else quadratic3Checked n0 n1 n2 distance field

end RangeTable

namespace Cli

/-- The expression `span == 0 ? 0.0 : (distance - prev.range) / span` of
`interpolate`, its division checked. -/
def ratioChecked (prev curr : RangeRow) (distance : ℚ) : Option ℚ :=
  let span := curr.range - prev.range
  if span = 0 then some 0 else CLib.divide (distance - prev.range) span

end Cli

/-- The rows of the table of Scenario A. -/
def scenarioRows : List RangeRow :=
  [⟨1000, 10, 1, 5⟩, ⟨2000, 20, 2, 10⟩, ⟨3000, 35, 3 / 2, 14⟩]

/-- Scenario A as a GUI table. -/
def scenarioTable : RangeTable :=
  { m_system := "M109A6", m_trajectory := "low", m_charge := 3, m_rows := scenarioRows }

/-- Scenario A as a CLI table, in the state `load_csv` leaves it. -/
def scenarioCliTable : Cli.RangeTable :=
  Cli.tableOfRows scenarioRows

/-- Scenario A as a CLI catalog entry. -/
def scenarioInfo : Cli.TableInfo :=
  { system := "M109A6", trajectory := "low", charge := 3, table := scenarioCliTable }

/-- A disk whose only table file is `M109A6_rangeTable_low_3.csv`, holding
Scenario A. -/
def scenarioDisk : MainWindow.Disk :=
  { loadRows := fun path => if path = "M109A6_rangeTable_low_3.csv" then scenarioRows else []
    availableCharges := fun _ trajectory => if trajectory = "low" then [3] else [] }

/-- The file of Scenario A as `fgets` delivers it: the header and three data
lines. -/
def scenarioLines : List String :=
  ["range,mill,diff100m,eta\n", "1000,10,1,5\n", "2000,20,2,10\n", "3000,35,1.5,14\n"]

/-- The file of Scenario A with its data lines in another order. -/
def shuffledLines : List String :=
  ["range,mill,diff100m,eta\n", "2000,20,2,10\n", "3000,35,1.5,14\n", "1000,10,1,5\n"]

/-- The directory of Scenario C: `junk.txt` and the table of Scenario A. -/
def scenarioFiles : Cli.FileSystem :=
  { rangeTables := some [⟨"junk.txt", false⟩, ⟨"M109A6_rangeTable_low_3.csv", false⟩]
    fopen := fun path =>
      if path = "rangeTables/M109A6_rangeTable_low_3.csv" then some scenarioLines else none }

/-- A file of a header and 4001 data lines, each with four numbers. -/
def longLines : List String :=
  "range,mill,diff100m,eta\n" :: List.replicate 4001 "1000,10,1,5\n"

/-- A directory whose only table file holds a header and no data line. -/
def headerOnlyFiles : Cli.FileSystem :=
  { rangeTables := some [⟨"M109A6_rangeTable_low_3.csv", false⟩]
    fopen := fun path =>
      if path = "rangeTables/M109A6_rangeTable_low_3.csv" then some ["range,mill,diff100m,eta\n"]
      else none }

/-- A table whose ranges are all negative, as a CLI catalog entry. -/
def belowZeroInfo : Cli.TableInfo :=
  { system := "M109A6", trajectory := "low", charge := 3
    table := Cli.tableOfRows [⟨-3000, 10, 1, 5⟩, ⟨-1000, 20, 2, 10⟩] }

/-- A disk on which discovery finds the charge 5 for every system and
trajectory. -/
def chargeFiveDisk : MainWindow.Disk :=
  { loadRows := fun _ => []
    availableCharges := fun _ _ => [5] }

/-- A table whose ranges are all above 10^9, as a CLI catalog entry. -/
def farInfo : Cli.TableInfo :=
  { system := "M109A6", trajectory := "low", charge := 3
    table := Cli.tableOfRows [⟨2000000000, 10, 1, 5⟩, ⟨3000000000, 20, 2, 10⟩] }

/-- A sorted table in which two rows share the range 1000. -/
def duplicateRows : List RangeRow :=
  [⟨1000, 10, 1, 5⟩, ⟨1000, 20, 2, 10⟩]

/-! ## Table shapes -/

/-- The rows are sorted ascending by range, duplicates allowed: the state in
which `load_csv` and `loadRows` leave a table. -/
def SortedByRange (rows : List RangeRow) : Prop :=
  rows.Pairwise (fun a b => a.range ≤ b.range)

/-- The rows are sorted with strictly increasing ranges (no duplicate
range). -/
def StrictlyIncreasing (rows : List RangeRow) : Prop :=
  rows.Pairwise (fun a b => a.range < b.range)

/-- The rows have pairwise distinct ranges. -/
def DistinctRanges (rows : List RangeRow) : Prop :=
  rows.Pairwise (fun a b => a.range ≠ b.range)

/-- The table is non-empty and `rows[0].range <= distance <= rows[last].range`. -/
def InEnvelope : List RangeRow → ℚ → Prop
  | [], _ => False
  | r :: rest, distance => r.range ≤ distance ∧ distance ≤ ((r :: rest).getLastD r).range

instance (rows : List RangeRow) (distance : ℚ) : Decidable (InEnvelope rows distance) := by
  cases rows <;> (unfold InEnvelope; infer_instance)

instance : DecidablePred SortedByRange := fun rows => by
  unfold SortedByRange; infer_instance

instance : DecidablePred StrictlyIncreasing := fun rows => by
  unfold StrictlyIncreasing; infer_instance

instance : DecidablePred DistinctRanges := fun rows => by
  unfold DistinctRanges; infer_instance

/-! ## Lemmas on the standard-library algorithms -/

theorem StrictlyIncreasing.sorted {rows : List RangeRow} (h : StrictlyIncreasing rows) :
    SortedByRange rows :=
  List.Pairwise.imp (fun hab => le_of_lt hab) h

theorem minElementFrom_mem (s : RangeRow) (l : List RangeRow) : minElementFrom s l ∈ s :: l := by
  induction l generalizing s with
  | nil => simp [minElementFrom]
  | cons x rest ih =>
    unfold minElementFrom
    split
    · have := ih x
      simp only [List.mem_cons] at this ⊢
      tauto
    · have := ih s
      simp only [List.mem_cons] at this ⊢
      tauto

theorem maxElementFrom_mem (s : RangeRow) (l : List RangeRow) : maxElementFrom s l ∈ s :: l := by
  induction l generalizing s with
  | nil => simp [maxElementFrom]
  | cons x rest ih =>
    unfold maxElementFrom
    split
    · have := ih x
      simp only [List.mem_cons] at this ⊢
      tauto
    · have := ih s
      simp only [List.mem_cons] at this ⊢
      tauto

theorem minElementFrom_le (s : RangeRow) (l : List RangeRow) :
    ∀ x ∈ s :: l, (minElementFrom s l).range ≤ x.range := by
  induction l generalizing s with
  | nil => simp [minElementFrom]
  | cons y rest ih =>
    intro x hx
    unfold minElementFrom
    split
    · rename_i hlt
      have h1 := ih y
      rcases List.mem_cons.1 hx with rfl | hx
      · exact le_trans (h1 y (List.mem_cons_self _ _)) (le_of_lt hlt)
      · exact h1 x hx
    · rename_i hnlt
      have h1 := ih s
      rcases List.mem_cons.1 hx with rfl | hx
      · exact h1 _ (List.mem_cons_self _ _)
      · rcases List.mem_cons.1 hx with rfl | hx
        · exact le_trans (h1 s (List.mem_cons_self _ _)) (not_lt.1 hnlt)
        · exact h1 x (List.mem_cons_of_mem _ hx)

theorem le_maxElementFrom (s : RangeRow) (l : List RangeRow) :
    ∀ x ∈ s :: l, x.range ≤ (maxElementFrom s l).range := by
  induction l generalizing s with
  | nil => simp [maxElementFrom]
  | cons y rest ih =>
    intro x hx
    unfold maxElementFrom
    split
    · rename_i hlt
      have h1 := ih y
      rcases List.mem_cons.1 hx with rfl | hx
      · exact le_trans (le_of_lt hlt) (h1 y (List.mem_cons_self _ _))
      · exact h1 x hx
    · rename_i hnlt
      have h1 := ih s
      rcases List.mem_cons.1 hx with rfl | hx
      · exact h1 _ (List.mem_cons_self _ _)
      · rcases List.mem_cons.1 hx with rfl | hx
        · exact le_trans (not_lt.1 hnlt) (h1 s (List.mem_cons_self _ _))
        · exact h1 x (List.mem_cons_of_mem _ hx)

/-- On a sorted table the minimum found by `std::min_element` has the range of
the first row. -/
theorem minElementFrom_sorted (s : RangeRow) (l : List RangeRow) (h : SortedByRange (s :: l)) :
    (minElementFrom s l).range = s.range := by
  apply le_antisymm (minElementFrom_le s l s (List.mem_cons_self _ _))
  rcases List.mem_cons.1 (minElementFrom_mem s l) with heq | hmem
  · rw [heq]
  · exact (List.pairwise_cons.1 h).1 _ hmem

/-- On a sorted table the maximum found by `std::max_element` has the range of
the last row. -/
theorem maxElementFrom_sorted (s : RangeRow) (l : List RangeRow) (h : SortedByRange (s :: l)) :
    (maxElementFrom s l).range = ((s :: l).getLastD s).range := by
  have hlast : (s :: l).getLastD s ∈ s :: l := by
    rw [List.getLastD_eq_getLast?, List.getLast?_eq_getLast _ (List.cons_ne_nil _ _)]
    exact List.getLast_mem _
  apply le_antisymm _ (le_maxElementFrom s l _ hlast)
  have hmem := maxElementFrom_mem s l
  generalize maxElementFrom s l = m at hmem
  have key : ∀ (rows : List RangeRow) (d : RangeRow), SortedByRange rows → ∀ x ∈ rows,
      x.range ≤ (rows.getLastD d).range := by
    intro rows
    induction rows with
    | nil => intro d _ x hx; simp at hx
    | cons a t ih =>
      intro d hs x hx
      cases t with
      | nil =>
        simp only [List.mem_singleton] at hx
        simp [hx]
      | cons b t2 =>
        have hs2 := (List.pairwise_cons.1 hs)
        have hrec := ih a hs2.2
        have hl : (a :: b :: t2).getLastD d = (b :: t2).getLastD a := by simp [List.getLastD]
        rw [hl]
        rcases List.mem_cons.1 hx with rfl | hx
        · exact le_trans (hs2.1 b (List.mem_cons_self _ _)) (hrec b (List.mem_cons_self _ _))
        · exact hrec x hx
  exact key _ s h m hmem

/-- The binary search stays inside its window, sorted input or not. -/
theorem lowerBoundLoop_bounds (ranges : List ℚ) (value : ℚ) :
    ∀ fuel first count : Nat,
      first ≤ lowerBoundLoop ranges value fuel first count ∧
      lowerBoundLoop ranges value fuel first count ≤ first + count := by
  intro fuel
  induction fuel with
  | zero => intro first count; simp [lowerBoundLoop]
  | succ fuel ih =>
    intro first count
    unfold lowerBoundLoop
    split
    · simp
    · rename_i hc
      simp only
      split
      · have := ih (first + count / 2 + 1) (count - (count / 2 + 1))
        omega
      · have := ih first (count / 2)
        omega

/-- The binary search never runs out of fuel: once the fuel covers the window,
more fuel does not change the result. -/
theorem lowerBoundLoop_fuel (ranges : List ℚ) (value : ℚ) :
    ∀ fuel extra first count : Nat, count ≤ fuel →
      lowerBoundLoop ranges value (fuel + extra) first count =
        lowerBoundLoop ranges value fuel first count := by
  intro fuel
  induction fuel with
  | zero =>
    intro extra first count hc
    have h0 : count = 0 := by omega
    subst h0
    cases extra with
    | zero => rfl
    | succ e => simp [lowerBoundLoop]
  | succ fuel ih =>
    intro extra first count hc
    have hf : fuel + 1 + extra = (fuel + extra) + 1 := by omega
    rw [hf]
    unfold lowerBoundLoop
    split
    · rfl
    · simp only
      split
      · exact ih extra _ _ (by omega)
      · exact ih extra _ _ (by omega)

theorem lowerBound_le_length (ranges : List ℚ) (value : ℚ) :
    lowerBound ranges value ≤ ranges.length := by
  have := (lowerBoundLoop_bounds ranges value ranges.length 0 ranges.length).2
  simpa [lowerBound] using this

/-- With enough fuel the binary search on a sorted vector stops at the
partition point: everything before it is smaller than `value`, nothing from
it on is. -/
theorem lowerBoundLoop_spec (ranges : List ℚ) (value : ℚ)
    (hs : ∀ i j : Nat, i ≤ j → j < ranges.length → ranges.getD i 0 ≤ ranges.getD j 0) :
    ∀ fuel first count : Nat, count ≤ fuel → first + count ≤ ranges.length →
      (∀ i, i < first → ranges.getD i 0 < value) →
      (∀ i, first + count ≤ i → i < ranges.length → value ≤ ranges.getD i 0) →
      (∀ i, i < lowerBoundLoop ranges value fuel first count → ranges.getD i 0 < value) ∧
      (∀ i, lowerBoundLoop ranges value fuel first count ≤ i → i < ranges.length →
        value ≤ ranges.getD i 0) := by
  intro fuel
  induction fuel with
  | zero =>
    intro first count hc hlen hlo hhi
    have : count = 0 := by omega
    subst this
    simp only [lowerBoundLoop]
    exact ⟨hlo, fun i hi hil => hhi i (by omega) hil⟩
  | succ fuel ih =>
    intro first count hc hlen hlo hhi
    unfold lowerBoundLoop
    split
    · rename_i h0
      subst h0
      exact ⟨hlo, fun i hi hil => hhi i (by omega) hil⟩
    · rename_i h0
      simp only
      split
      · rename_i hlt
        apply ih (first + count / 2 + 1) (count - (count / 2 + 1)) (by omega) (by omega)
        · intro i hi
          exact lt_of_le_of_lt (hs i (first + count / 2) (by omega) (by omega)) hlt
        · intro i hi hil
          exact hhi i (by omega) hil
      · rename_i hnlt
        apply ih first (count / 2) (by omega) (by omega) hlo
        intro i hi hil
        exact le_trans (not_lt.1 hnlt) (hs (first + count / 2) i hi hil)

theorem sorted_getD_mono {rows : List RangeRow} (h : SortedByRange rows) :
    ∀ i j : Nat, i ≤ j → j < (rows.map (fun row => row.range)).length →
      (rows.map (fun row => row.range)).getD i 0 ≤ (rows.map (fun row => row.range)).getD j 0 := by
  intro i j hij hj
  have hj2 : j < rows.length := by simpa using hj
  have hi2 : i < rows.length := by omega
  rw [List.getD_eq_getElem _ _ (by simpa using hi2), List.getD_eq_getElem _ _ hj]
  simp only [List.getElem_map]
  rcases Nat.lt_or_eq_of_le hij with hlt | heq
  · exact (List.pairwise_iff_getElem.1 h) i j hi2 hj2 hlt
  · subst heq; exact le_refl _

/-- On a sorted table `std::lower_bound` returns the insertion point: every
row before it has a range below `distance`, and no row from it on has. -/
theorem lowerBound_sorted (rows : List RangeRow) (h : SortedByRange rows) (distance : ℚ) :
    (∀ i, i < lowerBound (rows.map (fun row => row.range)) distance →
      (rows.getD i RangeTable.zeroRow).range < distance) ∧
    (∀ i, lowerBound (rows.map (fun row => row.range)) distance ≤ i → i < rows.length →
      distance ≤ (rows.getD i RangeTable.zeroRow).range) := by
  have key := lowerBoundLoop_spec (rows.map (fun row => row.range)) distance (sorted_getD_mono h)
    (rows.map (fun row => row.range)).length 0 (rows.map (fun row => row.range)).length
    (le_refl _) (by omega) (by intro i hi; omega) (by intro i hi hil; omega)
  have hle := lowerBound_le_length (rows.map (fun row => row.range)) distance
  simp only [List.length_map] at hle
  have conv : ∀ i, i < rows.length →
      (rows.map (fun row => row.range)).getD i 0 = (rows.getD i RangeTable.zeroRow).range := by
    intro i hi
    rw [List.getD_eq_getElem _ _ (by simpa using hi), List.getD_eq_getElem _ _ hi]
    simp
  constructor
  · intro i hi
    have hil : i < rows.length := by omega
    rw [← conv i hil]
    exact key.1 i hi
  · intro i hi hil
    rw [← conv i hil]
    exact key.2 i hi (by simpa using hil)

theorem linearInsert_perm {α : Type} (lt : α → α → Bool) (x : α) (l : List α) :
    (linearInsert lt x l).Perm (x :: l) := by
  induction l with
  | nil => simp [linearInsert]
  | cons y ys ih =>
    unfold linearInsert
    split
    · exact List.Perm.refl _
    · exact (List.Perm.cons y ih).trans (List.Perm.swap x y ys)

theorem stdSort_foldl_perm {α : Type} (lt : α → α → Bool) (v acc : List α) :
    (v.foldl (fun sorted x => linearInsert lt x sorted) acc).Perm (v ++ acc) := by
  induction v generalizing acc with
  | nil => simp
  | cons x xs ih =>
    simp only [List.foldl_cons, List.cons_append]
    refine (ih (linearInsert lt x acc)).trans ?_
    refine (List.Perm.append_left xs (linearInsert_perm lt x acc)).trans ?_
    exact List.perm_middle

/-- The sort only rearranges the vector. -/
theorem stdSort_perm {α : Type} (lt : α → α → Bool) (v : List α) : (stdSort lt v).Perm v := by
  have := stdSort_foldl_perm lt v []
  simpa [stdSort] using this

theorem DistinctRanges.of_perm {l₁ l₂ : List RangeRow} (p : l₁.Perm l₂) (h : DistinctRanges l₂) :
    DistinctRanges l₁ :=
  (List.Perm.pairwise_iff (fun hab => Ne.symm hab) p).2 h

namespace RangeTable

theorem pushIfNew_subset (neighbors : List RangeRow) (row : RangeRow) :
    ∀ x ∈ neighbors, x ∈ pushIfNew neighbors row := by
  intro x hx
  unfold pushIfNew
  split
  · exact List.mem_append_left _ hx
  · exact hx

theorem pushIfNew_mem (neighbors : List RangeRow) (row : RangeRow) :
    ∀ x ∈ pushIfNew neighbors row, x ∈ neighbors ∨ x = row := by
  intro x hx
  unfold pushIfNew at hx
  split at hx
  · rcases List.mem_append.1 hx with h | h
    · exact Or.inl h
    · exact Or.inr (List.mem_singleton.1 h)
  · exact Or.inl hx

theorem pushIfNew_length (neighbors : List RangeRow) (row : RangeRow) :
    (pushIfNew neighbors row).length ≤ neighbors.length + 1 := by
  unfold pushIfNew
  split
  · simp
  · omega

theorem pushIfNew_distinct (neighbors : List RangeRow) (row : RangeRow)
    (h : DistinctRanges neighbors) : DistinctRanges (pushIfNew neighbors row) := by
  unfold pushIfNew
  split
  · rename_i hall
    unfold DistinctRanges at h ⊢
    rw [List.pairwise_append]
    refine ⟨h, List.pairwise_singleton _ _, ?_⟩
    intro a ha b hb
    simp only [List.mem_singleton] at hb
    subst hb
    have := (List.all_eq_true.1 hall) a ha
    simpa using this
  · exact h

theorem extendNeighbors_subset (rem neighbors : List RangeRow) :
    ∀ x ∈ neighbors, x ∈ extendNeighbors neighbors rem := by
  induction rem generalizing neighbors with
  | nil => intro x hx; simpa [extendNeighbors] using hx
  | cons row rest ih =>
    intro x hx
    have hp := pushIfNew_subset neighbors row x hx
    unfold extendNeighbors
    split
    · exact hp
    · exact ih _ x hp

theorem extendNeighbors_mem (rem neighbors : List RangeRow) :
    ∀ x ∈ extendNeighbors neighbors rem, x ∈ neighbors ∨ x ∈ rem := by
  induction rem generalizing neighbors with
  | nil => intro x hx; left; simpa [extendNeighbors] using hx
  | cons row rest ih =>
    intro x hx
    have hp : ∀ y ∈ pushIfNew neighbors row, y ∈ neighbors ∨ y ∈ row :: rest := by
      intro y hy
      rcases pushIfNew_mem neighbors row y hy with h | h
      · exact Or.inl h
      · exact Or.inr (by simp [h])
    unfold extendNeighbors at hx
    split at hx
    · exact hp x hx
    · rcases ih _ x hx with h | h
      · exact hp x h
      · exact Or.inr (List.mem_cons_of_mem _ h)

theorem extendNeighbors_length (rem neighbors : List RangeRow) (h : neighbors.length ≤ 2) :
    (extendNeighbors neighbors rem).length ≤ 3 := by
  induction rem generalizing neighbors with
  | nil => simp only [extendNeighbors]; omega
  | cons row rest ih =>
    have hp := pushIfNew_length neighbors row
    unfold extendNeighbors
    split
    · omega
    · exact ih _ (by omega)

theorem extendNeighbors_distinct (rem neighbors : List RangeRow) (h : DistinctRanges neighbors) :
    DistinctRanges (extendNeighbors neighbors rem) := by
  induction rem generalizing neighbors with
  | nil => simpa [extendNeighbors] using h
  | cons row rest ih =>
    have hp := pushIfNew_distinct neighbors row h
    unfold extendNeighbors
    split
    · exact hp
    · exact ih _ hp

theorem primaryRows_length (rows : List RangeRow) (idx : Nat) :
    (primaryRows rows idx).length ≤ 2 := by
  unfold primaryRows
  split <;> split <;> simp

theorem primaryRows_ne_nil (rows : List RangeRow) (idx : Nat) (hne : rows ≠ []) :
    primaryRows rows idx ≠ [] := by
  unfold primaryRows
  have hlen : 0 < rows.length := List.length_pos.2 hne
  by_cases h0 : idx > 0
  · simp [h0]
  · have : idx < rows.length := by omega
    simp [h0, this]

/-- On a sorted table the primary pair brackets the distance strictly from
below, so its two rows never share a range. -/
theorem primaryRows_distinct (rows : List RangeRow) (h : SortedByRange rows) (distance : ℚ) :
    DistinctRanges (primaryRows rows (lowerBound (rows.map (fun row => row.range)) distance)) := by
  have hs := lowerBound_sorted rows h distance
  generalize lowerBound (rows.map (fun row => row.range)) distance = idx at hs
  unfold primaryRows DistinctRanges
  by_cases h0 : idx > 0
  · by_cases h1 : idx < rows.length
    · rw [if_pos h0, if_pos h1]
      have ha := hs.1 (idx - 1) (by omega)
      have hb := hs.2 idx (le_refl _) h1
      have hlt := lt_of_lt_of_le ha hb
      refine List.Pairwise.cons ?_ (List.pairwise_singleton _ _)
      intro b hb
      rw [List.mem_singleton.1 hb]
      exact ne_of_lt hlt
    · rw [if_pos h0, if_neg h1]
      exact List.pairwise_singleton _ _
  · rw [if_neg h0]
    split
    · exact List.pairwise_singleton _ _
    · exact List.Pairwise.nil

/-- Source property of `neighborRows`: a non-empty table always yields a
neighbour. -/
theorem neighborRows_ne_nil (t : RangeTable) (distance : ℚ) (hne : t.m_rows ≠ []) :
    t.neighborRows distance ≠ [] := by
  unfold neighborRows
  have he : t.m_rows.isEmpty = false := by
    cases hrows : t.m_rows with
    | nil => exact absurd hrows hne
    | cons a l => rfl
  simp only [he, Bool.false_eq_true, if_false]
  intro hnil
  have hp := stdSort_perm (fun a b : RangeRow => decide (a.range < b.range))
    (extendNeighbors (primaryRows t.m_rows (lowerBound (t.m_rows.map (fun row => row.range)) distance))
      (stdSort (fun a b => decide (|a.range - distance| < |b.range - distance|))
        (remainingRows t.m_rows (lowerBound (t.m_rows.map (fun row => row.range)) distance))))
  rw [hnil] at hp
  have hnil2 := List.Perm.nil_eq hp
  obtain ⟨x, hx⟩ := List.exists_mem_of_ne_nil _
    (primaryRows_ne_nil t.m_rows (lowerBound (t.m_rows.map (fun row => row.range)) distance) hne)
  have := extendNeighbors_subset
    (stdSort (fun a b => decide (|a.range - distance| < |b.range - distance|))
        (remainingRows t.m_rows (lowerBound (t.m_rows.map (fun row => row.range)) distance))) _ x hx
  rw [← hnil2] at this
  simp at this

/-- Source property of `neighborRows`: at most three neighbours. -/
theorem neighborRows_length (t : RangeTable) (distance : ℚ) :
    (t.neighborRows distance).length ≤ 3 := by
  unfold neighborRows
  split
  · simp
  · simp only
    rw [(stdSort_perm _ _).length_eq]
    exact extendNeighbors_length _ _ (primaryRows_length _ _)

/-- On a sorted table the neighbours have pairwise distinct ranges, so every
divisor in `interpolate` is non-zero. -/
theorem neighborRows_distinct (t : RangeTable) (distance : ℚ) (h : SortedByRange t.m_rows) :
    DistinctRanges (t.neighborRows distance) := by
  unfold neighborRows
  split
  · exact List.Pairwise.nil
  · simp only
    exact DistinctRanges.of_perm (stdSort_perm _ _)
      (extendNeighbors_distinct _ _ (primaryRows_distinct _ h distance))

end RangeTable

/-! ## Lemmas on the GUI engine -/

namespace RangeTable

theorem supportsRange_nil (t : RangeTable) (distance : ℚ) (h : t.m_rows = []) :
    t.supportsRange distance = false := by
  simp [supportsRange, h]

theorem rows_ne_nil_of_supportsRange (t : RangeTable) (distance : ℚ)
    (h : t.supportsRange distance = true) : t.m_rows ≠ [] := by
  intro hnil
  rw [supportsRange_nil t distance hnil] at h
  exact Bool.false_ne_true h

/-- The range of a row of the table is supported. -/
theorem supportsRange_of_mem (t : RangeTable) (r : RangeRow) (hr : r ∈ t.m_rows) :
    t.supportsRange r.range = true := by
  unfold supportsRange
  split
  · rename_i hnil
    rw [hnil] at hr
    simp at hr
  · rename_i s l hrows
    rw [hrows] at hr
    simp only [ge_iff_le, Bool.and_eq_true, decide_eq_true_eq]
    exact ⟨minElementFrom_le s l r hr, le_maxElementFrom s l r hr⟩

theorem calculate_of_supportsRange (t : RangeTable) (distance altitudeDelta : ℚ)
    (h : t.supportsRange distance = true) :
    t.calculate distance altitudeDelta = some (t.solutionAt distance altitudeDelta) := by
  have hne := neighborRows_ne_nil t distance (rows_ne_nil_of_supportsRange t distance h)
  have he : (t.neighborRows distance).isEmpty = false := by
    cases hn : t.neighborRows distance with
    | nil => exact absurd hn hne
    | cons a l => rfl
  simp [calculate, h, he, solutionAt]

theorem calculate_of_not_supportsRange (t : RangeTable) (distance altitudeDelta : ℚ)
    (h : t.supportsRange distance = false) :
    t.calculate distance altitudeDelta = none := by
  simp [calculate, h]

theorem linear2_lower (lower upper : RangeRow) (field : RangeRow → ℚ) :
    linear2 lower upper lower.range field = field lower := by
  unfold linear2
  split
  · rfl
  · simp

theorem linear2_upper (lower upper : RangeRow) (field : RangeRow → ℚ)
    (h : lower.range ≠ upper.range) :
    linear2 lower upper upper.range field = field upper := by
  unfold linear2
  have hne : upper.range - lower.range ≠ 0 := sub_ne_zero.2 (Ne.symm h)
  rw [if_neg (Ne.symm h)]
  simp only
  rw [div_self hne]
  ring

theorem quadratic3_knot0 (n0 n1 n2 : RangeRow) (field : RangeRow → ℚ)
    (h01 : n0.range ≠ n1.range) (h02 : n0.range ≠ n2.range) :
    quadratic3 n0 n1 n2 n0.range field = field n0 := by
  have a : n0.range - n1.range ≠ 0 := sub_ne_zero.2 h01
  have b : n0.range - n2.range ≠ 0 := sub_ne_zero.2 h02
  simp only [quadratic3, basis]
  rw [div_self a, div_self b]
  simp

theorem quadratic3_knot1 (n0 n1 n2 : RangeRow) (field : RangeRow → ℚ)
    (h01 : n0.range ≠ n1.range) (h12 : n1.range ≠ n2.range) :
    quadratic3 n0 n1 n2 n1.range field = field n1 := by
  have a : n1.range - n0.range ≠ 0 := sub_ne_zero.2 (Ne.symm h01)
  have b : n1.range - n2.range ≠ 0 := sub_ne_zero.2 h12
  simp only [quadratic3, basis]
  rw [div_self a, div_self b]
  simp

theorem quadratic3_knot2 (n0 n1 n2 : RangeRow) (field : RangeRow → ℚ)
    (h02 : n0.range ≠ n2.range) (h12 : n1.range ≠ n2.range) :
    quadratic3 n0 n1 n2 n2.range field = field n2 := by
  have a : n2.range - n0.range ≠ 0 := sub_ne_zero.2 (Ne.symm h02)
  have b : n2.range - n1.range ≠ 0 := sub_ne_zero.2 (Ne.symm h12)
  simp only [quadratic3, basis]
  rw [div_self a, div_self b]
  simp

/-- Interpolation over at most three neighbours with pairwise distinct ranges
reproduces each neighbour at its own range. -/
theorem interpolate_knot (neighbors : List RangeRow) (field : RangeRow → ℚ)
    (hd : DistinctRanges neighbors) (hlen : neighbors.length ≤ 3) (r : RangeRow)
    (hr : r ∈ neighbors) : interpolate neighbors r.range field = field r := by
  unfold DistinctRanges at hd
  match neighbors, hd, hlen, hr with
  | [], _, _, hr => simp at hr
  | [a], _, _, hr =>
    simp only [List.mem_singleton] at hr
    subst hr
    rfl
  | [a, b], hd, _, hr =>
    have hab : a.range ≠ b.range := by
      have := List.pairwise_cons.1 hd
      exact this.1 b (List.mem_singleton_self b)
    simp only [List.mem_cons, List.mem_singleton, List.not_mem_nil, or_false] at hr
    rcases hr with rfl | rfl
    · exact linear2_lower _ _ _
    · exact linear2_upper _ _ _ hab
  | [a, b, c], hd, _, hr =>
    have h1 := List.pairwise_cons.1 hd
    have h2 := List.pairwise_cons.1 h1.2
    have hab : a.range ≠ b.range := h1.1 b (by simp)
    have hac : a.range ≠ c.range := h1.1 c (by simp)
    have hbc : b.range ≠ c.range := h2.1 c (by simp)
    simp only [List.mem_cons, List.mem_singleton, List.not_mem_nil, or_false] at hr
    simp only [interpolate, if_neg hab]
    rcases hr with rfl | rfl | rfl
    · exact quadratic3_knot0 _ _ _ _ hab hac
    · exact quadratic3_knot1 _ _ _ _ hab hbc
    · exact quadratic3_knot2 _ _ _ _ hac hbc
  | _ :: _ :: _ :: _ :: _, _, hlen, _ => simp at hlen

/-- In a table with strictly increasing ranges `std::lower_bound` finds the
index of the row whose range is asked for. -/
theorem lowerBound_at_row (rows : List RangeRow) (hs : StrictlyIncreasing rows) (k : Nat)
    (hk : k < rows.length) :
    lowerBound (rows.map (fun row => row.range)) (rows.getD k zeroRow).range = k := by
  have hsp := lowerBound_sorted rows hs.sorted (rows.getD k zeroRow).range
  have hle := lowerBound_le_length (rows.map (fun row => row.range)) (rows.getD k zeroRow).range
  generalize lowerBound (rows.map (fun row => row.range)) (rows.getD k zeroRow).range = idx
    at hsp hle
  rcases Nat.lt_trichotomy idx k with h | h | h
  · exfalso
    have h1 := hsp.2 idx (le_refl _) (by omega)
    have h2 : (rows.getD idx zeroRow).range < (rows.getD k zeroRow).range := by
      rw [List.getD_eq_getElem _ _ (by omega : idx < rows.length), List.getD_eq_getElem _ _ hk]
      exact (List.pairwise_iff_getElem.1 hs) idx k (by omega) hk h
    exact absurd h1 (not_le.2 h2)
  · exact h
  · exfalso
    exact lt_irrefl _ (hsp.1 k h)

/-- The row asked for is among the neighbours selected at its range. -/
theorem mem_neighborRows_of_mem (t : RangeTable) (hs : StrictlyIncreasing t.m_rows)
    (r : RangeRow) (hr : r ∈ t.m_rows) : r ∈ t.neighborRows r.range := by
  obtain ⟨k, hk, hkr⟩ := List.getElem_of_mem hr
  have hgd : t.m_rows.getD k zeroRow = r := by
    rw [List.getD_eq_getElem _ _ hk]; exact hkr
  have hidx := lowerBound_at_row t.m_rows hs k hk
  rw [hgd] at hidx
  unfold neighborRows
  have he : t.m_rows.isEmpty = false := by
    cases hrows : t.m_rows with
    | nil => rw [hrows] at hr; simp at hr
    | cons a l => rfl
  simp only [he, Bool.false_eq_true, if_false, hidx]
  apply (stdSort_perm _ _).mem_iff.2
  apply extendNeighbors_subset
  unfold primaryRows
  rw [if_pos hk, hgd]
  simp

end RangeTable

namespace RangeTable

theorem pushIfNew_length_ge (neighbors : List RangeRow) (row : RangeRow) :
    neighbors.length ≤ (pushIfNew neighbors row).length := by
  unfold pushIfNew
  split
  · simp
  · exact le_refl _

theorem extendNeighbors_length_ge (rem neighbors : List RangeRow) :
    neighbors.length ≤ (extendNeighbors neighbors rem).length := by
  induction rem generalizing neighbors with
  | nil => simp [extendNeighbors]
  | cons row rest ih =>
    have hp := pushIfNew_length_ge neighbors row
    unfold extendNeighbors
    split
    · exact hp
    · exact le_trans hp (ih _)

/-- In a table of at least two rows with strictly increasing ranges, a query
at the range of a row selects at least two neighbours. -/
theorem two_le_neighborRows_length (t : RangeTable) (h2 : 2 ≤ t.m_rows.length)
    (hs : StrictlyIncreasing t.m_rows) (r : RangeRow) (hr : r ∈ t.m_rows) :
    2 ≤ (t.neighborRows r.range).length := by
  obtain ⟨k, hk, hkr⟩ := List.getElem_of_mem hr
  have hgd : t.m_rows.getD k zeroRow = r := by
    rw [List.getD_eq_getElem _ _ hk]; exact hkr
  have hidx := lowerBound_at_row t.m_rows hs k hk
  rw [hgd] at hidx
  unfold neighborRows
  have he : t.m_rows.isEmpty = false := by
    cases hrows : t.m_rows with
    | nil => rw [hrows] at hr; simp at hr
    | cons a l => rfl
  simp only [he, Bool.false_eq_true, if_false, hidx]
  rw [(stdSort_perm _ _).length_eq]
  rcases Nat.eq_zero_or_pos k with h0 | hpos
  · subst h0
    have h1 : (0 : Nat) + 1 < t.m_rows.length := by omega
    have hne : (t.m_rows.getD 0 zeroRow).range ≠ (t.m_rows.getD (0 + 1) zeroRow).range := by
      rw [List.getD_eq_getElem _ _ hk, List.getD_eq_getElem _ _ h1]
      exact ne_of_lt ((List.pairwise_iff_getElem.1 hs) 0 (0 + 1) hk h1 (by omega))
    have hprim : primaryRows t.m_rows 0 = [t.m_rows.getD 0 zeroRow] := by
      unfold primaryRows
      rw [if_neg (by omega), if_pos hk]
      rfl
    have hrem : remainingRows t.m_rows 0 = [t.m_rows.getD (0 + 1) zeroRow] := by
      unfold remainingRows
      rw [if_neg (by omega), if_pos h1]
      rfl
    rw [hprim, hrem]
    have hpush : pushIfNew [t.m_rows.getD 0 zeroRow] (t.m_rows.getD (0 + 1) zeroRow) =
        [t.m_rows.getD 0 zeroRow, t.m_rows.getD (0 + 1) zeroRow] := by
      unfold pushIfNew
      rw [if_pos]
      · rfl
      · simpa using hne
    simp only [stdSort, List.foldl_cons, List.foldl_nil, linearInsert, extendNeighbors, hpush]
    simp
  · refine le_trans ?_ (extendNeighbors_length_ge _ _)
    unfold primaryRows
    rw [if_pos hpos, if_pos hk]
    simp

end RangeTable

/-! ## Reproduction of the rows -/

/-- C1: in a GUI table of at least two rows with strictly increasing ranges,
`calculate` at the range of any row `r` returns a solution, for every
altitude delta, whose `baseMill`, `diff100m` and `eta` are exactly `r.mill`,
`r.diff100m` and `r.eta`; the neighbour set used has two or three rows with
pairwise distinct ranges, so no divisor of the interpolation is zero. -/
theorem gui_calculate_reproduces_rows (t : RangeTable) (h2 : 2 ≤ t.m_rows.length)
    (hs : StrictlyIncreasing t.m_rows) (r : RangeRow) (hr : r ∈ t.m_rows) (altitudeDelta : ℚ) :
    (∃ sol, t.calculate r.range altitudeDelta = some sol ∧
      sol.baseMill = r.mill ∧ sol.diff100m = r.diff100m ∧ sol.eta = r.eta) ∧
    (2 ≤ (t.neighborRows r.range).length ∧ (t.neighborRows r.range).length ≤ 3) ∧
    DistinctRanges (t.neighborRows r.range) := by
  have hd := RangeTable.neighborRows_distinct t r.range hs.sorted
  have hl := RangeTable.neighborRows_length t r.range
  have hm := RangeTable.mem_neighborRows_of_mem t hs r hr
  refine ⟨⟨t.solutionAt r.range altitudeDelta, ?_, ?_, ?_, ?_⟩,
    ⟨RangeTable.two_le_neighborRows_length t h2 hs r hr, hl⟩, hd⟩
  · exact RangeTable.calculate_of_supportsRange t _ _ (RangeTable.supportsRange_of_mem t r hr)
  · exact RangeTable.interpolate_knot _ _ hd hl r hm
  · exact RangeTable.interpolate_knot _ _ hd hl r hm
  · exact RangeTable.interpolate_knot _ _ hd hl r hm

/-- Witness of C1: the middle row of the Scenario A table. -/
theorem gui_calculate_reproduces_rows_witness :
    (∃ sol, scenarioTable.calculate 2000 200 = some sol ∧
      sol.baseMill = 20 ∧ sol.diff100m = 2 ∧ sol.eta = 10) ∧
    (2 ≤ (scenarioTable.neighborRows 2000).length ∧ (scenarioTable.neighborRows 2000).length ≤ 3) ∧
    DistinctRanges (scenarioTable.neighborRows 2000) :=
  gui_calculate_reproduces_rows scenarioTable (by simp [scenarioTable, scenarioRows])
    (by norm_num [StrictlyIncreasing, scenarioTable, scenarioRows]) ⟨2000, 20, 2, 10⟩
    (by simp [scenarioTable, scenarioRows]) 200

/-! ## Lemmas on the CLI engine -/

namespace Cli

end Cli

namespace RangeTable

/-- On a sorted table `supportsRange` compares with the first and the last
row. -/
theorem supportsRange_iff_inEnvelope (t : RangeTable) (hs : SortedByRange t.m_rows)
    (distance : ℚ) : t.supportsRange distance = true ↔ InEnvelope t.m_rows distance := by
  unfold supportsRange
  split
  · rename_i hnil
    rw [hnil]
    simp [InEnvelope]
  · rename_i r rest hrows
    rw [hrows] at hs ⊢
    simp only [InEnvelope, ge_iff_le, Bool.and_eq_true, decide_eq_true_eq]
    rw [minElementFrom_sorted r rest hs, maxElementFrom_sorted r rest hs]

end RangeTable

namespace Cli

/-- On a table in the state `load_csv` leaves it, `supports_range` compares
with the first and the last row. -/
theorem supports_range_iff_inEnvelope (rows : List RangeRow) (distance : ℚ) :
    supports_range (tableOfRows rows) distance = true ↔ InEnvelope rows distance := by
  cases rows with
  | nil => simp [supports_range, tableOfRows, RangeTable.count, InEnvelope]
  | cons r rest =>
    simp [supports_range, tableOfRows, RangeTable.count, InEnvelope]

end Cli

/-- C3: on a table sorted ascending by range, the CLI `supports_range` (table
in the state `load_csv` leaves it) and the GUI `supportsRange` both return
true exactly when the table is non-empty and
`rows[0].range <= d <= rows[last].range`; both return false on an empty table,
and false for `d = 500` on the table with ranges 1000, 2000, 3000. -/
theorem supports_range_iff_envelope (rows : List RangeRow) (hs : SortedByRange rows)
    (system trajectory : String) (charge : Int) (d : ℚ) :
    (Cli.supports_range (Cli.tableOfRows rows) d = true ↔ InEnvelope rows d) ∧
    (RangeTable.supportsRange ⟨system, trajectory, charge, rows⟩ d = true ↔ InEnvelope rows d) ∧
    (rows = [] → Cli.supports_range (Cli.tableOfRows rows) d = false ∧
      RangeTable.supportsRange ⟨system, trajectory, charge, rows⟩ d = false) ∧
    (Cli.supports_range scenarioCliTable 500 = false ∧
      scenarioTable.supportsRange 500 = false) := by
  refine ⟨Cli.supports_range_iff_inEnvelope rows d,
    RangeTable.supportsRange_iff_inEnvelope ⟨system, trajectory, charge, rows⟩ hs d, ?_, ?_, ?_⟩
  · intro hnil
    subst hnil
    exact ⟨by simp [Cli.supports_range, Cli.tableOfRows, Cli.RangeTable.count],
      RangeTable.supportsRange_nil _ d rfl⟩
  · norm_num [Cli.supports_range, scenarioCliTable, Cli.tableOfRows, Cli.RangeTable.count,
      scenarioRows]
  · norm_num [RangeTable.supportsRange, scenarioTable, scenarioRows, minElementFrom,
      maxElementFrom]

/-- Witness of C3: the Scenario A table at distance 1500. -/
theorem supports_range_iff_envelope_witness :
    (Cli.supports_range (Cli.tableOfRows scenarioRows) 1500 = true ↔
      InEnvelope scenarioRows 1500) ∧
    (RangeTable.supportsRange ⟨"M109A6", "low", 3, scenarioRows⟩ 1500 = true ↔
      InEnvelope scenarioRows 1500) ∧
    (scenarioRows = [] → Cli.supports_range (Cli.tableOfRows scenarioRows) 1500 = false ∧
      RangeTable.supportsRange ⟨"M109A6", "low", 3, scenarioRows⟩ 1500 = false) ∧
    (Cli.supports_range scenarioCliTable 500 = false ∧
      scenarioTable.supportsRange 500 = false) :=
  supports_range_iff_envelope scenarioRows (by norm_num [SortedByRange, scenarioRows])
    "M109A6" "low" 3 1500

/-- C4: on a sorted GUI table `calculate` returns a solution if and only if
`supportsRange` holds; it returns none when the table is empty, when the
distance is below the range of the first row and when it is above the range of
the last row; and when `supportsRange` holds the neighbour set is non-empty,
its ranges are pairwise distinct, and a solution is returned. -/
theorem calculate_iff_supportsRange (t : RangeTable) (hs : SortedByRange t.m_rows)
    (d altitudeDelta : ℚ) :
    ((t.calculate d altitudeDelta).isSome = t.supportsRange d) ∧
    (t.m_rows = [] → t.calculate d altitudeDelta = none) ∧
    (∀ first, t.m_rows.head? = some first → d < first.range →
      t.calculate d altitudeDelta = none) ∧
    (∀ last, t.m_rows.getLast? = some last → last.range < d →
      t.calculate d altitudeDelta = none) ∧
    (¬ InEnvelope t.m_rows d → t.calculate d altitudeDelta = none) ∧
    (t.supportsRange d = true →
      t.neighborRows d ≠ [] ∧ DistinctRanges (t.neighborRows d) ∧
      ∃ sol, t.calculate d altitudeDelta = some sol) := by
  have hout : ¬ InEnvelope t.m_rows d → t.calculate d altitudeDelta = none := by
    intro hne
    apply RangeTable.calculate_of_not_supportsRange
    rw [← Bool.not_eq_true]
    exact fun h => hne ((RangeTable.supportsRange_iff_inEnvelope t hs d).1 h)
  refine ⟨?_, ?_, ?_, ?_, hout, ?_⟩
  · cases hsup : t.supportsRange d with
    | true => rw [RangeTable.calculate_of_supportsRange t d altitudeDelta hsup]; rfl
    | false => rw [RangeTable.calculate_of_not_supportsRange t d altitudeDelta hsup]; rfl
  · intro hnil
    apply hout
    rw [hnil]
    simp [InEnvelope]
  · intro first hfirst hlt
    apply hout
    cases hrows : t.m_rows with
    | nil => simp [InEnvelope]
    | cons r rest =>
      rw [hrows] at hfirst
      simp only [List.head?_cons, Option.some.injEq] at hfirst
      subst hfirst
      simp only [InEnvelope, not_and, not_le]
      intro h
      exact absurd h (not_le.2 hlt)
  · intro last hlast hlt
    apply hout
    cases hrows : t.m_rows with
    | nil => simp [InEnvelope]
    | cons r rest =>
      rw [hrows] at hlast
      have hl : (r :: rest).getLastD r = last := by
        rw [List.getLastD_eq_getLast?, hlast]
        rfl
      simp only [InEnvelope, hl, not_and, not_le]
      intro _
      exact hlt
  · intro hsup
    exact ⟨RangeTable.neighborRows_ne_nil t d (RangeTable.rows_ne_nil_of_supportsRange t d hsup),
      RangeTable.neighborRows_distinct t d hs,
      _, RangeTable.calculate_of_supportsRange t d altitudeDelta hsup⟩

/-- Witness of C4: the Scenario A table at distance 500, below its envelope. -/
theorem calculate_iff_supportsRange_witness :
    ((scenarioTable.calculate 500 200).isSome = scenarioTable.supportsRange 500) ∧
    (scenarioTable.m_rows = [] → scenarioTable.calculate 500 200 = none) ∧
    (∀ first, scenarioTable.m_rows.head? = some first → 500 < first.range →
      scenarioTable.calculate 500 200 = none) ∧
    (∀ last, scenarioTable.m_rows.getLast? = some last → last.range < 500 →
      scenarioTable.calculate 500 200 = none) ∧
    (¬ InEnvelope scenarioTable.m_rows 500 → scenarioTable.calculate 500 200 = none) ∧
    (scenarioTable.supportsRange 500 = true →
      scenarioTable.neighborRows 500 ≠ [] ∧ DistinctRanges (scenarioTable.neighborRows 500) ∧
      ∃ sol, scenarioTable.calculate 500 200 = some sol) :=
  calculate_iff_supportsRange scenarioTable
    (by norm_num [SortedByRange, scenarioTable, scenarioRows]) 500 200

/-! ## Lemmas on the solver loops -/

namespace MainWindow

/-- The loop of `findSolutions`, entered with fewer than three solutions,
appends the solutions of the following charges until there are three. -/
theorem findSolutionsLoop_eq (disk : Disk) (system trajectory : String)
    (distance altitudeDelta : ℚ) (charges : List Int) (solutions : List RangeSolution)
    (h : solutions.length < 3) :
    findSolutionsLoop disk system trajectory distance altitudeDelta charges solutions =
      solutions ++ (charges.filterMap (fun charge =>
        (RangeTable.construct disk.loadRows system trajectory charge).calculate
          distance altitudeDelta)).take (3 - solutions.length) := by
  induction charges generalizing solutions with
  | nil => simp [findSolutionsLoop]
  | cons charge rest ih =>
    unfold findSolutionsLoop
    simp only
    by_cases hv : (RangeTable.construct disk.loadRows system trajectory charge).isValid = true
    · simp only [hv, Bool.not_true, Bool.false_eq_true, if_false]
      cases hc : (RangeTable.construct disk.loadRows system trajectory charge).calculate
          distance altitudeDelta with
      | none =>
        simp only [List.filterMap_cons, hc]
        rw [if_neg (by omega)]
        exact ih solutions h
      | some result =>
        simp only [List.filterMap_cons, hc]
        by_cases h3 : (solutions ++ [result]).length ≥ 3
        · rw [if_pos h3]
          have hl : 3 - solutions.length = 1 := by
            simp only [List.length_append, List.length_singleton] at h3
            omega
          rw [hl]
          simp
        · rw [if_neg h3, ih _ (by omega)]
          simp only [List.length_append, List.length_singleton] at h3 ⊢
          have hl : 3 - solutions.length = (3 - (solutions.length + 1)) + 1 := by omega
          rw [hl, List.take_succ_cons]
          simp
    · have hnil : (RangeTable.construct disk.loadRows system trajectory charge).m_rows = [] := by
        simp only [RangeTable.isValid, Bool.not_eq_true', Bool.not_eq_false] at hv
        exact List.isEmpty_iff.1 hv
      have hc := RangeTable.calculate_of_not_supportsRange _ distance altitudeDelta
        (RangeTable.supportsRange_nil _ distance hnil)
      simp only [Bool.not_eq_true] at hv
      simp only [hv, Bool.not_false, if_true, List.filterMap_cons, hc]
      exact ih solutions h

/-- The solutions of `findSolutions` are those of the first three charges of
the list whose table is valid and supports the distance, in list order. -/
theorem findSolutions_eq (disk : Disk) (system trajectory : String) (charges : List Int)
    (distance altitudeDelta : ℚ) :
    findSolutions disk system trajectory charges distance altitudeDelta =
      ((charges.filter (fun charge =>
          (RangeTable.construct disk.loadRows system trajectory charge).isValid &&
          (RangeTable.construct disk.loadRows system trajectory charge).supportsRange distance)).take
        3).map (fun charge =>
          (RangeTable.construct disk.loadRows system trajectory charge).solutionAt
            distance altitudeDelta) := by
  unfold findSolutions
  rw [findSolutionsLoop_eq disk system trajectory distance altitudeDelta charges [] (by simp)]
  simp only [List.nil_append, List.length_nil, Nat.sub_zero, List.map_take]
  congr 1
  induction charges with
  | nil => rfl
  | cons charge rest ih =>
    cases hsup : (RangeTable.construct disk.loadRows system trajectory charge).supportsRange
        distance with
    | true =>
      have hv : (RangeTable.construct disk.loadRows system trajectory charge).isValid = true := by
        have := RangeTable.rows_ne_nil_of_supportsRange _ distance hsup
        simp only [RangeTable.isValid, Bool.not_eq_true', Bool.not_eq_false]
        cases hr : (RangeTable.construct disk.loadRows system trajectory charge).m_rows with
        | nil => exact absurd hr this
        | cons a l => rfl
      simp only [List.filterMap_cons, List.filter_cons, hsup, hv, Bool.and_self, if_true,
        RangeTable.calculate_of_supportsRange _ distance altitudeDelta hsup, List.map_cons, ih]
    | false =>
      simp only [List.filterMap_cons, List.filter_cons, hsup, Bool.and_false,
        Bool.false_eq_true, if_false,
        RangeTable.calculate_of_not_supportsRange _ distance altitudeDelta hsup, ih]

end MainWindow

namespace Cli

theorem printStep_foldl_blocks (distance altitude_delta : ℚ) (tables : List TableInfo)
    (s : PrintState) :
    (tables.foldl (printStep distance altitude_delta) s).blocks =
      s.blocks ++ (tables.filter (fun info => supports_range info.table distance)).map
        (fun info => resultBlock info distance altitude_delta) := by
  induction tables generalizing s with
  | nil => simp
  | cons info rest ih =>
    simp only [List.foldl_cons]
    rw [ih]
    cases hsup : supports_range info.table distance with
    | true => simp [printStep, hsup, List.filter_cons]
    | false => simp [printStep, hsup, List.filter_cons]

/-- The blocks `print_results` prints: one per table that supports the
distance, in catalog order. -/
theorem print_results_blocks (tables : List TableInfo) (distance altitude_delta : ℚ) :
    (print_results tables distance altitude_delta).blocks =
      (tables.filter (fun info => supports_range info.table distance)).map
        (fun info => resultBlock info distance altitude_delta) := by
  simp only [print_results]
  rw [printStep_foldl_blocks]
  simp

end Cli

/-- C5: the altitude correction.  GUI: a solution of `calculate` has
`baseMill` and `diff100m` interpolated at the query distance and
`mill = baseMill + (altitudeDelta / 100) * diff100m`.  CLI: every block of
`print_results` belongs to a table of the catalog, its base mill and
`diff100m` are those `interpolate` returns at the distance, and its adjusted
mill is `base_mill + (altitude_delta / 100) * diff100m`.  GUI front end:
`MainWindow::calculate` solves with `myAlt - targetAlt` as altitude delta. -/
theorem altitude_correction_formula (t : RangeTable) (tables : List Cli.TableInfo)
    (disk : MainWindow.Disk) (system : String) (myAlt targetAlt d altitudeDelta : ℚ) :
    (∀ sol, t.calculate d altitudeDelta = some sol →
      sol.baseMill = RangeTable.interpolate (t.neighborRows d) d RangeRow.mill ∧
      sol.diff100m = RangeTable.interpolate (t.neighborRows d) d RangeRow.diff100m ∧
      sol.mill = sol.baseMill + (altitudeDelta / 100) * sol.diff100m) ∧
    (∀ b ∈ (Cli.print_results tables d altitudeDelta).blocks, ∃ info ∈ tables,
      b.base_mill = (Cli.interpolate info.table d).mill ∧
      b.diff100m = (Cli.interpolate info.table d).diff100m ∧
      b.adjusted_mill = b.base_mill + (altitudeDelta / 100) * b.diff100m) ∧
    ((MainWindow.calculate disk system myAlt targetAlt d).altitudeDelta = myAlt - targetAlt ∧
      ∀ sol ∈ (MainWindow.calculate disk system myAlt targetAlt d).lowSolutions ++
          (MainWindow.calculate disk system myAlt targetAlt d).highSolutions,
        sol.mill = sol.baseMill + ((myAlt - targetAlt) / 100) * sol.diff100m) := by
  refine ⟨?_, ?_, rfl, ?_⟩
  · intro sol hsol
    cases hsup : t.supportsRange d with
    | true =>
      rw [RangeTable.calculate_of_supportsRange t d altitudeDelta hsup] at hsol
      cases hsol
      exact ⟨rfl, rfl, rfl⟩
    | false =>
      rw [RangeTable.calculate_of_not_supportsRange t d altitudeDelta hsup] at hsol
      cases hsol
  · intro b hb
    rw [Cli.print_results_blocks] at hb
    obtain ⟨info, hinfo, rfl⟩ := List.mem_map.1 hb
    exact ⟨info, (List.mem_filter.1 hinfo).1, rfl, rfl, rfl⟩
  · intro sol hsol
    simp only [MainWindow.calculate, MainWindow.findSolutions_eq, List.mem_append,
      List.mem_map] at hsol
    rcases hsol with ⟨c, _, rfl⟩ | ⟨c, _, rfl⟩ <;> rfl


/-! ## Scenario A, evaluated -/

theorem scenario_construct :
    RangeTable.construct scenarioDisk.loadRows "M109A6" "low" 3 = scenarioTable := by
  have hp : filePrefixForSystem "M109A6" ++ "_rangeTable_" ++ "low" ++ "_" ++
      toString (3 : Int) ++ ".csv" = "M109A6_rangeTable_low_3.csv" := by decide
  simp only [RangeTable.construct, hp, scenarioDisk, scenarioTable, if_true]

theorem scenario_neighborRows_1500 : scenarioTable.neighborRows 1500 = scenarioRows := by
  norm_num [scenarioTable, RangeTable.neighborRows, scenarioRows, lowerBound, lowerBoundLoop,
    RangeTable.primaryRows, RangeTable.remainingRows, stdSort, linearInsert,
    RangeTable.extendNeighbors, RangeTable.pushIfNew, RangeTable.zeroRow]

theorem scenario_calculate_1000 :
    scenarioTable.calculate 1000 200 = some ⟨3, 12, 5, 10, 1⟩ := by
  norm_num [scenarioTable, RangeTable.calculate, RangeTable.supportsRange, minElementFrom,
    maxElementFrom, RangeTable.neighborRows, scenarioRows, lowerBound, lowerBoundLoop,
    RangeTable.primaryRows, RangeTable.remainingRows, stdSort, linearInsert,
    RangeTable.extendNeighbors, RangeTable.pushIfNew, RangeTable.zeroRow,
    RangeTable.interpolate, RangeTable.quadratic3, RangeTable.linear2, RangeTable.basis]

theorem scenario_calculate_1500 :
    scenarioTable.calculate 1500 200 = some ⟨3, 71 / 4, 61 / 8, 115 / 8, 27 / 16⟩ := by
  norm_num [scenarioTable, RangeTable.calculate, RangeTable.supportsRange, minElementFrom,
    maxElementFrom, RangeTable.neighborRows, scenarioRows, lowerBound, lowerBoundLoop,
    RangeTable.primaryRows, RangeTable.remainingRows, stdSort, linearInsert,
    RangeTable.extendNeighbors, RangeTable.pushIfNew, RangeTable.zeroRow,
    RangeTable.interpolate, RangeTable.quadratic3, RangeTable.linear2, RangeTable.basis]

theorem scenario_mainWindow_1000 :
    (MainWindow.calculate scenarioDisk "M109A6" 250 50 1000).lowSolutions =
      [⟨3, 12, 5, 10, 1⟩] := by
  have hv : scenarioTable.isValid = true := by
    simp [RangeTable.isValid, scenarioTable, scenarioRows]
  have h200 : (250 : ℚ) - 50 = 200 := by norm_num
  have hc : scenarioDisk.availableCharges "M109A6" "low" = [3] := by simp [scenarioDisk]
  simp [MainWindow.calculate, trajectoryOverrides, MainWindow.findSolutions,
    MainWindow.findSolutionsLoop, scenario_construct, h200, scenario_calculate_1000, hv, hc]

theorem scenario_print_results_1000 :
    (Cli.print_results [scenarioInfo] 1000 200).blocks =
      [⟨"M109A6", "low", 3, 1000, 200, 10, 1, 12, 5⟩] := by
  norm_num [Cli.print_results, Cli.printStep, Cli.resultBlock, Cli.supports_range,
    Cli.interpolate, Cli.interpolateLoop, scenarioInfo, scenarioCliTable, Cli.tableOfRows,
    scenarioRows, Cli.RangeTable.count]

theorem scenario_print_results_1500 :
    Cli.print_results [scenarioInfo] 1500 200 =
      { blocks := [⟨"M109A6", "low", 3, 1500, 200, 15, 3 / 2, 18, 15 / 2⟩]
        printed := true
        envelope := none } := by
  norm_num [Cli.print_results, Cli.printStep, Cli.resultBlock, Cli.supports_range,
    Cli.interpolate, Cli.interpolateLoop, scenarioInfo, scenarioCliTable, Cli.tableOfRows,
    scenarioRows, Cli.RangeTable.count]

theorem scenario_interpolate_1500 :
    Cli.interpolate scenarioCliTable 1500 = ⟨1500, 15, 3 / 2, 15 / 2⟩ := by
  norm_num [Cli.interpolate, Cli.interpolateLoop, scenarioCliTable, Cli.tableOfRows,
    scenarioRows]

/-- Witness of C5: the Scenario A table at distance 1000, the gun at altitude
250 and the target at 50, in the GUI engine, in the CLI and in the GUI front
end. -/
theorem altitude_correction_formula_witness :
    ((⟨3, 12, 5, 10, 1⟩ : RangeSolution).baseMill =
        RangeTable.interpolate (scenarioTable.neighborRows 1000) 1000 RangeRow.mill ∧
      (⟨3, 12, 5, 10, 1⟩ : RangeSolution).diff100m =
        RangeTable.interpolate (scenarioTable.neighborRows 1000) 1000 RangeRow.diff100m ∧
      (⟨3, 12, 5, 10, 1⟩ : RangeSolution).mill =
        (⟨3, 12, 5, 10, 1⟩ : RangeSolution).baseMill +
          (200 / 100) * (⟨3, 12, 5, 10, 1⟩ : RangeSolution).diff100m) ∧
    (∃ info ∈ [scenarioInfo],
      (⟨"M109A6", "low", 3, 1000, 200, 10, 1, 12, 5⟩ : Cli.ResultBlock).base_mill =
        (Cli.interpolate info.table 1000).mill ∧
      (⟨"M109A6", "low", 3, 1000, 200, 10, 1, 12, 5⟩ : Cli.ResultBlock).diff100m =
        (Cli.interpolate info.table 1000).diff100m ∧
      (⟨"M109A6", "low", 3, 1000, 200, 10, 1, 12, 5⟩ : Cli.ResultBlock).adjusted_mill =
        (⟨"M109A6", "low", 3, 1000, 200, 10, 1, 12, 5⟩ : Cli.ResultBlock).base_mill +
          (200 / 100) * (⟨"M109A6", "low", 3, 1000, 200, 10, 1, 12, 5⟩ : Cli.ResultBlock).diff100m) ∧
    (⟨3, 12, 5, 10, 1⟩ : RangeSolution).mill =
      (⟨3, 12, 5, 10, 1⟩ : RangeSolution).baseMill +
        ((250 - 50) / 100) * (⟨3, 12, 5, 10, 1⟩ : RangeSolution).diff100m :=
  ⟨(altitude_correction_formula scenarioTable [scenarioInfo] scenarioDisk "M109A6" 250 50 1000
      200).1 ⟨3, 12, 5, 10, 1⟩ scenario_calculate_1000,
    (altitude_correction_formula scenarioTable [scenarioInfo] scenarioDisk "M109A6" 250 50 1000
      200).2.1 ⟨"M109A6", "low", 3, 1000, 200, 10, 1, 12, 5⟩
      (by rw [scenario_print_results_1000]; exact List.mem_singleton_self _),
    (altitude_correction_formula scenarioTable [scenarioInfo] scenarioDisk "M109A6" 250 50 1000
      200).2.2.2 ⟨3, 12, 5, 10, 1⟩
      (by rw [scenario_mainWindow_1000]; exact List.mem_append_left _ (List.mem_singleton_self _))⟩

/-- C6: Scenario A on the CLI engine: `interpolate` at 1500 returns mill 15,
`diff100m` 1.5 and eta 7.5, and with altitude delta 200 `print_results`
prints one block, with adjusted mill 18. -/
theorem cli_scenario_a :
    (Cli.interpolate scenarioCliTable 1500).mill = 15 ∧
    (Cli.interpolate scenarioCliTable 1500).diff100m = 3 / 2 ∧
    (Cli.interpolate scenarioCliTable 1500).eta = 15 / 2 ∧
    (Cli.print_results [scenarioInfo] 1500 200).blocks.map (fun b => b.adjusted_mill) = [18] ∧
    (Cli.print_results [scenarioInfo] 1500 200).printed = true := by
  rw [scenario_interpolate_1500, scenario_print_results_1500]
  simp

/-- C7 as stated fails: on the Scenario A table the GUI `calculate(1500, 200)`
does not return base mill 15, `diff100m` 1.5, eta 7.5 and mill 18. -/
theorem gui_scenario_a_counterexample :
    ¬ ∃ sol, scenarioTable.calculate 1500 200 = some sol ∧
      sol.baseMill = 15 ∧ sol.diff100m = 3 / 2 ∧ sol.eta = 15 / 2 ∧ sol.mill = 18 := by
  rw [scenario_calculate_1500]
  rintro ⟨sol, hsol, hb, -⟩
  cases hsol
  norm_num at hb

/-- C7, amended: on the Scenario A table `neighborRows(1500)` selects all three
rows, and `calculate(1500, 200)` returns the value of the 3-point
interpolation over them: base mill 14.375, `diff100m` 1.6875, eta 7.625 and
mill 17.75, with the charge of the table. -/
theorem gui_scenario_a :
    scenarioTable.neighborRows 1500 = scenarioRows ∧
    scenarioTable.calculate 1500 200 =
      some { charge := 3, baseMill := 115 / 8, diff100m := 27 / 16, eta := 61 / 8,
             mill := 71 / 4 } ∧
    RangeTable.quadratic3 ⟨1000, 10, 1, 5⟩ ⟨2000, 20, 2, 10⟩ ⟨3000, 35, 3 / 2, 14⟩ 1500
      RangeRow.mill = 115 / 8 ∧
    RangeTable.linear2 ⟨1000, 10, 1, 5⟩ ⟨2000, 20, 2, 10⟩ 1500 RangeRow.mill = 15 := by
  refine ⟨scenario_neighborRows_1500, scenario_calculate_1500, ?_, ?_⟩
  · norm_num [RangeTable.quadratic3, RangeTable.basis]
  · norm_num [RangeTable.linear2]

/-! ## The two engines on small tables -/

namespace RangeTable

theorem neighborRows_one (system trajectory : String) (charge : Int) (a : RangeRow) (d : ℚ)
    (hd : d ≤ a.range) :
    neighborRows ⟨system, trajectory, charge, [a]⟩ d = [a] := by
  simp [neighborRows, lowerBound, lowerBoundLoop, not_lt.2 hd, primaryRows, remainingRows,
    stdSort, linearInsert, extendNeighbors]

theorem neighborRows_two_inner (system trajectory : String) (charge : Int) (a b : RangeRow)
    (d : ℚ) (ha : a.range < d) (hb : d ≤ b.range) :
    neighborRows ⟨system, trajectory, charge, [a, b]⟩ d = [a, b] := by
  have hba : ¬ b.range < a.range := not_lt.2 (le_of_lt (lt_of_lt_of_le ha hb))
  simp [neighborRows, lowerBound, lowerBoundLoop, not_lt.2 hb, ha, primaryRows, remainingRows,
    stdSort, linearInsert, extendNeighbors, hba]

theorem neighborRows_two_first (system trajectory : String) (charge : Int) (a b : RangeRow)
    (hab : a.range < b.range) :
    neighborRows ⟨system, trajectory, charge, [a, b]⟩ a.range = [a, b] := by
  simp [neighborRows, lowerBound, lowerBoundLoop, not_lt.2 (le_of_lt hab), primaryRows,
    remainingRows, stdSort, linearInsert, extendNeighbors, pushIfNew, ne_of_lt hab,
    not_lt.2 (le_of_lt hab)]

theorem neighborRows_two_equal (system trajectory : String) (charge : Int) (a b : RangeRow)
    (hab : a.range = b.range) :
    neighborRows ⟨system, trajectory, charge, [a, b]⟩ a.range = [a] := by
  simp [neighborRows, lowerBound, lowerBoundLoop, hab, primaryRows,
    remainingRows, stdSort, linearInsert, extendNeighbors, pushIfNew]

end RangeTable

namespace Cli

/-- The linear scan on a one-row table returns the row. -/
theorem interpolate_one (a : RangeRow) (d : ℚ) : interpolate (tableOfRows [a]) d = a := by
  simp [interpolate, tableOfRows, interpolateLoop, RangeTable.count]

/-- The linear scan on a two-row table whose second row is not below the
distance. -/
theorem interpolate_two (a b : RangeRow) (d : ℚ) (hb : d ≤ b.range) :
    interpolate (tableOfRows [a, b]) d =
      { range := d
        mill := RangeTable.linear2 a b d RangeRow.mill
        diff100m := RangeTable.linear2 a b d RangeRow.diff100m
        eta := RangeTable.linear2 a b d RangeRow.eta } := by
  by_cases hspan : b.range = a.range
  · have ha : d ≤ a.range := hspan ▸ hb
    simp [interpolate, tableOfRows, interpolateLoop, ha, RangeTable.linear2, hspan]
  · have hne : b.range - a.range ≠ 0 := sub_ne_zero.2 hspan
    simp [interpolate, tableOfRows, interpolateLoop, hb, RangeTable.linear2, hspan, hne]

end Cli

/-- C8: on a table of exactly one or exactly two rows sorted ascending by
range (equal ranges allowed), at every distance that `supportsRange` accepts,
the GUI `calculate` returns a solution whose `baseMill`, `diff100m` and `eta`
are the `mill`, `diff100m` and `eta` of the row the CLI linear-scan
`interpolate` returns; the CLI `supports_range` accepts the distance too. -/
theorem variants_agree_on_small_tables (rows : List RangeRow)
    (hlen : rows.length = 1 ∨ rows.length = 2) (hs : SortedByRange rows)
    (system trajectory : String) (charge : Int) (d altitudeDelta : ℚ)
    (hsup : RangeTable.supportsRange ⟨system, trajectory, charge, rows⟩ d = true) :
    (∃ sol, RangeTable.calculate ⟨system, trajectory, charge, rows⟩ d altitudeDelta = some sol ∧
      (Cli.interpolate (Cli.tableOfRows rows) d).mill = sol.baseMill ∧
      (Cli.interpolate (Cli.tableOfRows rows) d).diff100m = sol.diff100m ∧
      (Cli.interpolate (Cli.tableOfRows rows) d).eta = sol.eta) ∧
    Cli.supports_range (Cli.tableOfRows rows) d = true := by
  have henv := (RangeTable.supportsRange_iff_inEnvelope ⟨system, trajectory, charge, rows⟩ hs d).1
    hsup
  refine ⟨⟨_, RangeTable.calculate_of_supportsRange _ d altitudeDelta hsup, ?_⟩,
    (Cli.supports_range_iff_inEnvelope rows d).2 henv⟩
  simp only [RangeTable.solutionAt]
  match rows, hlen, hs, henv with
  | [a], _, _, henv =>
    simp only [InEnvelope, List.getLastD] at henv
    have hd : d = a.range := le_antisymm henv.2 henv.1
    rw [RangeTable.neighborRows_one system trajectory charge a d henv.2, Cli.interpolate_one]
    simp [RangeTable.interpolate]
  | [a, b], _, hs, henv =>
    simp only [InEnvelope, List.getLastD] at henv
    have hab : a.range ≤ b.range := (List.pairwise_cons.1 hs).1 b (List.mem_singleton_self b)
    rw [Cli.interpolate_two a b d henv.2]
    rcases lt_or_eq_of_le henv.1 with hlt | heq
    · rw [RangeTable.neighborRows_two_inner system trajectory charge a b d hlt henv.2]
      simp [RangeTable.interpolate]
    · subst heq
      rcases lt_or_eq_of_le hab with hlt | heq
      · rw [RangeTable.neighborRows_two_first system trajectory charge a b hlt]
        simp [RangeTable.interpolate]
      · rw [RangeTable.neighborRows_two_equal system trajectory charge a b heq]
        simp [RangeTable.interpolate, RangeTable.linear2, heq]
  | [], hlen, _, _ => simp at hlen
  | _ :: _ :: _ :: _, hlen, _, _ => simp at hlen

/-- Witness of C8: the first two rows of Scenario A at distance 1500. -/
theorem variants_agree_on_small_tables_witness :
    (∃ sol, RangeTable.calculate
        ⟨"M109A6", "low", 3, [⟨1000, 10, 1, 5⟩, ⟨2000, 20, 2, 10⟩]⟩ 1500 200 = some sol ∧
      (Cli.interpolate (Cli.tableOfRows [⟨1000, 10, 1, 5⟩, ⟨2000, 20, 2, 10⟩]) 1500).mill =
        sol.baseMill ∧
      (Cli.interpolate (Cli.tableOfRows [⟨1000, 10, 1, 5⟩, ⟨2000, 20, 2, 10⟩]) 1500).diff100m =
        sol.diff100m ∧
      (Cli.interpolate (Cli.tableOfRows [⟨1000, 10, 1, 5⟩, ⟨2000, 20, 2, 10⟩]) 1500).eta =
        sol.eta) ∧
    Cli.supports_range (Cli.tableOfRows [⟨1000, 10, 1, 5⟩, ⟨2000, 20, 2, 10⟩]) 1500 = true :=
  variants_agree_on_small_tables [⟨1000, 10, 1, 5⟩, ⟨2000, 20, 2, 10⟩] (Or.inr rfl)
    (by norm_num [SortedByRange]) "M109A6" "low" 3 1500 200
    (by norm_num [RangeTable.supportsRange, minElementFrom, maxElementFrom])

/-- C10: the solver cap and order.  `findSolutions` returns at most three
solutions; they are the solutions of the first three charges of the candidate
list, in list order, whose table is valid (non-empty, which a failed load is
not) and supports the distance; every other charge is skipped; `calculate`
returns a solution for exactly those charges, and each solution carries the
charge of its table. -/
theorem findSolutions_cap_and_order (disk : MainWindow.Disk) (system trajectory : String)
    (charges : List Int) (d altitudeDelta : ℚ) :
    (MainWindow.findSolutions disk system trajectory charges d altitudeDelta).length ≤ 3 ∧
    MainWindow.findSolutions disk system trajectory charges d altitudeDelta =
      ((charges.filter (fun charge =>
          (RangeTable.construct disk.loadRows system trajectory charge).isValid &&
          (RangeTable.construct disk.loadRows system trajectory charge).supportsRange d)).take
        3).map (fun charge =>
          (RangeTable.construct disk.loadRows system trajectory charge).solutionAt
            d altitudeDelta) ∧
    (∀ charge : Int,
      (RangeTable.construct disk.loadRows system trajectory charge).calculate d altitudeDelta =
        if (RangeTable.construct disk.loadRows system trajectory charge).isValid &&
            (RangeTable.construct disk.loadRows system trajectory charge).supportsRange d
        then some ((RangeTable.construct disk.loadRows system trajectory charge).solutionAt
          d altitudeDelta)
        else none) ∧
    (∀ charge : Int,
      ((RangeTable.construct disk.loadRows system trajectory charge).solutionAt
        d altitudeDelta).charge = charge) := by
  refine ⟨?_, MainWindow.findSolutions_eq disk system trajectory charges d altitudeDelta, ?_,
    fun _ => rfl⟩
  · rw [MainWindow.findSolutions_eq]
    simp only [List.length_map, List.length_take]
    exact Nat.min_le_left _ _
  · intro charge
    cases hsup : (RangeTable.construct disk.loadRows system trajectory charge).supportsRange d with
    | true =>
      have hne := RangeTable.rows_ne_nil_of_supportsRange _ d hsup
      have hv : (RangeTable.construct disk.loadRows system trajectory charge).isValid = true := by
        simp only [RangeTable.isValid, Bool.not_eq_true', Bool.not_eq_false]
        cases hr : (RangeTable.construct disk.loadRows system trajectory charge).m_rows with
        | nil => exact absurd hr hne
        | cons x l => rfl
      rw [RangeTable.calculate_of_supportsRange _ d altitudeDelta hsup, hv]
      rfl
    | false =>
      rw [RangeTable.calculate_of_not_supportsRange _ d altitudeDelta hsup]
      simp

/-! ## The loaders -/

/-- Linear insertion by a numeric key keeps a vector sorted by that key. -/
theorem linearInsert_sorted {α : Type} (key : α → ℚ) (x : α) (l : List α)
    (h : l.Pairwise (fun a b => key a ≤ key b)) :
    (linearInsert (fun a b => decide (key a < key b)) x l).Pairwise
      (fun a b => key a ≤ key b) := by
  induction l with
  | nil => simp [linearInsert]
  | cons y ys ih =>
    have hc := List.pairwise_cons.1 h
    unfold linearInsert
    split
    · rename_i hall
      refine List.Pairwise.cons ?_ h
      intro z hz
      have := (List.all_eq_true.1 hall) z hz
      exact le_of_lt (by simpa using this)
    · rename_i hall
      have hex : ∃ z ∈ y :: ys, key z ≤ key x := by
        by_contra hcon
        apply hall
        rw [List.all_eq_true]
        intro z hz
        have : ¬ key z ≤ key x := fun hle => hcon ⟨z, hz, hle⟩
        simpa using lt_of_not_le this
      have hyx : key y ≤ key x := by
        obtain ⟨z, hz, hzx⟩ := hex
        rcases List.mem_cons.1 hz with rfl | hmem
        · exact hzx
        · exact le_trans (hc.1 z hmem) hzx
      refine List.Pairwise.cons ?_ (ih hc.2)
      intro z hz
      rcases List.mem_cons.1 ((linearInsert_perm _ x ys).mem_iff.1 hz) with rfl | hmem
      · exact hyx
      · exact hc.1 z hmem

theorem stdSort_foldl_sorted {α : Type} (key : α → ℚ) (v acc : List α)
    (h : acc.Pairwise (fun a b => key a ≤ key b)) :
    (v.foldl (fun sorted x => linearInsert (fun a b => decide (key a < key b)) x sorted)
      acc).Pairwise (fun a b => key a ≤ key b) := by
  induction v generalizing acc with
  | nil => simpa using h
  | cons x xs ih =>
    simp only [List.foldl_cons]
    exact ih _ (linearInsert_sorted key x acc h)

/-- The sort by a numeric key delivers the vector in ascending order of the
key. -/
theorem stdSort_sorted {α : Type} (key : α → ℚ) (v : List α) :
    (stdSort (fun a b => decide (key a < key b)) v).Pairwise (fun a b => key a ≤ key b) :=
  stdSort_foldl_sorted key v [] List.Pairwise.nil

theorem cmp_range_lt (a b : RangeRow) : Cli.cmp_range a b < 0 ↔ a.range < b.range := by
  unfold Cli.cmp_range
  split
  · simp [*]
  · split <;> simp [*]

theorem qsort_cmp_range_eq (rows : List RangeRow) :
    CLib.qsort Cli.cmp_range rows = stdSort (fun a b => decide (a.range < b.range)) rows := by
  unfold CLib.qsort
  congr 1
  funext a b
  simp only [cmp_range_lt]

theorem qsort_cmp_range_sorted (rows : List RangeRow) :
    SortedByRange (CLib.qsort Cli.cmp_range rows) := by
  rw [qsort_cmp_range_eq]
  exact stdSort_sorted (fun r => r.range) rows

theorem qsort_perm {α : Type} (cmp : α → α → Int) (base : List α) :
    (CLib.qsort cmp base).Perm base :=
  stdSort_perm _ base

/-- In a sorted table every range lies between those of the first and the last
row. -/
theorem sorted_between (rows : List RangeRow) (h : SortedByRange rows) (d : RangeRow) :
    ∀ r ∈ rows, (rows.getD 0 d).range ≤ r.range ∧
      r.range ≤ (rows.getD (rows.length - 1) d).range := by
  intro r hr
  obtain ⟨k, hk, hkr⟩ := List.getElem_of_mem hr
  have h0 : 0 < rows.length := by omega
  rw [List.getD_eq_getElem _ _ h0, List.getD_eq_getElem _ _ (by omega : rows.length - 1 < rows.length)]
  subst hkr
  constructor
  · rcases Nat.eq_zero_or_pos k with rfl | hpos
    · exact le_refl _
    · exact (List.pairwise_iff_getElem.1 h) 0 k h0 hk hpos
  · rcases Nat.lt_or_eq_of_le (Nat.le_sub_one_of_lt hk) with hlt | heq
    · exact (List.pairwise_iff_getElem.1 h) k (rows.length - 1) hk (by omega) hlt
    · simp only [heq, le_refl]

namespace Cli

/-- The read loop stores the rows of the lines that have four tokens, in file
order, until `MAX_ROWS` rows are stored. -/
theorem readLoop_eq (lines : List String) (rows : List RangeRow)
    (h : rows.length ≤ MAX_ROWS) :
    readLoop lines rows =
      rows ++ (lines.filterMap parseDataLine).take (MAX_ROWS - rows.length) := by
  induction lines generalizing rows with
  | nil => simp [readLoop]
  | cons line rest ih =>
    unfold readLoop
    by_cases hlt : rows.length < MAX_ROWS
    · rw [if_pos hlt]
      cases hp : parseDataLine line with
      | none =>
        simp only [List.filterMap_cons, hp]
        exact ih rows h
      | some row =>
        simp only [List.filterMap_cons, hp]
        rw [ih (rows ++ [row]) (by simp only [List.length_append, List.length_singleton]; omega)]
        have hl : MAX_ROWS - rows.length = (MAX_ROWS - (rows ++ [row]).length) + 1 := by
          simp only [List.length_append, List.length_singleton]; omega
        rw [hl, List.take_succ_cons]
        simp
    · rw [if_neg hlt]
      have : MAX_ROWS - rows.length = 0 := by omega
      simp [this]

theorem readLoop_nil_eq (lines : List String) :
    readLoop lines [] = (lines.filterMap parseDataLine).take MAX_ROWS := by
  rw [readLoop_eq lines [] (Nat.zero_le _)]
  simp

/-- With a header that can be read, `load_csv` returns 0. -/
theorem load_csv_status (header : String) (lines : List String) (table : RangeTable) :
    (load_csv (some (header :: lines)) table).1 = 0 := by
  unfold load_csv
  simp only
  split <;> rfl

/-- The rows `load_csv` leaves in the table: the stored rows, sorted. -/
theorem load_csv_rows (header : String) (lines : List String) (table : RangeTable) :
    (load_csv (some (header :: lines)) table).2.rows =
      CLib.qsort cmp_range (readLoop lines []) := by
  unfold load_csv
  simp only
  split
  · rfl
  · rename_i hlen
    have hnil : readLoop lines [] = [] := List.length_eq_zero.1 (by omega)
    rw [hnil]
    rfl

/-- On a table that `load_tables` has cleared, `load_csv` leaves the state
`tableOfRows` describes. -/
theorem load_csv_zeroTable (header : String) (lines : List String) :
    load_csv (some (header :: lines)) zeroTable =
      (0, tableOfRows (CLib.qsort cmp_range (readLoop lines []))) := by
  unfold load_csv
  simp only
  split
  · rename_i hlen
    have hlen2 : 0 < (CLib.qsort cmp_range (readLoop lines [])).length := by
      rw [(qsort_perm _ _).length_eq]; exact hlen
    cases hq : CLib.qsort cmp_range (readLoop lines []) with
    | nil => rw [hq] at hlen2; simp at hlen2
    | cons r rest =>
      simp only [tableOfRows, List.getD_cons_zero, List.length_cons, Nat.add_sub_cancel]
      congr 2
      rw [List.getD_eq_getElem _ _ (by simp), List.getLastD_eq_getLast?,
        List.getLast?_eq_getLast _ (List.cons_ne_nil _ _), List.getLast_eq_getElem]
      simp
  · rename_i hlen
    have hnil : readLoop lines [] = [] := List.length_eq_zero.1 (by omega)
    rw [hnil]
    rfl

end Cli

/-! ## Scenario files, evaluated -/

theorem parseDataLine_of_tokens (line : String) (t0 t1 t2 t3 : List Char)
    (more : List (List Char))
    (h : CLib.strtok Cli.isFieldDelimiter line.toList = t0 :: t1 :: t2 :: t3 :: more) :
    Cli.parseDataLine line =
      some { range := CLib.atof t0, mill := CLib.atof t1, diff100m := CLib.atof t2,
             eta := CLib.atof t3 } := by
  unfold Cli.parseDataLine
  rw [h]

theorem atof_of_numeral (s : List Char) (n : CLib.Numeral) (h : CLib.scanNumeral s = some n) :
    CLib.atof s = n.value := by
  unfold CLib.atof
  rw [h]

theorem atof_of_no_numeral (s : List Char) (h : CLib.scanNumeral s = none) :
    CLib.atof s = 0 := by
  unfold CLib.atof
  rw [h]

theorem parseDataLine_row_1000 :
    Cli.parseDataLine "1000,10,1,5\n" = some ⟨1000, 10, 1, 5⟩ := by
  rw [parseDataLine_of_tokens "1000,10,1,5\n" "1000".toList "10".toList "1".toList "5".toList []
    (by decide)]
  rw [atof_of_numeral "1000".toList ⟨false, 1000, 0, 10⟩ (by decide),
    atof_of_numeral "10".toList ⟨false, 10, 0, 10⟩ (by decide),
    atof_of_numeral "1".toList ⟨false, 1, 0, 10⟩ (by decide),
    atof_of_numeral "5".toList ⟨false, 5, 0, 10⟩ (by decide)]
  norm_num [CLib.Numeral.value]

theorem parseDataLine_row_2000 :
    Cli.parseDataLine "2000,20,2,10\n" = some ⟨2000, 20, 2, 10⟩ := by
  rw [parseDataLine_of_tokens "2000,20,2,10\n" "2000".toList "20".toList "2".toList
    "10".toList [] (by decide)]
  rw [atof_of_numeral "2000".toList ⟨false, 2000, 0, 10⟩ (by decide),
    atof_of_numeral "20".toList ⟨false, 20, 0, 10⟩ (by decide),
    atof_of_numeral "2".toList ⟨false, 2, 0, 10⟩ (by decide),
    atof_of_numeral "10".toList ⟨false, 10, 0, 10⟩ (by decide)]
  norm_num [CLib.Numeral.value]

theorem parseDataLine_row_3000 :
    Cli.parseDataLine "3000,35,1.5,14\n" = some ⟨3000, 35, 3 / 2, 14⟩ := by
  rw [parseDataLine_of_tokens "3000,35,1.5,14\n" "3000".toList "35".toList "1.5".toList
    "14".toList [] (by decide)]
  rw [atof_of_numeral "3000".toList ⟨false, 3000, 0, 10⟩ (by decide),
    atof_of_numeral "35".toList ⟨false, 35, 0, 10⟩ (by decide),
    atof_of_numeral "1.5".toList ⟨false, 15, -1, 10⟩ (by decide),
    atof_of_numeral "14".toList ⟨false, 14, 0, 10⟩ (by decide)]
  norm_num [CLib.Numeral.value]

theorem readLoop_scenarioLines :
    Cli.readLoop (scenarioLines.drop 1) [] = scenarioRows := by
  simp [scenarioLines, Cli.readLoop, Cli.MAX_ROWS, parseDataLine_row_1000,
    parseDataLine_row_2000, parseDataLine_row_3000, scenarioRows]

theorem readLoop_shuffledLines :
    Cli.readLoop (shuffledLines.drop 1) [] =
      [⟨2000, 20, 2, 10⟩, ⟨3000, 35, 3 / 2, 14⟩, ⟨1000, 10, 1, 5⟩] := by
  simp [shuffledLines, Cli.readLoop, Cli.MAX_ROWS, parseDataLine_row_1000,
    parseDataLine_row_2000, parseDataLine_row_3000]

theorem load_csv_scenarioLines :
    Cli.load_csv (some scenarioLines) Cli.zeroTable = (0, scenarioCliTable) := by
  have h : scenarioLines = "range,mill,diff100m,eta\n" :: scenarioLines.drop 1 := rfl
  rw [h, Cli.load_csv_zeroTable, readLoop_scenarioLines, qsort_cmp_range_eq, scenarioCliTable]
  norm_num [scenarioRows, stdSort, linearInsert]

/-- C11: when the read loop of `load_csv` has stored at least one row,
`load_csv` returns 0 and leaves in the table a permutation of the stored rows
that is sorted ascending by range, with `min_range` the range of the first and
`max_range` the range of the last row, so that every row of the table lies
between them; the stored rows are the rows of the first `MAX_ROWS` lines with
four tokens.  The GUI `loadRows` returns the rows its read loop pushed, sorted
ascending by range. -/
theorem load_csv_postcondition (header : String) (lines : List String)
    (table : Cli.RangeTable) (rowOfLine : String → Option RangeRow) (file : List String)
    (h : Cli.readLoop lines [] ≠ []) :
    (Cli.load_csv (some (header :: lines)) table).1 = 0 ∧
    Cli.readLoop lines [] = (lines.filterMap Cli.parseDataLine).take Cli.MAX_ROWS ∧
    (Cli.load_csv (some (header :: lines)) table).2.rows.Perm (Cli.readLoop lines []) ∧
    SortedByRange (Cli.load_csv (some (header :: lines)) table).2.rows ∧
    (∃ first last,
      (Cli.load_csv (some (header :: lines)) table).2.rows.head? = some first ∧
      (Cli.load_csv (some (header :: lines)) table).2.rows.getLast? = some last ∧
      (Cli.load_csv (some (header :: lines)) table).2.min_range = first.range ∧
      (Cli.load_csv (some (header :: lines)) table).2.max_range = last.range) ∧
    (∀ r ∈ (Cli.load_csv (some (header :: lines)) table).2.rows,
      (Cli.load_csv (some (header :: lines)) table).2.min_range ≤ r.range ∧
      r.range ≤ (Cli.load_csv (some (header :: lines)) table).2.max_range) ∧
    (RangeTable.loadRowsOf rowOfLine (some file)).Perm ((file.drop 1).filterMap rowOfLine) ∧
    SortedByRange (RangeTable.loadRowsOf rowOfLine (some file)) := by
  have hperm := qsort_perm Cli.cmp_range (Cli.readLoop lines [])
  have hsorted := qsort_cmp_range_sorted (Cli.readLoop lines [])
  have hlen : (Cli.readLoop lines []).length > 0 := List.length_pos.2 h
  have hres : Cli.load_csv (some (header :: lines)) table =
      (0, { rows := CLib.qsort Cli.cmp_range (Cli.readLoop lines [])
            min_range := ((CLib.qsort Cli.cmp_range (Cli.readLoop lines [])).getD 0
              ⟨0, 0, 0, 0⟩).range
            max_range := ((CLib.qsort Cli.cmp_range (Cli.readLoop lines [])).getD
              ((CLib.qsort Cli.cmp_range (Cli.readLoop lines [])).length - 1)
              ⟨0, 0, 0, 0⟩).range }) := by
    unfold Cli.load_csv
    simp only [hlen, if_true]
  rw [hres]
  generalize CLib.qsort Cli.cmp_range (Cli.readLoop lines []) = sorted at hperm hsorted
  have hpos : 0 < sorted.length := by rw [hperm.length_eq]; exact hlen
  refine ⟨rfl, Cli.readLoop_nil_eq lines, hperm, hsorted, ?_, ?_, stdSort_perm _ _,
    stdSort_sorted (fun r : RangeRow => r.range) _⟩
  · refine ⟨sorted.getD 0 ⟨0, 0, 0, 0⟩, sorted.getD (sorted.length - 1) ⟨0, 0, 0, 0⟩, ?_, ?_,
      rfl, rfl⟩
    · cases sorted with
      | nil => simp at hpos
      | cons a l => rfl
    · rw [List.getD_eq_getElem _ _ (by omega : sorted.length - 1 < sorted.length),
        List.getLast?_eq_getLast _ (List.length_pos.1 hpos), List.getLast_eq_getElem]
  · exact sorted_between sorted hsorted _

/-- Witness of C11: the Scenario A file with its data lines out of order. -/
theorem load_csv_postcondition_witness :
    (Cli.load_csv (some ("range,mill,diff100m,eta\n" :: shuffledLines.drop 1))
      Cli.zeroTable).2.rows.Perm (Cli.readLoop (shuffledLines.drop 1) []) ∧
    SortedByRange (Cli.load_csv (some ("range,mill,diff100m,eta\n" :: shuffledLines.drop 1))
      Cli.zeroTable).2.rows ∧
    (∀ r ∈ (Cli.load_csv (some ("range,mill,diff100m,eta\n" :: shuffledLines.drop 1))
        Cli.zeroTable).2.rows,
      (Cli.load_csv (some ("range,mill,diff100m,eta\n" :: shuffledLines.drop 1))
        Cli.zeroTable).2.min_range ≤ r.range ∧
      r.range ≤ (Cli.load_csv (some ("range,mill,diff100m,eta\n" :: shuffledLines.drop 1))
        Cli.zeroTable).2.max_range) :=
  have h := load_csv_postcondition "range,mill,diff100m,eta\n" (shuffledLines.drop 1)
    Cli.zeroTable (fun _ => none) [] (by rw [readLoop_shuffledLines]; simp)
  ⟨h.2.2.1, h.2.2.2.1, h.2.2.2.2.2.1⟩

/-- C12, the code at the failing inputs: `load_csv` stores the line
`abc,1,2,3` as the row (0, 1, 2, 3), because `atof` turns text that is not a
number into 0, and it stores the line `1,,2,3,4` as the row (1, 2, 3, 4),
because `strtok` passes over the empty field; a line with three fields is
skipped, and in general a line yields a row exactly when it has at least four
tokens. -/
theorem load_csv_stores_non_numeric_line :
    Cli.parseDataLine "abc,1,2,3\n" = some ⟨0, 1, 2, 3⟩ ∧
    Cli.parseDataLine "1,,2,3,4\n" = some ⟨1, 2, 3, 4⟩ ∧
    Cli.parseDataLine "1,2,3\n" = none ∧
    Cli.load_csv (some ["range,mill,diff100m,eta\n", "abc,1,2,3\n"]) Cli.zeroTable =
      (0, { rows := [⟨0, 1, 2, 3⟩], min_range := 0, max_range := 0 }) ∧
    (∀ line : String, (Cli.parseDataLine line).isSome = true ↔
      4 ≤ (CLib.strtok Cli.isFieldDelimiter line.toList).length) := by
  have h1 : CLib.atof "1".toList = 1 := by
    rw [atof_of_numeral "1".toList ⟨false, 1, 0, 10⟩ (by decide)]; norm_num [CLib.Numeral.value]
  have h2 : CLib.atof "2".toList = 2 := by
    rw [atof_of_numeral "2".toList ⟨false, 2, 0, 10⟩ (by decide)]; norm_num [CLib.Numeral.value]
  have h3 : CLib.atof "3".toList = 3 := by
    rw [atof_of_numeral "3".toList ⟨false, 3, 0, 10⟩ (by decide)]; norm_num [CLib.Numeral.value]
  have h4 : CLib.atof "4".toList = 4 := by
    rw [atof_of_numeral "4".toList ⟨false, 4, 0, 10⟩ (by decide)]; norm_num [CLib.Numeral.value]
  have habc : CLib.atof "abc".toList = 0 := atof_of_no_numeral "abc".toList (by decide)
  have hl1 : Cli.parseDataLine "abc,1,2,3\n" = some ⟨0, 1, 2, 3⟩ := by
    rw [parseDataLine_of_tokens "abc,1,2,3\n" "abc".toList "1".toList "2".toList "3".toList []
      (by decide), habc, h1, h2, h3]
  have hl2 : Cli.parseDataLine "1,,2,3,4\n" = some ⟨1, 2, 3, 4⟩ := by
    rw [parseDataLine_of_tokens "1,,2,3,4\n" "1".toList "2".toList "3".toList "4".toList []
      (by decide), h1, h2, h3, h4]
  refine ⟨hl1, hl2, by decide, ?_, ?_⟩
  · rw [Cli.load_csv_zeroTable]
    have hr : Cli.readLoop ["abc,1,2,3\n"] [] = [⟨0, 1, 2, 3⟩] := by
      simp [Cli.readLoop, Cli.MAX_ROWS, hl1]
    rw [hr, qsort_cmp_range_eq]
    simp [stdSort, linearInsert, Cli.tableOfRows]
  · intro line
    unfold Cli.parseDataLine
    split
    · rename_i heq
      rw [heq]
      simp
    · rename_i hno
      simp only [Option.isSome_none, Bool.false_eq_true, false_iff, not_le]
      match hs : CLib.strtok Cli.isFieldDelimiter line.toList with
      | [] => simp
      | [_] => simp
      | [_, _] => simp
      | [_, _, _] => simp
      | t0 :: t1 :: t2 :: t3 :: more => exact absurd hs (hno t0 t1 t2 t3 more)

theorem filterMap_replicate_some {α β : Type} (f : α → Option β) (a : α) (b : β)
    (h : f a = some b) (n : Nat) :
    (List.replicate n a).filterMap f = List.replicate n b := by
  induction n with
  | zero => rfl
  | succ n ih => simp [List.replicate_succ, List.filterMap_cons, h, ih]

/-- C13 as stated fails: the file `longLines` holds 4001 acceptable data
lines, and `load_csv` returns 0 with a table of 4000 rows. -/
theorem load_csv_too_many_rows_counterexample :
    ((longLines.drop 1).filterMap Cli.parseDataLine).length = 4001 ∧
    (Cli.load_csv (some longLines) Cli.zeroTable).1 = 0 ∧
    (Cli.load_csv (some longLines) Cli.zeroTable).2.rows.length = 4000 := by
  have hd : longLines.drop 1 = List.replicate 4001 "1000,10,1,5\n" := rfl
  have hf : (longLines.drop 1).filterMap Cli.parseDataLine =
      List.replicate 4001 ⟨1000, 10, 1, 5⟩ := by
    rw [hd]
    exact filterMap_replicate_some _ _ _ parseDataLine_row_1000 4001
  have hl : longLines = "range,mill,diff100m,eta\n" :: longLines.drop 1 := rfl
  refine ⟨by rw [hf, List.length_replicate], ?_, ?_⟩
  · rw [hl]; exact Cli.load_csv_status _ _ _
  · rw [hl, Cli.load_csv_rows, (qsort_perm _ _).length_eq, Cli.readLoop_nil_eq, hf,
      List.length_take, List.length_replicate]
    decide

/-- C13, amended: whatever the number of acceptable data lines, `load_csv`
returns 0 when the header can be read; the table holds, sorted, the rows of
the first 4000 acceptable lines, and the lines after them are ignored. -/
theorem load_csv_truncates (header : String) (lines : List String) (table : Cli.RangeTable) :
    (Cli.load_csv (some (header :: lines)) table).1 = 0 ∧
    (Cli.load_csv (some (header :: lines)) table).2.rows.Perm
      ((lines.filterMap Cli.parseDataLine).take 4000) ∧
    SortedByRange (Cli.load_csv (some (header :: lines)) table).2.rows ∧
    (Cli.load_csv (some (header :: lines)) table).2.count =
      min 4000 (lines.filterMap Cli.parseDataLine).length := by
  refine ⟨Cli.load_csv_status _ _ _, ?_, ?_, ?_⟩
  · rw [Cli.load_csv_rows, Cli.readLoop_nil_eq]
    exact qsort_perm _ _
  · rw [Cli.load_csv_rows]
    exact qsort_cmp_range_sorted _
  · rw [Cli.RangeTable.count, Cli.load_csv_rows, (qsort_perm _ _).length_eq,
      Cli.readLoop_nil_eq, List.length_take]
    rfl

namespace Cli

/-- The loop of `load_tables` only appends to the tables stored so far. -/
theorem loadTablesLoop_append (fs : FileSystem) (system_filter trajectory_filter : Option String)
    (entries : List DirEntry) (tables : List TableInfo) :
    ∃ more, loadTablesLoop fs system_filter trajectory_filter entries tables = tables ++ more := by
  induction entries generalizing tables with
  | nil => exact ⟨[], by simp [loadTablesLoop]⟩
  | cons entry rest ih =>
    unfold loadTablesLoop
    split
    · exact ⟨[], by simp⟩
    · split
      · exact ih tables
      · split
        · exact ih tables
        · split
          · exact ih tables
          · split
            · exact ih tables
            · split
              · exact ih tables
              · simp only
                split
                · obtain ⟨more, hmore⟩ := ih (tables ++ [_])
                  rw [hmore, List.append_assoc]
                  exact ⟨_, rfl⟩
                · exact ih tables

theorem load_tables_of_dir (fs : FileSystem) (system_filter trajectory_filter : Option String)
    (entries : List DirEntry) (h : fs.rangeTables = some entries) :
    load_tables fs system_filter trajectory_filter =
      (if (loadTablesLoop fs system_filter trajectory_filter entries []).length = 0 then -1
        else 0,
       loadTablesLoop fs system_filter trajectory_filter entries []) := by
  unfold load_tables
  rw [h]

/-- With a readable header and no line of four tokens, `load_csv` returns 0
and leaves the table empty. -/
theorem load_csv_no_rows (header : String) (lines : List String) (table : RangeTable)
    (h : lines.filterMap parseDataLine = []) :
    load_csv (some (header :: lines)) table = (0, { table with rows := [] }) := by
  have hr : readLoop lines [] = [] := by
    rw [readLoop_nil_eq, h]
    rfl
  unfold load_csv
  simp [hr]

/-- The step of the loop of `load_tables` on an entry that passes the name and
filter tests and whose file `load_csv` accepts: the table is stored. -/
theorem loadTablesLoop_store (fs : FileSystem) (system_filter trajectory_filter : Option String)
    (name system trajectory : String) (charge : Int) (rest : List DirEntry)
    (tables : List TableInfo) (hroom : tables.length < MAX_TABLES)
    (hdot : name.toList.head? ≠ some '.')
    (hname : parse_filename name = some (system, trajectory, charge))
    (hsys : system_filter = none ∨ system_filter = some system)
    (htraj : trajectory_filter = none ∨ trajectory_filter = some trajectory)
    (hload : (load_csv (fs.fopen ("rangeTables/" ++ name)) zeroTable).1 = 0) :
    loadTablesLoop fs system_filter trajectory_filter (⟨name, false⟩ :: rest) tables =
      loadTablesLoop fs system_filter trajectory_filter rest
        (tables ++ [{ system := system, trajectory := trajectory, charge := charge
                      table := (load_csv (fs.fopen ("rangeTables/" ++ name)) zeroTable).2 }]) := by
  have hs : ¬ (system_filter.isSome = true ∧ system_filter ≠ some system) := by
    rcases hsys with h | h <;> simp [h]
  have ht : ¬ (trajectory_filter.isSome = true ∧ trajectory_filter ≠ some trajectory) := by
    rcases htraj with h | h <;> simp [h]
  rw [loadTablesLoop]
  simp only [hname]
  rw [if_neg (by omega), if_neg (by simp), if_neg hdot, if_neg hs, if_neg ht, if_pos hload]

end Cli

/-- C14 as stated fails: for the file of `headerOnlyFiles`, a header and no
data, `load_csv` returns 0, and `load_tables` stores the empty table and
returns 0 with one table in the catalog. -/
theorem load_csv_no_data_counterexample :
    Cli.load_csv (headerOnlyFiles.fopen "rangeTables/M109A6_rangeTable_low_3.csv")
      Cli.zeroTable = (0, Cli.zeroTable) ∧
    Cli.load_tables headerOnlyFiles (some "M109A6") none =
      (0, [{ system := "M109A6", trajectory := "low", charge := 3, table := Cli.zeroTable }]) := by
  have hopen : headerOnlyFiles.fopen "rangeTables/M109A6_rangeTable_low_3.csv" =
      some ["range,mill,diff100m,eta\n"] := by
    simp [headerOnlyFiles]
  have hcsv : Cli.load_csv (headerOnlyFiles.fopen "rangeTables/M109A6_rangeTable_low_3.csv")
      Cli.zeroTable = (0, Cli.zeroTable) := by
    rw [hopen, Cli.load_csv_no_rows _ [] _ rfl]
    rfl
  refine ⟨hcsv, ?_⟩
  have hpath : "rangeTables/" ++ "M109A6_rangeTable_low_3.csv" =
      "rangeTables/M109A6_rangeTable_low_3.csv" := by decide
  have hstep := Cli.loadTablesLoop_store headerOnlyFiles (some "M109A6") none
    "M109A6_rangeTable_low_3.csv" "M109A6" "low" 3 [] [] (by decide) (by decide) (by decide)
    (Or.inr rfl) (Or.inl rfl) (by rw [hpath, hcsv])
  rw [hpath, hcsv] at hstep
  have hdir : headerOnlyFiles.rangeTables = some [⟨"M109A6_rangeTable_low_3.csv", false⟩] := rfl
  simp only [Cli.load_tables, hdir, hstep, Cli.loadTablesLoop]
  rfl

/-- C14, amended: when a file has a readable header and no valid data row,
`load_csv` returns 0 and leaves an empty table, which supports no distance;
whenever the loop of `load_tables` comes to such a file with room left in the
catalog it stores the empty table; and when the file is the first entry of the
directory, `load_tables` returns 0 with the empty table at the head of the
catalog. -/
theorem load_csv_no_data_succeeds (header : String) (lines : List String)
    (h : lines.filterMap Cli.parseDataLine = [])
    (fs : Cli.FileSystem) (system_filter trajectory_filter : Option String)
    (name system trajectory : String) (charge : Int)
    (hdot : name.toList.head? ≠ some '.')
    (hname : Cli.parse_filename name = some (system, trajectory, charge))
    (hsys : system_filter = none ∨ system_filter = some system)
    (htraj : trajectory_filter = none ∨ trajectory_filter = some trajectory)
    (hopen : fs.fopen ("rangeTables/" ++ name) = some (header :: lines)) :
    Cli.load_csv (some (header :: lines)) Cli.zeroTable = (0, Cli.zeroTable) ∧
    (∀ d, Cli.supports_range (Cli.load_csv (some (header :: lines)) Cli.zeroTable).2 d = false) ∧
    (∀ (rest : List Cli.DirEntry) (tables : List Cli.TableInfo),
      tables.length < Cli.MAX_TABLES →
      ∃ more, Cli.loadTablesLoop fs system_filter trajectory_filter (⟨name, false⟩ :: rest)
          tables =
        tables ++ { system := system, trajectory := trajectory, charge := charge
                    table := Cli.zeroTable } :: more) ∧
    (∀ rest : List Cli.DirEntry, fs.rangeTables = some (⟨name, false⟩ :: rest) →
      (Cli.load_tables fs system_filter trajectory_filter).1 = 0 ∧
      (Cli.load_tables fs system_filter trajectory_filter).2.head? =
        some { system := system, trajectory := trajectory, charge := charge
               table := Cli.zeroTable }) := by
  have hcsv : Cli.load_csv (some (header :: lines)) Cli.zeroTable = (0, Cli.zeroTable) := by
    rw [Cli.load_csv_no_rows header lines _ h]
    rfl
  have hloop : ∀ (rest : List Cli.DirEntry) (tables : List Cli.TableInfo),
      tables.length < Cli.MAX_TABLES →
      ∃ more, Cli.loadTablesLoop fs system_filter trajectory_filter (⟨name, false⟩ :: rest)
          tables =
        tables ++ { system := system, trajectory := trajectory, charge := charge
                    table := Cli.zeroTable } :: more := by
    intro rest tables hroom
    have hstep := Cli.loadTablesLoop_store fs system_filter trajectory_filter name system
      trajectory charge rest tables hroom hdot hname hsys htraj (by rw [hopen, hcsv])
    rw [hopen, hcsv] at hstep
    obtain ⟨more, hmore⟩ := Cli.loadTablesLoop_append fs system_filter trajectory_filter rest
      (tables ++ [{ system := system, trajectory := trajectory, charge := charge
                    table := Cli.zeroTable }])
    refine ⟨more, ?_⟩
    rw [hstep, hmore, List.append_assoc]
    rfl
  refine ⟨hcsv, ?_, hloop, ?_⟩
  · intro d
    rw [hcsv]
    rfl
  · intro rest hdir
    obtain ⟨more, hmore⟩ := hloop rest [] (by decide)
    rw [Cli.load_tables_of_dir _ _ _ _ hdir, hmore]
    exact ⟨rfl, rfl⟩

/-- Witness of C14, amended: the directory `headerOnlyFiles`. -/
theorem load_csv_no_data_succeeds_witness :
    Cli.load_csv (some ["range,mill,diff100m,eta\n"]) Cli.zeroTable = (0, Cli.zeroTable) ∧
    (∀ d, Cli.supports_range
      (Cli.load_csv (some ["range,mill,diff100m,eta\n"]) Cli.zeroTable).2 d = false) ∧
    (Cli.load_tables headerOnlyFiles (some "M109A6") none).1 = 0 ∧
    (Cli.load_tables headerOnlyFiles (some "M109A6") none).2.head? =
      some { system := "M109A6", trajectory := "low", charge := 3, table := Cli.zeroTable } :=
  have h := load_csv_no_data_succeeds "range,mill,diff100m,eta\n" [] rfl headerOnlyFiles
    (some "M109A6") none "M109A6_rangeTable_low_3.csv" "M109A6" "low" 3 (by decide) (by decide)
    (Or.inr rfl) (Or.inl rfl) (by decide)
  ⟨h.1, h.2.1, (h.2.2.2 [] rfl).1, (h.2.2.2 [] rfl).2⟩

/-- C15, the code at the failing inputs: `parse_filename` accepts
`M109A6_rangeTable_low_3.csv` as (M109A6, low, 3) and rejects `junk.txt`, but
it also accepts the same name with the suffix `.txt`, with no suffix and with
text after `.csv`, and it accepts a negative charge: the `sscanf` call has made
its three conversions as soon as `%d` has read a number. -/
theorem parse_filename_ignores_suffix :
    Cli.parse_filename "M109A6_rangeTable_low_3.csv" = some ("M109A6", "low", 3) ∧
    Cli.parse_filename "junk.txt" = none ∧
    Cli.parse_filename "M109A6_rangeTable_low_3.txt" = some ("M109A6", "low", 3) ∧
    Cli.parse_filename "M109A6_rangeTable_low_3" = some ("M109A6", "low", 3) ∧
    Cli.parse_filename "M109A6_rangeTable_low_3.csv.bak" = some ("M109A6", "low", 3) ∧
    Cli.parse_filename "M109A6_rangeTable_low_-3.csv" = some ("M109A6", "low", -3) := by
  refine ⟨by decide, by decide, by decide, by decide, by decide, by decide⟩

/-! ## Runs of the CLI -/

namespace Cli

/-- The step of the loop of `load_tables` on a name that `parse_filename`
rejects: nothing is stored. -/
theorem loadTablesLoop_skip (fs : FileSystem) (system_filter trajectory_filter : Option String)
    (name : String) (rest : List DirEntry) (tables : List TableInfo)
    (hroom : tables.length < MAX_TABLES) (hname : parse_filename name = none) :
    loadTablesLoop fs system_filter trajectory_filter (⟨name, false⟩ :: rest) tables =
      loadTablesLoop fs system_filter trajectory_filter rest tables := by
  rw [loadTablesLoop]
  simp only [hname]
  rw [if_neg (by omega), if_neg (by simp)]
  split <;> rfl

end Cli

theorem load_tables_scenarioFiles :
    Cli.load_tables scenarioFiles (some "M109A6") none = (0, [scenarioInfo]) := by
  have hpath : "rangeTables/" ++ "M109A6_rangeTable_low_3.csv" =
      "rangeTables/M109A6_rangeTable_low_3.csv" := by decide
  have hopen : scenarioFiles.fopen "rangeTables/M109A6_rangeTable_low_3.csv" =
      some scenarioLines := by
    simp [scenarioFiles]
  have hskip := Cli.loadTablesLoop_skip scenarioFiles (some "M109A6") none "junk.txt"
    [⟨"M109A6_rangeTable_low_3.csv", false⟩] [] (by decide) (by decide)
  have hstep := Cli.loadTablesLoop_store scenarioFiles (some "M109A6") none
    "M109A6_rangeTable_low_3.csv" "M109A6" "low" 3 [] [] (by decide) (by decide) (by decide)
    (Or.inr rfl) (Or.inl rfl) (by rw [hpath, hopen, load_csv_scenarioLines])
  rw [hpath, hopen, load_csv_scenarioLines] at hstep
  have hdir : scenarioFiles.rangeTables =
      some [⟨"junk.txt", false⟩, ⟨"M109A6_rangeTable_low_3.csv", false⟩] := rfl
  rw [Cli.load_tables_of_dir _ _ _ _ hdir, hskip, hstep]
  rfl

theorem atof_1500 : CLib.atof "1500".toList = 1500 := by
  rw [atof_of_numeral "1500".toList ⟨false, 1500, 0, 10⟩ (by decide)]
  norm_num [CLib.Numeral.value]

theorem parseArgs_charge_5_list :
    Cli.parseArgs ["--system", "M109A6", "--charge", "5", "--distance", "1500", "--list"] {} =
      { system := some "M109A6", charge := 5, distance := 1500, list_only := true } := by
  have h5 : CLib.atoi "5".toList = 5 := by decide
  rw [Cli.parseArgs, if_pos rfl, Cli.parseArgs, if_neg (by decide), if_neg (by decide),
    if_pos rfl, Cli.parseArgs, if_neg (by decide), if_neg (by decide), if_neg (by decide),
    if_pos rfl, Cli.parseArgs, if_pos rfl, h5, atof_1500]

theorem parseArgs_charge_5 :
    Cli.parseArgs ["--system", "M109A6", "--charge", "5", "--distance", "1500"] {} =
      { system := some "M109A6", charge := 5, distance := 1500 } := by
  have h5 : CLib.atoi "5".toList = 5 := by decide
  rw [Cli.parseArgs, if_pos rfl, Cli.parseArgs, if_neg (by decide), if_neg (by decide),
    if_pos rfl, Cli.parseArgs, if_neg (by decide), if_neg (by decide), if_neg (by decide),
    if_pos rfl, Cli.parseArgs, h5, atof_1500]

theorem parseArgs_charge_5_only :
    Cli.parseArgs ["--system", "M109A6", "--charge", "5"] {} =
      { system := some "M109A6", charge := 5 } := by
  have h5 : CLib.atoi "5".toList = 5 := by decide
  rw [Cli.parseArgs, if_pos rfl, Cli.parseArgs, if_neg (by decide), if_neg (by decide),
    if_pos rfl, Cli.parseArgs, h5]

theorem parseArgs_charge_minus_5 :
    Cli.parseArgs ["--system", "M109A6", "--charge", "-5", "--distance", "1500"] {} =
      { system := some "M109A6", charge := -5, distance := 1500 } := by
  have h5 : CLib.atoi "-5".toList = -5 := by decide
  rw [Cli.parseArgs, if_pos rfl, Cli.parseArgs, if_neg (by decide), if_neg (by decide),
    if_pos rfl, Cli.parseArgs, if_neg (by decide), if_neg (by decide), if_neg (by decide),
    if_pos rfl, Cli.parseArgs, h5, atof_1500]

theorem parseArgs_charge_4294967299 :
    Cli.parseArgs ["--system", "M109A6", "--charge", "4294967299", "--distance", "1500"] {} =
      { system := some "M109A6", charge := 3, distance := 1500 } := by
  have h3 : CLib.atoi "4294967299".toList = 3 := by decide
  rw [Cli.parseArgs, if_pos rfl, Cli.parseArgs, if_neg (by decide), if_neg (by decide),
    if_pos rfl, Cli.parseArgs, if_neg (by decide), if_neg (by decide), if_neg (by decide),
    if_pos rfl, Cli.parseArgs, h3, atof_1500]

theorem scenario_print_results_1500_printed :
    (Cli.print_results [scenarioInfo] 1500 0).printed = true := by
  norm_num [Cli.print_results, Cli.printStep, Cli.resultBlock, Cli.supports_range,
    Cli.interpolate, Cli.interpolateLoop, scenarioInfo, scenarioCliTable, Cli.tableOfRows,
    scenarioRows, Cli.RangeTable.count]

/-- C16 as stated fails, with the table of charge 3 as the only one loaded.
With the charge filter 5 on the command line, a run with `--list` lists the
loaded table and returns 0, and a run without a distance ends with the usage
text; neither ends with the error for a charge without table.  With the charge
filter -5 the test `charge >= 0` skips the filter: the table of charge 3 is
evaluated and the run returns 0, although no loaded table has charge -5.  With
the charge filter 4294967299 the `int` holds 3 and the table of charge 3 is
evaluated. -/
theorem charge_filter_counterexample :
    Cli.load_tables scenarioFiles (some "M109A6") none = (0, [scenarioInfo]) ∧
    (Cli.parseArgs ["--system", "M109A6", "--charge", "5", "--distance", "1500", "--list"]
      {}).charge = 5 ∧
    [scenarioInfo].filter (fun info => decide (info.charge = 5)) = [] ∧
    Cli.main scenarioFiles
      ["--system", "M109A6", "--charge", "5", "--distance", "1500", "--list"] =
      Cli.Exit.listed [scenarioInfo] ∧
    (Cli.main scenarioFiles
      ["--system", "M109A6", "--charge", "5", "--distance", "1500", "--list"]).code = 0 ∧
    Cli.main scenarioFiles ["--system", "M109A6", "--charge", "5"] = Cli.Exit.usage ∧
    (Cli.parseArgs ["--system", "M109A6", "--charge", "-5", "--distance", "1500"]
      {}).charge = -5 ∧
    [scenarioInfo].filter (fun info => decide (info.charge = -5)) = [] ∧
    Cli.main scenarioFiles ["--system", "M109A6", "--charge", "-5", "--distance", "1500"] =
      Cli.Exit.evaluated [scenarioInfo] (Cli.print_results [scenarioInfo] 1500 0) ∧
    (Cli.main scenarioFiles
      ["--system", "M109A6", "--charge", "-5", "--distance", "1500"]).code = 0 ∧
    [scenarioInfo].filter (fun info => decide (info.charge = 4294967299)) = [] ∧
    Cli.main scenarioFiles
      ["--system", "M109A6", "--charge", "4294967299", "--distance", "1500"] =
      Cli.Exit.evaluated [scenarioInfo] (Cli.print_results [scenarioInfo] 1500 0) := by
  have hmain : Cli.main scenarioFiles
      ["--system", "M109A6", "--charge", "5", "--distance", "1500", "--list"] =
      Cli.Exit.listed [scenarioInfo] := by
    simp [Cli.main, parseArgs_charge_5_list, load_tables_scenarioFiles]
  have hfilter : [scenarioInfo].filter (fun info => decide (info.charge = 3)) =
      [scenarioInfo] := by
    rw [List.filter_cons_of_pos (by rfl)]
    rfl
  have hminus : Cli.main scenarioFiles
      ["--system", "M109A6", "--charge", "-5", "--distance", "1500"] =
      Cli.Exit.evaluated [scenarioInfo] (Cli.print_results [scenarioInfo] 1500 0) := by
    simp [Cli.main, Cli.queryPhase, parseArgs_charge_minus_5, load_tables_scenarioFiles]
  have hwrap : Cli.main scenarioFiles
      ["--system", "M109A6", "--charge", "4294967299", "--distance", "1500"] =
      Cli.Exit.evaluated [scenarioInfo] (Cli.print_results [scenarioInfo] 1500 0) := by
    simp only [Cli.main, Cli.queryPhase, parseArgs_charge_4294967299,
      load_tables_scenarioFiles, hfilter]
    norm_num
  refine ⟨load_tables_scenarioFiles, by rw [parseArgs_charge_5_list], by decide, hmain, ?_, ?_,
    by rw [parseArgs_charge_minus_5], by decide, hminus, ?_, by decide, hwrap⟩
  · rw [hmain]
    rfl
  · simp [Cli.main, parseArgs_charge_5_only, load_tables_scenarioFiles]
  · rw [hminus, Cli.Exit.code, scenario_print_results_1500_printed]
    rfl

/-- C16, amended: in a run of the CLI that is a query (no `--version`, a
system, at least one table loaded, no `--list`, a positive distance), let `c`
be the value the variable `charge` holds after the argument loop, which is
what `atoi` reads from the argument of `--charge`.  When `c` is not negative,
`print_results` evaluates exactly the loaded tables of charge `c`, in their
order; when no loaded table has charge `c` the run ends with the error for a
charge without table and the return value 1, and `print_results`, which alone
reports the out-of-range error, is not called.  When `c` is negative no filter
is applied: `print_results` evaluates all loaded tables. -/
theorem charge_filter_query (fs : Cli.FileSystem) (args : List String) (system : String)
    (tables : List Cli.TableInfo) (c : Int)
    (hversion : (Cli.parseArgs args {}).show_version = false)
    (hsystem : (Cli.parseArgs args {}).system = some system)
    (hloaded : Cli.load_tables fs (some system) (Cli.parseArgs args {}).trajectory = (0, tables))
    (hlist : (Cli.parseArgs args {}).list_only = false)
    (hdistance : 0 < (Cli.parseArgs args {}).distance)
    (hcharge : (Cli.parseArgs args {}).charge = c) :
    (0 ≤ c → tables.filter (fun info => decide (info.charge = c)) ≠ [] →
      Cli.main fs args =
        Cli.Exit.evaluated (tables.filter (fun info => decide (info.charge = c)))
          (Cli.print_results (tables.filter (fun info => decide (info.charge = c)))
            (Cli.parseArgs args {}).distance (Cli.parseArgs args {}).altitude_delta)) ∧
    (0 ≤ c → tables.filter (fun info => decide (info.charge = c)) = [] →
      Cli.main fs args = Cli.Exit.noTableForCharge c ∧ (Cli.main fs args).code = 1) ∧
    (c < 0 →
      Cli.main fs args =
        Cli.Exit.evaluated tables
          (Cli.print_results tables (Cli.parseArgs args {}).distance
            (Cli.parseArgs args {}).altitude_delta)) ∧
    tables ≠ [] := by
  have hmain : Cli.main fs args =
      Cli.queryPhase tables c (Cli.parseArgs args {}).distance
        (Cli.parseArgs args {}).altitude_delta := by
    simp only [Cli.main, hversion, hsystem, hloaded, hlist, hcharge, not_le.2 hdistance]
    simp
  have hne : tables ≠ [] := by
    intro hnil
    rw [hnil] at hloaded
    unfold Cli.load_tables at hloaded
    cases hdir : fs.rangeTables with
    | none =>
      rw [hdir] at hloaded
      simp at hloaded
    | some entries =>
      rw [hdir] at hloaded
      simp only [Prod.mk.injEq] at hloaded
      obtain ⟨h1, h2⟩ := hloaded
      rw [h2] at h1
      simp at h1
  rw [hmain]
  unfold Cli.queryPhase
  refine ⟨?_, ?_, ?_, hne⟩
  · intro hc hne
    rw [if_pos hc]
    have : ¬ (tables.filter (fun info => decide (info.charge = c))).length = 0 := by
      rwa [List.length_eq_zero]
    simp only [this, if_false]
  · intro hc hnil
    rw [if_pos hc, hnil]
    exact ⟨rfl, rfl⟩
  · intro hc
    rw [if_neg (by omega)]

/-- Witness of C16, amended: Scenario D, the charge filter 5 with only the
table of charge 3 in the directory, and the same run with the charge filter
-5. -/
theorem charge_filter_query_witness :
    (Cli.main scenarioFiles ["--system", "M109A6", "--charge", "5", "--distance", "1500"] =
      Cli.Exit.noTableForCharge 5 ∧
    (Cli.main scenarioFiles
      ["--system", "M109A6", "--charge", "5", "--distance", "1500"]).code = 1) ∧
    Cli.main scenarioFiles ["--system", "M109A6", "--charge", "-5", "--distance", "1500"] =
      Cli.Exit.evaluated [scenarioInfo]
        (Cli.print_results [scenarioInfo]
          (Cli.parseArgs ["--system", "M109A6", "--charge", "-5", "--distance", "1500"]
            {}).distance
          (Cli.parseArgs ["--system", "M109A6", "--charge", "-5", "--distance", "1500"]
            {}).altitude_delta) :=
  ⟨(charge_filter_query scenarioFiles
    ["--system", "M109A6", "--charge", "5", "--distance", "1500"] "M109A6" [scenarioInfo] 5
    (by rw [parseArgs_charge_5]) (by rw [parseArgs_charge_5])
    (by rw [parseArgs_charge_5]; exact load_tables_scenarioFiles)
    (by rw [parseArgs_charge_5]) (by rw [parseArgs_charge_5]; norm_num)
    (by rw [parseArgs_charge_5])).2.1 (by decide) (by decide),
   (charge_filter_query scenarioFiles
    ["--system", "M109A6", "--charge", "-5", "--distance", "1500"] "M109A6" [scenarioInfo] (-5)
    (by rw [parseArgs_charge_minus_5]) (by rw [parseArgs_charge_minus_5])
    (by rw [parseArgs_charge_minus_5]; exact load_tables_scenarioFiles)
    (by rw [parseArgs_charge_minus_5]) (by rw [parseArgs_charge_minus_5]; norm_num)
    (by rw [parseArgs_charge_minus_5])).2.2.1 (by decide)⟩

/-! ## The envelope of `print_results` -/

namespace Cli

theorem printStep_overall_min (distance altitude_delta : ℚ) (s : PrintState) (info : TableInfo) :
    (printStep distance altitude_delta s info).overall_min =
      if info.table.count > 0 ∧ info.table.min_range < s.overall_min then info.table.min_range
      else s.overall_min := by
  unfold printStep
  cases supports_range info.table distance <;> rfl

theorem printStep_overall_max (distance altitude_delta : ℚ) (s : PrintState) (info : TableInfo) :
    (printStep distance altitude_delta s info).overall_max =
      if info.table.count > 0 ∧ info.table.max_range > s.overall_max then info.table.max_range
      else s.overall_max := by
  unfold printStep
  cases supports_range info.table distance <;> rfl

theorem printStep_printed (distance altitude_delta : ℚ) (s : PrintState) (info : TableInfo)
    (h : supports_range info.table distance = false) :
    (printStep distance altitude_delta s info).printed = s.printed := by
  unfold printStep
  simp [h]

/-- After the loop `overall_min` is a lower bound of its start value and of
`min_range` of every non-empty table, and it is one of these values. -/
theorem printStep_foldl_min (distance altitude_delta : ℚ) (tables : List TableInfo)
    (s : PrintState) :
    ((tables.foldl (printStep distance altitude_delta) s).overall_min ≤ s.overall_min ∧
      ∀ t ∈ tables, t.table.count > 0 →
        (tables.foldl (printStep distance altitude_delta) s).overall_min ≤ t.table.min_range) ∧
    ((tables.foldl (printStep distance altitude_delta) s).overall_min = s.overall_min ∨
      ∃ t ∈ tables, t.table.count > 0 ∧
        (tables.foldl (printStep distance altitude_delta) s).overall_min = t.table.min_range) := by
  induction tables generalizing s with
  | nil => simp
  | cons info rest ih =>
    simp only [List.foldl_cons]
    have hrec := ih (printStep distance altitude_delta s info)
    have hstep := printStep_overall_min distance altitude_delta s info
    generalize (rest.foldl (printStep distance altitude_delta)
      (printStep distance altitude_delta s info)).overall_min = result at hrec
    obtain ⟨⟨hle, hall⟩, hmem⟩ := hrec
    by_cases hc : info.table.count > 0 ∧ info.table.min_range < s.overall_min
    · rw [if_pos hc] at hstep
      rw [hstep] at hle hmem
      refine ⟨⟨le_trans hle (le_of_lt hc.2), ?_⟩, ?_⟩
      · intro t ht hcount
        rcases List.mem_cons.1 ht with rfl | hmem2
        · exact hle
        · exact hall t hmem2 hcount
      · right
        rcases hmem with heq | ⟨t, ht, hcount, heq⟩
        · exact ⟨info, List.mem_cons_self _ _, hc.1, heq⟩
        · exact ⟨t, List.mem_cons_of_mem _ ht, hcount, heq⟩
    · rw [if_neg hc] at hstep
      rw [hstep] at hle hmem
      refine ⟨⟨hle, ?_⟩, ?_⟩
      · intro t ht hcount
        rcases List.mem_cons.1 ht with rfl | hmem2
        · have : ¬ t.table.min_range < s.overall_min := fun hlt => hc ⟨hcount, hlt⟩
          exact le_trans hle (not_lt.1 this)
        · exact hall t hmem2 hcount
      · rcases hmem with heq | ⟨t, ht, hcount, heq⟩
        · exact Or.inl heq
        · exact Or.inr ⟨t, List.mem_cons_of_mem _ ht, hcount, heq⟩

/-- After the loop `overall_max` is an upper bound of its start value and of
`max_range` of every non-empty table, and it is one of these values. -/
theorem printStep_foldl_max (distance altitude_delta : ℚ) (tables : List TableInfo)
    (s : PrintState) :
    (s.overall_max ≤ (tables.foldl (printStep distance altitude_delta) s).overall_max ∧
      ∀ t ∈ tables, t.table.count > 0 →
        t.table.max_range ≤ (tables.foldl (printStep distance altitude_delta) s).overall_max) ∧
    ((tables.foldl (printStep distance altitude_delta) s).overall_max = s.overall_max ∨
      ∃ t ∈ tables, t.table.count > 0 ∧
        (tables.foldl (printStep distance altitude_delta) s).overall_max = t.table.max_range) := by
  induction tables generalizing s with
  | nil => simp
  | cons info rest ih =>
    simp only [List.foldl_cons]
    have hrec := ih (printStep distance altitude_delta s info)
    have hstep := printStep_overall_max distance altitude_delta s info
    generalize (rest.foldl (printStep distance altitude_delta)
      (printStep distance altitude_delta s info)).overall_max = result at hrec
    obtain ⟨⟨hle, hall⟩, hmem⟩ := hrec
    by_cases hc : info.table.count > 0 ∧ info.table.max_range > s.overall_max
    · rw [if_pos hc] at hstep
      rw [hstep] at hle hmem
      refine ⟨⟨le_trans (le_of_lt hc.2) hle, ?_⟩, ?_⟩
      · intro t ht hcount
        rcases List.mem_cons.1 ht with rfl | hmem2
        · exact hle
        · exact hall t hmem2 hcount
      · right
        rcases hmem with heq | ⟨t, ht, hcount, heq⟩
        · exact ⟨info, List.mem_cons_self _ _, hc.1, heq⟩
        · exact ⟨t, List.mem_cons_of_mem _ ht, hcount, heq⟩
    · rw [if_neg hc] at hstep
      rw [hstep] at hle hmem
      refine ⟨⟨hle, ?_⟩, ?_⟩
      · intro t ht hcount
        rcases List.mem_cons.1 ht with rfl | hmem2
        · have : ¬ t.table.max_range > s.overall_max := fun hlt => hc ⟨hcount, hlt⟩
          exact le_trans (not_lt.1 this) hle
        · exact hall t hmem2 hcount
      · rcases hmem with heq | ⟨t, ht, hcount, heq⟩
        · exact Or.inl heq
        · exact Or.inr ⟨t, List.mem_cons_of_mem _ ht, hcount, heq⟩

theorem printStep_foldl_printed (distance altitude_delta : ℚ) (tables : List TableInfo)
    (s : PrintState) (h : ∀ t ∈ tables, supports_range t.table distance = false) :
    (tables.foldl (printStep distance altitude_delta) s).printed = s.printed := by
  induction tables generalizing s with
  | nil => rfl
  | cons info rest ih =>
    simp only [List.foldl_cons]
    rw [ih _ (fun t ht => h t (List.mem_cons_of_mem _ ht)),
      printStep_printed _ _ _ _ (h info (List.mem_cons_self _ _))]

end Cli

/-- C17 as stated fails.  The only candidate table is non-empty, with ranges
-3000 and -1000, and does not support the distance 500: `print_results`
returns 0 and reports no envelope, because `overall_max` is negative.  And for
the only candidate table with ranges 2000000000 and 3000000000 it reports the
envelope [1000000000, 3000000000], because `overall_min` starts at 10^9. -/
theorem envelope_negative_counterexample :
    belowZeroInfo.table.count > 0 ∧
    Cli.supports_range belowZeroInfo.table 500 = false ∧
    Cli.print_results [belowZeroInfo] 500 0 =
      { blocks := [], printed := false, envelope := none } ∧
    farInfo.table.count > 0 ∧
    Cli.supports_range farInfo.table 500 = false ∧
    farInfo.table.min_range = 2000000000 ∧
    Cli.print_results [farInfo] 500 0 =
      { blocks := [], printed := false, envelope := some (1000000000, 3000000000) } := by
  refine ⟨by decide, ?_, ?_, by decide, ?_, rfl, ?_⟩
  · norm_num [Cli.supports_range, belowZeroInfo, Cli.tableOfRows, Cli.RangeTable.count]
  · norm_num [Cli.print_results, Cli.printStep, Cli.supports_range, belowZeroInfo,
      Cli.tableOfRows, Cli.RangeTable.count]
  · norm_num [Cli.supports_range, farInfo, Cli.tableOfRows, Cli.RangeTable.count]
  · norm_num [Cli.print_results, Cli.printStep, Cli.supports_range, farInfo,
      Cli.tableOfRows, Cli.RangeTable.count]

/-- C17, amended: when no candidate table supports the distance, and `m` is
the least `min_range` and `M` the greatest `max_range` of the non-empty
candidate tables, `print_results` prints no block and returns 0; it reports
the envelope `[m, M]` when `M` is not negative and `m` is at most 10^9, and
reports no envelope when `M` is negative. -/
theorem out_of_range_envelope (tables : List Cli.TableInfo) (distance altitude_delta m M : ℚ)
    (hnone : ∀ t ∈ tables, Cli.supports_range t.table distance = false)
    (hm : ∃ t ∈ tables, t.table.count > 0 ∧ t.table.min_range = m)
    (hmin : ∀ t ∈ tables, t.table.count > 0 → m ≤ t.table.min_range)
    (hM : ∃ t ∈ tables, t.table.count > 0 ∧ t.table.max_range = M)
    (hmax : ∀ t ∈ tables, t.table.count > 0 → t.table.max_range ≤ M) :
    (Cli.print_results tables distance altitude_delta).blocks = [] ∧
    (Cli.print_results tables distance altitude_delta).printed = false ∧
    (0 ≤ M → m ≤ 1000000000 →
      (Cli.print_results tables distance altitude_delta).envelope = some (m, M)) ∧
    (M < 0 → (Cli.print_results tables distance altitude_delta).envelope = none) := by
  have hblocks : (Cli.print_results tables distance altitude_delta).blocks = [] := by
    rw [Cli.print_results_blocks]
    have : tables.filter (fun info => Cli.supports_range info.table distance) = [] := by
      rw [List.filter_eq_nil_iff]
      intro t ht
      simp [hnone t ht]
    rw [this]
    rfl
  obtain ⟨⟨hminle, hminall⟩, hminmem⟩ := Cli.printStep_foldl_min distance altitude_delta tables
    { printed := false, overall_min := 1000000000, overall_max := -1000000000, blocks := [] }
  obtain ⟨⟨hmaxle, hmaxall⟩, hmaxmem⟩ := Cli.printStep_foldl_max distance altitude_delta tables
    { printed := false, overall_min := 1000000000, overall_max := -1000000000, blocks := [] }
  have hprinted := Cli.printStep_foldl_printed distance altitude_delta tables
    { printed := false, overall_min := 1000000000, overall_max := -1000000000, blocks := [] }
    hnone
  simp only at hminle hminmem hmaxle hmaxmem hprinted
  have hmaxval : (tables.foldl (Cli.printStep distance altitude_delta)
      { printed := false, overall_min := 1000000000, overall_max := -1000000000,
        blocks := [] }).overall_max = max (-1000000000) M := by
    obtain ⟨t, ht, hcount, hteq⟩ := hM
    have h1 := hmaxall t ht hcount
    rw [hteq] at h1
    apply le_antisymm
    · rcases hmaxmem with heq | ⟨u, hu, hucount, heq⟩
      · rw [heq]; exact le_max_left _ _
      · rw [heq]; exact le_trans (hmax u hu hucount) (le_max_right _ _)
    · exact max_le hmaxle h1
  have hminval : (tables.foldl (Cli.printStep distance altitude_delta)
      { printed := false, overall_min := 1000000000, overall_max := -1000000000,
        blocks := [] }).overall_min = min 1000000000 m := by
    obtain ⟨t, ht, hcount, hteq⟩ := hm
    have h1 := hminall t ht hcount
    rw [hteq] at h1
    apply le_antisymm
    · exact le_min hminle h1
    · rcases hminmem with heq | ⟨u, hu, hucount, heq⟩
      · rw [heq]; exact min_le_left _ _
      · rw [heq]; exact le_trans (min_le_right _ _) (hmin u hu hucount)
  refine ⟨hblocks, ?_, ?_, ?_⟩
  · simp only [Cli.print_results, hprinted]
  · intro hM0 hm9
    simp only [Cli.print_results, hprinted, hmaxval, hminval]
    have h1 : max (-1000000000 : ℚ) M = M := max_eq_right (le_trans (by norm_num) hM0)
    have h2 : min (1000000000 : ℚ) m = m := min_eq_right hm9
    rw [h1, h2]
    simp [hM0]
  · intro hneg
    simp only [Cli.print_results, hprinted, hmaxval]
    have h1 : ¬ max (-1000000000 : ℚ) M ≥ 0 := by
      rw [not_le]
      exact max_lt (by norm_num) hneg
    simp [h1]

/-- Witness of C17, amended: Scenario B, the table with ranges 1000, 2000, 3000
and the distance 500; the envelope reported is [1000, 3000]. -/
theorem out_of_range_envelope_witness :
    (Cli.print_results [scenarioInfo] 500 0).blocks = [] ∧
    (Cli.print_results [scenarioInfo] 500 0).printed = false ∧
    (Cli.print_results [scenarioInfo] 500 0).envelope = some (1000, 3000) :=
  have hmin : scenarioInfo.table.min_range = 1000 := rfl
  have hmax : scenarioInfo.table.max_range = 3000 := rfl
  have hcount : scenarioInfo.table.count > 0 := by decide
  have h := out_of_range_envelope [scenarioInfo] 500 0 1000 3000
    (by
      intro t ht
      rw [List.mem_singleton.1 ht]
      norm_num [Cli.supports_range, scenarioInfo, scenarioCliTable, Cli.tableOfRows,
        Cli.RangeTable.count, scenarioRows])
    ⟨scenarioInfo, List.mem_singleton_self _, hcount, hmin⟩
    (by intro t ht _; rw [List.mem_singleton.1 ht, hmin])
    ⟨scenarioInfo, List.mem_singleton_self _, hcount, hmax⟩
    (by intro t ht _; rw [List.mem_singleton.1 ht, hmax])
  ⟨h.1, h.2.1, h.2.2.1 (by norm_num) (by norm_num)⟩

/-! ## The version comparison -/

namespace CLib

theorem isspace_of_isdigit (c : Char) (h : isdigit c = true) : isspace c = false := by
  simp only [isdigit, Bool.and_eq_true, decide_eq_true_eq] at h
  simp only [isspace, Bool.or_eq_false_iff, decide_eq_false_iff_not, Bool.and_eq_false_imp,
    decide_eq_true_eq]
  omega

theorem scanSign_of_isdigit (c : Char) (s : List Char) (h : isdigit c = true) :
    scanSign (c :: s) = (false, c :: s) := by
  unfold scanSign
  split
  · rename_i heq
    simp only [List.cons.injEq] at heq
    rw [heq.1] at h
    exact absurd h (by decide)
  · rename_i heq
    simp only [List.cons.injEq] at heq
    rw [heq.1] at h
    exact absurd h (by decide)
  · rfl

theorem span_isdigit_append (digits rest : List Char)
    (hd : digits.all isdigit = true) (hr : ∀ c, rest.head? = some c → isdigit c = false) :
    (digits ++ rest).span isdigit = (digits, rest) := by
  rw [List.span_eq_take_drop]
  have hall : ∀ a ∈ digits, isdigit a = true := List.all_eq_true.1 hd
  rw [List.takeWhile_append_of_pos hall, List.dropWhile_append_of_pos hall]
  cases rest with
  | nil => simp
  | cons c l =>
    have := hr c rfl
    simp [this]

/-- A number in the range of `int` is stored as it is. -/
theorem toInt32_clampLong_of_fits (v : Int) (hlo : -INT_MAX - 1 ≤ v) (hhi : v ≤ INT_MAX) :
    toInt32 (clampLong v) = v := by
  unfold INT_MAX at hlo hhi
  unfold toInt32 clampLong LONG_MAX
  rw [if_neg (by omega), if_neg (by omega)]
  omega

/-- The conversion `%d` on a string that starts with a run of digits: it reads
the run, stores the number in an `int` and leaves the rest. -/
theorem scanInt_digits_stored (digits rest : List Char) (hne : digits ≠ [])
    (hd : digits.all isdigit = true) (hr : ∀ c, rest.head? = some c → isdigit c = false) :
    scanInt (digits ++ rest) =
      some (toInt32 (clampLong (decimalValue digits : Int)), rest) := by
  cases digits with
  | nil => exact absurd rfl hne
  | cons c l =>
    have hc : isdigit c = true := (List.all_eq_true.1 hd) c (List.mem_cons_self _ _)
    unfold scanInt
    have hdrop : (c :: l ++ rest).dropWhile isspace = c :: l ++ rest := by
      simp [List.dropWhile, isspace_of_isdigit c hc]
    rw [hdrop]
    have hsign : scanSign (c :: l ++ rest) = (false, c :: l ++ rest) :=
      scanSign_of_isdigit c (l ++ rest) hc
    rw [hsign]
    simp only
    rw [span_isdigit_append (c :: l) rest hd hr]
    simp

/-- The conversion `%d` on a string that starts with a run of digits denoting
a number an `int` can hold: the value is that number. -/
theorem scanInt_digits (digits rest : List Char) (hne : digits ≠ [])
    (hd : digits.all isdigit = true) (hr : ∀ c, rest.head? = some c → isdigit c = false)
    (hfit : (decimalValue digits : Int) ≤ INT_MAX) :
    scanInt (digits ++ rest) = some ((decimalValue digits : Int), rest) := by
  rw [scanInt_digits_stored digits rest hne hd hr,
    toInt32_clampLong_of_fits _ (by unfold INT_MAX; omega) hfit]

end CLib

namespace Updater

theorem not_isdigit_dot : ∀ c, (('.' :: ([] : List Char)).head? = some c) →
    CLib.isdigit c = false := by
  intro c hc
  simp only [List.head?_cons, Option.some.injEq] at hc
  rw [← hc]
  decide

/-- What `sscanf(s, "%d.%d.%d", ...)` reads from a well-formed version
string whose components fit in an `int`: its components, and 0 for each
missing one. -/
theorem scanVersion_versionText (components : List (List Char))
    (h : WellFormedVersion components) (hfit : ComponentsFitInt components) :
    scanVersion (versionText components) =
      (componentValue components 0, componentValue components 1,
        componentValue components 2) := by
  obtain ⟨⟨hlo, hhi⟩, hall⟩ := h
  have hend : ∀ c, ([] : List Char).head? = some c → CLib.isdigit c = false := by
    intro c hc; simp at hc
  have hdot : ∀ (l : List Char) (c : Char), ('.' :: l).head? = some c →
      CLib.isdigit c = false := by
    intro l c hc
    simp only [List.head?_cons, Option.some.injEq] at hc
    rw [← hc]
    decide
  match components, hlo, hhi, hall with
  | [a], _, _, hall =>
    obtain ⟨hane, had⟩ := hall a (by simp)
    have h1 := CLib.scanInt_digits a [] hane had hend (hfit a (by simp))
    rw [List.append_nil] at h1
    simp [versionText, List.intercalate, List.intersperse, scanVersion, h1, CLib.scanLiteral,
      componentValue]
  | [a, b], _, _, hall =>
    obtain ⟨hane, had⟩ := hall a (by simp)
    obtain ⟨hbne, hbd⟩ := hall b (by simp)
    have h1 := CLib.scanInt_digits a ('.' :: b) hane had (hdot b) (hfit a (by simp))
    have h2 := CLib.scanInt_digits b [] hbne hbd hend (hfit b (by simp))
    rw [List.append_nil] at h2
    simp [versionText, List.intercalate, List.intersperse, scanVersion, h1, h2,
      CLib.scanLiteral, componentValue]
  | [a, b, c], _, _, hall =>
    obtain ⟨hane, had⟩ := hall a (by simp)
    obtain ⟨hbne, hbd⟩ := hall b (by simp)
    obtain ⟨hcne, hcd⟩ := hall c (by simp)
    have h1 := CLib.scanInt_digits a ('.' :: (b ++ '.' :: c)) hane had (hdot _)
      (hfit a (by simp))
    have h2 := CLib.scanInt_digits b ('.' :: c) hbne hbd (hdot c) (hfit b (by simp))
    have h3 := CLib.scanInt_digits c [] hcne hcd hend (hfit c (by simp))
    rw [List.append_nil] at h3
    simp [versionText, List.intercalate, List.intersperse, scanVersion, h1, h2, h3,
      CLib.scanLiteral, componentValue]
  | [], hlo, _, _ => simp at hlo
  | _ :: _ :: _ :: _ :: _, _, hhi, _ => simp at hhi

/-- The three tests of `compare_versions` decide the lexicographic order of
the two triples. -/
theorem compare_triples (ma pa ca mb pb cb : Int) :
    ((toLex (mb, toLex (pb, cb)) : ℤ ×ₗ (ℤ ×ₗ ℤ)) < toLex (ma, toLex (pa, ca)) →
      (if ma ≠ mb then (if ma > mb then 1 else -1)
        else if pa ≠ pb then (if pa > pb then 1 else -1)
        else if ca ≠ cb then (if ca > cb then 1 else -1)
        else (0 : Int)) = 1) ∧
    ((toLex (ma, toLex (pa, ca)) : ℤ ×ₗ (ℤ ×ₗ ℤ)) < toLex (mb, toLex (pb, cb)) →
      (if ma ≠ mb then (if ma > mb then 1 else -1)
        else if pa ≠ pb then (if pa > pb then 1 else -1)
        else if ca ≠ cb then (if ca > cb then 1 else -1)
        else (0 : Int)) = -1) ∧
    ((toLex (ma, toLex (pa, ca)) : ℤ ×ₗ (ℤ ×ₗ ℤ)) = toLex (mb, toLex (pb, cb)) →
      (if ma ≠ mb then (if ma > mb then 1 else -1)
        else if pa ≠ pb then (if pa > pb then 1 else -1)
        else if ca ≠ cb then (if ca > cb then 1 else -1)
        else (0 : Int)) = 0) := by
  refine ⟨?_, ?_, ?_⟩
  · intro h
    rw [Prod.Lex.lt_iff] at h
    simp only at h
    rw [Prod.Lex.lt_iff] at h
    simp only at h
    split_ifs <;> omega
  · intro h
    rw [Prod.Lex.lt_iff] at h
    simp only at h
    rw [Prod.Lex.lt_iff] at h
    simp only at h
    split_ifs <;> omega
  · intro h
    have h1 := congrArg (fun x => (ofLex x).1) h
    have h2 := congrArg (fun x => (ofLex (ofLex x).2).1) h
    have h3 := congrArg (fun x => (ofLex (ofLex x).2).2) h
    simp only [ofLex_toLex] at h1 h2 h3
    split_ifs <;> omega

end Updater

/-- C18 as stated fails: the components are stored in `int` variables, so a
component beyond `INT_MAX` is not compared by its value.  The version
4294967297.0.0 has a greater triple than 1.0.0 and `compare_versions` returns
0, as for equal versions (the `int` holds 1); the version 2147483648.0.0 has a
greater triple than 1.0.0 and `compare_versions` returns -1 (the `int` holds
-2147483648). -/
theorem compare_versions_overflow_counterexample :
    Updater.WellFormedVersion ["4294967297".toList, "0".toList, "0".toList] ∧
    Updater.WellFormedVersion ["2147483648".toList, "0".toList, "0".toList] ∧
    Updater.WellFormedVersion ["1".toList, "0".toList, "0".toList] ∧
    Updater.versionTriple ["1".toList, "0".toList, "0".toList] <
      Updater.versionTriple ["4294967297".toList, "0".toList, "0".toList] ∧
    Updater.versionTriple ["1".toList, "0".toList, "0".toList] <
      Updater.versionTriple ["2147483648".toList, "0".toList, "0".toList] ∧
    String.mk (Updater.versionText ["4294967297".toList, "0".toList, "0".toList]) =
      "4294967297.0.0" ∧
    String.mk (Updater.versionText ["2147483648".toList, "0".toList, "0".toList]) =
      "2147483648.0.0" ∧
    String.mk (Updater.versionText ["1".toList, "0".toList, "0".toList]) = "1.0.0" ∧
    Updater.scanVersion "4294967297.0.0".toList = (1, 0, 0) ∧
    Updater.scanVersion "2147483648.0.0".toList = (-2147483648, 0, 0) ∧
    Updater.compare_versions "4294967297.0.0" "1.0.0" = 0 ∧
    Updater.compare_versions "2147483648.0.0" "1.0.0" = -1 := by
  refine ⟨by decide, by decide, by decide, ?_, ?_, by decide, by decide, by decide, by decide,
    by decide, by decide, by decide⟩
  · rw [Updater.versionTriple, Updater.versionTriple, Prod.Lex.lt_iff]
    left
    decide
  · rw [Updater.versionTriple, Updater.versionTriple, Prod.Lex.lt_iff]
    left
    decide

/-- C18, amended: for two version strings of one to three dot-separated
components, each a non-empty string of decimal digits that denotes a number of
at most `INT_MAX` = 2147483647, `compare_versions` returns 1, -1 or 0 as the
triple (major, minor, patch) of the first, missing components taken as 0, is
lexicographically greater than, less than or equal to that of the second; and
`compare("1.2.3","1.2.3") = 0`, `compare("1.3.0","1.2.9") > 0`,
`compare("1.2","1.2.0") = 0`. -/
theorem compare_versions_lexicographic (a b : List (List Char))
    (ha : Updater.WellFormedVersion a) (hb : Updater.WellFormedVersion b)
    (hfa : Updater.ComponentsFitInt a) (hfb : Updater.ComponentsFitInt b) :
    (Updater.versionTriple b < Updater.versionTriple a →
      Updater.compare_versions (String.mk (Updater.versionText a))
        (String.mk (Updater.versionText b)) = 1) ∧
    (Updater.versionTriple a < Updater.versionTriple b →
      Updater.compare_versions (String.mk (Updater.versionText a))
        (String.mk (Updater.versionText b)) = -1) ∧
    (Updater.versionTriple a = Updater.versionTriple b →
      Updater.compare_versions (String.mk (Updater.versionText a))
        (String.mk (Updater.versionText b)) = 0) ∧
    Updater.compare_versions "1.2.3" "1.2.3" = 0 ∧
    Updater.compare_versions "1.3.0" "1.2.9" > 0 ∧
    Updater.compare_versions "1.2" "1.2.0" = 0 := by
  have hva := Updater.scanVersion_versionText a ha hfa
  have hvb := Updater.scanVersion_versionText b hb hfb
  have hcmp : Updater.compare_versions (String.mk (Updater.versionText a))
      (String.mk (Updater.versionText b)) =
      (if Updater.componentValue a 0 ≠ Updater.componentValue b 0 then
        (if Updater.componentValue a 0 > Updater.componentValue b 0 then 1 else -1)
      else if Updater.componentValue a 1 ≠ Updater.componentValue b 1 then
        (if Updater.componentValue a 1 > Updater.componentValue b 1 then 1 else -1)
      else if Updater.componentValue a 2 ≠ Updater.componentValue b 2 then
        (if Updater.componentValue a 2 > Updater.componentValue b 2 then 1 else -1)
      else (0 : Int)) := by
    unfold Updater.compare_versions
    have e1 : (String.mk (Updater.versionText a)).toList = Updater.versionText a := rfl
    have e2 : (String.mk (Updater.versionText b)).toList = Updater.versionText b := rfl
    rw [e1, e2, hva, hvb]
  rw [hcmp]
  have key := Updater.compare_triples (Updater.componentValue a 0) (Updater.componentValue a 1)
    (Updater.componentValue a 2) (Updater.componentValue b 0) (Updater.componentValue b 1)
    (Updater.componentValue b 2)
  exact ⟨key.1, key.2.1, key.2.2, by decide, by decide, by decide⟩

/-- Witness of C18, amended: the versions 1.10 and 1.9.7, and the greatest
component an `int` holds, 2147483647.0 against 2147483646.9. -/
theorem compare_versions_lexicographic_witness :
    Updater.compare_versions
      (String.mk (Updater.versionText ["1".toList, "10".toList]))
      (String.mk (Updater.versionText ["1".toList, "9".toList, "7".toList])) = 1 ∧
    Updater.compare_versions
      (String.mk (Updater.versionText ["2147483647".toList, "0".toList]))
      (String.mk (Updater.versionText ["2147483646".toList, "9".toList])) = 1 :=
  ⟨(compare_versions_lexicographic ["1".toList, "10".toList]
    ["1".toList, "9".toList, "7".toList] (by decide) (by decide) (by decide) (by decide)).1
    (by
      rw [Updater.versionTriple, Updater.versionTriple, Prod.Lex.lt_iff]
      right
      refine ⟨by decide, ?_⟩
      rw [Prod.Lex.lt_iff]
      left
      decide),
   (compare_versions_lexicographic ["2147483647".toList, "0".toList]
    ["2147483646".toList, "9".toList] (by decide) (by decide) (by decide) (by decide)).1
    (by
      rw [Updater.versionTriple, Updater.versionTriple, Prod.Lex.lt_iff]
      left
      decide)⟩

/-! ## The charge override and the Lagrange form -/

/-- C19 as stated fails: the override table gives M1129 no low-angle list, so
with a discovery that finds the charge 5 the low-angle candidate list of
`MainWindow::calculate` for M1129 is [5], not [0, 1, 2]. -/
theorem override_low_counterexample :
    (trajectoryOverrides "M1129").low = [] ∧
    (MainWindow.calculate chargeFiveDisk "M1129" 0 0 1000).lowCharges = [5] ∧
    (MainWindow.calculate chargeFiveDisk "M1129" 0 0 1000).lowCharges ≠ [0, 1, 2] := by
  refine ⟨by decide, by decide, by decide⟩

/-- C19, amended: the override table has one entry, for M1129, and it declares
the charge list [0, 1, 2] for the high trajectory and none for the low one; so
for M1129 the high-angle candidate list of `MainWindow::calculate` is
[0, 1, 2] whatever discovery finds, and its low-angle list is what discovery
finds. -/
theorem override_high_for_m1129 (disk : MainWindow.Disk) (myAlt targetAlt distance : ℚ) :
    trajectoryOverrides "M1129" = { low := [], high := [0, 1, 2] } ∧
    (∀ system, (trajectoryOverrides system).low = []) ∧
    (∀ system, (trajectoryOverrides system).high ≠ [] ↔ system = "M1129") ∧
    (MainWindow.calculate disk "M1129" myAlt targetAlt distance).highCharges = [0, 1, 2] ∧
    (MainWindow.calculate disk "M1129" myAlt targetAlt distance).lowCharges =
      disk.availableCharges "M1129" "low" := by
  refine ⟨by decide, ?_, ?_, ?_, ?_⟩
  · intro system
    unfold trajectoryOverrides
    split <;> rfl
  · intro system
    unfold trajectoryOverrides
    by_cases h : system = "M1129"
    · simp [h]
    · simp [h]
  · simp [MainWindow.calculate, trajectoryOverrides]
  · simp [MainWindow.calculate, trajectoryOverrides]

theorem divide_of_ne_zero (a b : ℚ) (h : b ≠ 0) : CLib.divide a b = some (a / b) := by
  unfold CLib.divide
  rw [if_neg h]

namespace RangeTable

/-- The 2-point branch never divides by zero: checked, it yields the value of
`linear2`. -/
theorem linear2Checked_eq (lower upper : RangeRow) (distance : ℚ) (field : RangeRow → ℚ) :
    linear2Checked lower upper distance field = some (linear2 lower upper distance field) := by
  unfold linear2Checked linear2
  by_cases h : upper.range = lower.range
  · rw [if_pos h, if_pos h]
  · rw [if_neg h, if_neg h, divide_of_ne_zero _ _ (sub_ne_zero.2 h)]
    rfl

/-- With pairwise distinct ranges the 3-point branch divides by zero nowhere:
checked, it yields the value of `quadratic3`. -/
theorem quadratic3Checked_eq (n0 n1 n2 : RangeRow) (distance : ℚ) (field : RangeRow → ℚ)
    (h01 : n0.range ≠ n1.range) (h02 : n0.range ≠ n2.range) (h12 : n1.range ≠ n2.range) :
    quadratic3Checked n0 n1 n2 distance field = some (quadratic3 n0 n1 n2 distance field) := by
  have e1 := divide_of_ne_zero (distance - n1.range) _ (sub_ne_zero.2 h01)
  have e2 := divide_of_ne_zero (distance - n2.range) _ (sub_ne_zero.2 h02)
  have e3 := divide_of_ne_zero (distance - n0.range) _ (sub_ne_zero.2 (Ne.symm h01))
  have e4 := divide_of_ne_zero (distance - n2.range) _ (sub_ne_zero.2 h12)
  have e5 := divide_of_ne_zero (distance - n0.range) _ (sub_ne_zero.2 (Ne.symm h02))
  have e6 := divide_of_ne_zero (distance - n1.range) _ (sub_ne_zero.2 (Ne.symm h12))
  simp only [quadratic3Checked, quadratic3, basisChecked, basis, e1, e2, e3, e4, e5, e6]
  rfl

/-- On neighbours with pairwise distinct ranges `interpolate` divides by zero
nowhere. -/
theorem interpolateChecked_eq (neighbors : List RangeRow) (distance : ℚ)
    (field : RangeRow → ℚ) (hd : DistinctRanges neighbors) :
    interpolateChecked neighbors distance field =
      some (interpolate neighbors distance field) := by
  unfold DistinctRanges at hd
  match neighbors, hd with
  | [], _ => rfl
  | [_], _ => rfl
  | [lower, upper], _ => exact linear2Checked_eq lower upper distance field
  | n0 :: n1 :: n2 :: more, hd =>
    have h1 := List.pairwise_cons.1 hd
    have h2 := List.pairwise_cons.1 h1.2
    have h01 : n0.range ≠ n1.range := h1.1 n1 (by simp)
    have h02 : n0.range ≠ n2.range := h1.1 n2 (by simp)
    have h12 : n1.range ≠ n2.range := h2.1 n2 (by simp)
    simp only [interpolateChecked, interpolate, if_neg h01]
    exact quadratic3Checked_eq n0 n1 n2 distance field h01 h02 h12

end RangeTable

namespace Cli

/-- The ratio of the CLI never divides by zero. -/
theorem ratioChecked_eq (prev curr : RangeRow) (distance : ℚ) :
    ratioChecked prev curr distance =
      some (if curr.range - prev.range = 0 then 0
        else (distance - prev.range) / (curr.range - prev.range)) := by
  unfold ratioChecked
  by_cases h : curr.range - prev.range = 0
  · simp only [h, if_true]
  · simp only [h, if_false]
    exact divide_of_ne_zero _ _ h

end Cli

/-- C21: the zero-span guard.  GUI: on two neighbours `interpolate` is the
2-point branch; with different ranges its value is
`lower + ratio * (upper - lower)` with
`ratio = (distance - lower.range) / (upper.range - lower.range)`, with equal
ranges it is the value of the lower row, also when a third neighbour follows,
and checked it never divides by zero.  CLI: when the scan stops at `upper`
after `lower`, the row returned is `lower + ratio * (upper - lower)` in each
field, the ratio is that quotient for different ranges and 0, without a
division, for equal ranges, and then `mill`, `diff100m` and `eta` are those of
the lower row. -/
theorem zero_span_guard (lower upper : RangeRow) (more : List RangeRow) (distance : ℚ)
    (field : RangeRow → ℚ) :
    RangeTable.interpolate [lower, upper] distance field =
      RangeTable.linear2 lower upper distance field ∧
    RangeTable.interpolateChecked [lower, upper] distance field =
      some (RangeTable.linear2 lower upper distance field) ∧
    (upper.range ≠ lower.range →
      RangeTable.linear2 lower upper distance field =
        field lower + (distance - lower.range) / (upper.range - lower.range) *
          (field upper - field lower)) ∧
    (upper.range = lower.range →
      RangeTable.linear2Checked lower upper distance field = some (field lower) ∧
      RangeTable.interpolateChecked (lower :: upper :: more) distance field =
        some (field lower) ∧
      RangeTable.interpolate (lower :: upper :: more) distance field = field lower) ∧
    (upper.range ≥ distance →
      ∃ ratio, Cli.ratioChecked lower upper distance = some ratio ∧
        (upper.range ≠ lower.range →
          ratio = (distance - lower.range) / (upper.range - lower.range)) ∧
        (upper.range = lower.range → ratio = 0) ∧
        Cli.interpolateLoop distance lower (upper :: more) =
          some { range := distance
                 mill := lower.mill + ratio * (upper.mill - lower.mill)
                 diff100m := lower.diff100m + ratio * (upper.diff100m - lower.diff100m)
                 eta := lower.eta + ratio * (upper.eta - lower.eta) }) ∧
    (upper.range ≥ distance → upper.range = lower.range →
      Cli.interpolateLoop distance lower (upper :: more) =
        some { range := distance, mill := lower.mill, diff100m := lower.diff100m,
               eta := lower.eta }) := by
  refine ⟨rfl, RangeTable.linear2Checked_eq lower upper distance field, ?_, ?_, ?_, ?_⟩
  · intro hne
    unfold RangeTable.linear2
    rw [if_neg hne]
  · intro heq
    have hl : RangeTable.linear2Checked lower upper distance field = some (field lower) := by
      unfold RangeTable.linear2Checked
      rw [if_pos heq]
    have hl2 : RangeTable.linear2 lower upper distance field = field lower := by
      unfold RangeTable.linear2
      rw [if_pos heq]
    refine ⟨hl, ?_, ?_⟩
    · cases more with
      | nil => exact hl
      | cons n2 rest => simp only [RangeTable.interpolateChecked, if_pos heq.symm, hl]
    · cases more with
      | nil => exact hl2
      | cons n2 rest => simp only [RangeTable.interpolate, if_pos heq.symm, hl2]
  · intro hge
    refine ⟨_, Cli.ratioChecked_eq lower upper distance, ?_, ?_, ?_⟩
    · intro hne
      rw [if_neg (sub_ne_zero.2 hne)]
    · intro heq
      rw [if_pos (sub_eq_zero.2 heq)]
    · simp only [Cli.interpolateLoop, if_pos hge]
  · intro hge heq
    simp only [Cli.interpolateLoop, if_pos hge, if_pos (sub_eq_zero.2 heq)]
    simp

/-- Witness of C21: the two rows of `duplicateRows`, both with range 1000, at
distance 1000. -/
theorem zero_span_guard_witness :
    (RangeTable.linear2Checked ⟨1000, 10, 1, 5⟩ ⟨1000, 20, 2, 10⟩ 1000 RangeRow.mill =
        some (10 : ℚ) ∧
      RangeTable.interpolateChecked [⟨1000, 10, 1, 5⟩, ⟨1000, 20, 2, 10⟩] 1000 RangeRow.mill =
        some (10 : ℚ) ∧
      RangeTable.interpolate [⟨1000, 10, 1, 5⟩, ⟨1000, 20, 2, 10⟩] 1000 RangeRow.mill = 10) ∧
    Cli.interpolateLoop 1000 ⟨1000, 10, 1, 5⟩ [⟨1000, 20, 2, 10⟩] =
      some { range := 1000, mill := 10, diff100m := 1, eta := 5 } :=
  have h := zero_span_guard ⟨1000, 10, 1, 5⟩ ⟨1000, 20, 2, 10⟩ [] 1000 RangeRow.mill
  ⟨h.2.2.2.1 rfl, h.2.2.2.2.2 (le_refl _) rfl⟩

namespace RangeTable

/-- The neighbours come back sorted ascending by range. -/
theorem neighborRows_sorted (t : RangeTable) (distance : ℚ) :
    SortedByRange (t.neighborRows distance) := by
  unfold neighborRows
  split
  · exact List.Pairwise.nil
  · exact stdSort_sorted (fun r : RangeRow => r.range) _

end RangeTable

theorem strictlyIncreasing_of_sorted_distinct (rows : List RangeRow) (hs : SortedByRange rows)
    (hd : DistinctRanges rows) : StrictlyIncreasing rows :=
  List.Pairwise.imp₂ (fun _ _ hle hne => lt_of_le_of_ne hle hne) hs hd

/-- C23: on a non-empty table sorted ascending by range (duplicate ranges
allowed), at every distance, `neighborRows` returns between one and three
rows, sorted ascending and with pairwise distinct ranges; so the three
differences of ranges in the 3-point branch are non-zero, the equal-range test
on the first two neighbours is false, and `interpolate`, its divisions
checked, divides by zero nowhere. -/
theorem neighbour_selection_safe (t : RangeTable) (hne : t.m_rows ≠ [])
    (hs : SortedByRange t.m_rows) (distance : ℚ) (field : RangeRow → ℚ) :
    (1 ≤ (t.neighborRows distance).length ∧ (t.neighborRows distance).length ≤ 3) ∧
    SortedByRange (t.neighborRows distance) ∧
    DistinctRanges (t.neighborRows distance) ∧
    StrictlyIncreasing (t.neighborRows distance) ∧
    (∀ n0 n1 n2 more, t.neighborRows distance = n0 :: n1 :: n2 :: more →
      n0.range - n1.range ≠ 0 ∧ n0.range - n2.range ≠ 0 ∧ n1.range - n2.range ≠ 0) ∧
    (∀ n0 n1 more, t.neighborRows distance = n0 :: n1 :: more → n0.range ≠ n1.range) ∧
    RangeTable.interpolateChecked (t.neighborRows distance) distance field =
      some (RangeTable.interpolate (t.neighborRows distance) distance field) := by
  have hsorted := RangeTable.neighborRows_sorted t distance
  have hdistinct := RangeTable.neighborRows_distinct t distance hs
  have hstrict := strictlyIncreasing_of_sorted_distinct _ hsorted hdistinct
  refine ⟨⟨?_, RangeTable.neighborRows_length t distance⟩, hsorted, hdistinct, hstrict, ?_, ?_,
    RangeTable.interpolateChecked_eq _ distance field hdistinct⟩
  · exact List.length_pos.2 (RangeTable.neighborRows_ne_nil t distance hne)
  · intro n0 n1 n2 more heq
    rw [heq] at hdistinct
    unfold DistinctRanges at hdistinct
    have h1 := List.pairwise_cons.1 hdistinct
    have h2 := List.pairwise_cons.1 h1.2
    exact ⟨sub_ne_zero.2 (h1.1 n1 (by simp)), sub_ne_zero.2 (h1.1 n2 (by simp)),
      sub_ne_zero.2 (h2.1 n2 (by simp))⟩
  · intro n0 n1 more heq
    rw [heq] at hdistinct
    unfold DistinctRanges at hdistinct
    exact (List.pairwise_cons.1 hdistinct).1 n1 (by simp)

/-- Witness of C23: the table `duplicateRows`, sorted with a duplicate range,
at distance 1000. -/
theorem neighbour_selection_safe_witness :
    (1 ≤ (RangeTable.neighborRows ⟨"M109A6", "low", 3, duplicateRows⟩ 1000).length ∧
      (RangeTable.neighborRows ⟨"M109A6", "low", 3, duplicateRows⟩ 1000).length ≤ 3) ∧
    DistinctRanges (RangeTable.neighborRows ⟨"M109A6", "low", 3, duplicateRows⟩ 1000) ∧
    RangeTable.interpolateChecked
        (RangeTable.neighborRows ⟨"M109A6", "low", 3, duplicateRows⟩ 1000) 1000 RangeRow.mill =
      some (RangeTable.interpolate
        (RangeTable.neighborRows ⟨"M109A6", "low", 3, duplicateRows⟩ 1000) 1000 RangeRow.mill) :=
  have h := neighbour_selection_safe ⟨"M109A6", "low", 3, duplicateRows⟩
    (by simp [duplicateRows]) (by norm_num [SortedByRange, duplicateRows]) 1000 RangeRow.mill
  ⟨h.1, h.2.2.1, h.2.2.2.2.2.2⟩

/-! ## The linear scan between its bracketing rows -/

namespace Cli

theorem tableOfRows_rows (rows : List RangeRow) : (tableOfRows rows).rows = rows := by
  cases rows <;> rfl

/-- The row `interpolate` returns is the one its loop returns. -/
theorem interpolate_of_loop (first : RangeRow) (rest : List RangeRow) (distance : ℚ)
    (result : RangeRow) (h : interpolateLoop distance first rest = some result) :
    interpolate (tableOfRows (first :: rest)) distance = result := by
  unfold interpolate
  simp only [tableOfRows, h]

/-- The loop of `interpolate` passes over rows below the distance. -/
theorem interpolateLoop_skip (distance : ℚ) (skip rest : List RangeRow) (prev a : RangeRow)
    (h : ∀ x ∈ skip, x.range < distance) (ha : a.range < distance) :
    interpolateLoop distance prev (skip ++ a :: rest) = interpolateLoop distance a rest := by
  induction skip generalizing prev with
  | nil =>
    have hs : ¬ a.range ≥ distance := not_le.2 ha
    simp only [List.nil_append, interpolateLoop, if_neg hs]
  | cons s skip ih =>
    have hs : ¬ s.range ≥ distance := not_le.2 (h s (List.mem_cons_self _ _))
    have hstep : interpolateLoop distance prev (s :: (skip ++ a :: rest)) =
        interpolateLoop distance s (skip ++ a :: rest) := by
      simp only [interpolateLoop, if_neg hs]
    rw [List.cons_append, hstep]
    exact ih s (fun x hx => h x (List.mem_cons_of_mem _ hx))

/-- In a table with strictly increasing ranges, at a distance above the range
of a row `a` and not above that of the next row `b`, `interpolate` returns the
linear interpolation between `a` and `b`. -/
theorem interpolate_between (pre post : List RangeRow) (a b : RangeRow) (distance : ℚ)
    (hs : StrictlyIncreasing (pre ++ a :: b :: post)) (ha : a.range < distance)
    (hb : distance ≤ b.range) :
    interpolate (tableOfRows (pre ++ a :: b :: post)) distance =
      { range := distance
        mill := a.mill + (distance - a.range) / (b.range - a.range) * (b.mill - a.mill)
        diff100m := a.diff100m +
          (distance - a.range) / (b.range - a.range) * (b.diff100m - a.diff100m)
        eta := a.eta + (distance - a.range) / (b.range - a.range) * (b.eta - a.eta) } := by
  have hspan : ¬ b.range - a.range = 0 := by
    have : a.range < b.range := lt_of_lt_of_le ha hb
    exact sub_ne_zero.2 (ne_of_gt this)
  have hstop : interpolateLoop distance a (b :: post) =
      some { range := distance
             mill := a.mill + (distance - a.range) / (b.range - a.range) * (b.mill - a.mill)
             diff100m := a.diff100m +
               (distance - a.range) / (b.range - a.range) * (b.diff100m - a.diff100m)
             eta := a.eta + (distance - a.range) / (b.range - a.range) * (b.eta - a.eta) } := by
    simp only [interpolateLoop, if_pos (show b.range ≥ distance from hb), if_neg hspan]
  cases pre with
  | nil => exact interpolate_of_loop a (b :: post) distance _ hstop
  | cons p pre =>
    apply interpolate_of_loop p (pre ++ a :: b :: post) distance
    rw [interpolateLoop_skip distance pre (b :: post) p a _ ha]
    · exact hstop
    · intro x hx
      have hpw := List.pairwise_append.1 (show ((p :: pre) ++ a :: b :: post).Pairwise
        (fun r s => r.range < s.range) from hs)
      exact lt_trans (hpw.2.2 x (List.mem_cons_of_mem _ hx) a (List.mem_cons_self _ _)) ha

end Cli

/-- C22: in a CLI table with strictly increasing ranges, for adjacent rows `a`,
`b` and distances `d1 <= d2` strictly between their ranges, `interpolate`
returns at each of them the linear interpolation between `a` and `b`; its mill
does not decrease from `d1` to `d2` when `a.mill <= b.mill`, and does not
increase when `a.mill >= b.mill`. -/
theorem cli_interpolate_monotone (pre post : List RangeRow) (a b : RangeRow) (d1 d2 : ℚ)
    (hs : StrictlyIncreasing (pre ++ a :: b :: post))
    (h1 : a.range < d1) (h12 : d1 ≤ d2) (h2 : d2 < b.range) :
    (Cli.interpolate (Cli.tableOfRows (pre ++ a :: b :: post)) d1).mill =
      a.mill + (d1 - a.range) / (b.range - a.range) * (b.mill - a.mill) ∧
    (Cli.interpolate (Cli.tableOfRows (pre ++ a :: b :: post)) d2).mill =
      a.mill + (d2 - a.range) / (b.range - a.range) * (b.mill - a.mill) ∧
    (a.mill ≤ b.mill →
      (Cli.interpolate (Cli.tableOfRows (pre ++ a :: b :: post)) d1).mill ≤
        (Cli.interpolate (Cli.tableOfRows (pre ++ a :: b :: post)) d2).mill) ∧
    (a.mill ≥ b.mill →
      (Cli.interpolate (Cli.tableOfRows (pre ++ a :: b :: post)) d2).mill ≤
        (Cli.interpolate (Cli.tableOfRows (pre ++ a :: b :: post)) d1).mill) := by
  have e1 := Cli.interpolate_between pre post a b d1 hs h1
    (le_of_lt (lt_of_le_of_lt h12 h2))
  have e2 := Cli.interpolate_between pre post a b d2 hs (lt_of_lt_of_le h1 h12) (le_of_lt h2)
  have hspan : 0 < b.range - a.range := by linarith
  have hratio : (d1 - a.range) / (b.range - a.range) ≤ (d2 - a.range) / (b.range - a.range) :=
    div_le_div_of_nonneg_right (by linarith) (le_of_lt hspan)
  rw [e1, e2]
  refine ⟨rfl, rfl, ?_, ?_⟩
  · intro hab
    have := mul_le_mul_of_nonneg_right hratio (sub_nonneg.2 hab)
    simp only
    linarith
  · intro hba
    have := mul_le_mul_of_nonneg_right hratio (sub_nonneg.2 hba)
    simp only
    nlinarith

/-- Witness of C22: the Scenario A table between its rows at 1000 and 2000, at
the distances 1200 and 1500. -/
theorem cli_interpolate_monotone_witness :
    (Cli.interpolate (Cli.tableOfRows scenarioRows) 1200).mill ≤
      (Cli.interpolate (Cli.tableOfRows scenarioRows) 1500).mill :=
  (cli_interpolate_monotone [] [⟨3000, 35, 3 / 2, 14⟩] ⟨1000, 10, 1, 5⟩ ⟨2000, 20, 2, 10⟩
    1200 1500 (by norm_num [StrictlyIncreasing]) (by norm_num) (by norm_num)
    (by norm_num)).2.2.1 (by norm_num)

